import Mathlib

/-!
# uberman: manifest validation, manifest lookup, MySQL credentials, service rendering

A shallow embedding of the Go sources

* `internal/config/app.go`       (`AppManifest`, `FindManifest`, `Validate`)
* `internal/database/mysql.go`   (`GetCredentials`, `GenerateDatabaseName`)
* `internal/supervisor/service.go` (`serviceTemplate`, `CreateService`)

Conventions.  A Go `string` is a Lean `String` (the text is taken to be valid
UTF-8, so byte-wise comparison and code-point comparison agree).  A Go `error`
is an `Option String`: `none` is `nil`, `some msg` is an error whose `Error()`
text is `msg`.  A Go result pair `(T, error)` is a Lean pair.  The process
environment (`$HOME`, the outcome of `os.Stat`, the contents of a file) is an
explicit argument.
-/

set_option maxRecDepth 8000

namespace Uberman

/-! ## Library functions: `path/filepath` (Unix) -/

/-- Cut a path at every `/`; the pieces of `"a//b"` are `a`, the empty piece and `b`. -/
def splitSlash : List Char → List (List Char)
  | [] => [[]]
  | c :: cs =>
    match splitSlash cs with
    | [] => if c = '/' then [[], []] else [[c]]
    | w :: ws => if c = '/' then [] :: w :: ws else (c :: w) :: ws

/-- One element of the path scan of `filepath.Clean`.  `stack` holds the kept
elements, last one first.  An empty element and `.` are dropped; `..` removes
the last kept real element, is dropped at the root, and is kept at the start of
a relative path; any other element is kept. -/
def cleanStep (rooted : Bool) (stack : List (List Char)) (e : List Char) : List (List Char) :=
  if e = [] ∨ e = ['.'] then stack
  else if e = ['.', '.'] then
    match stack with
    | [] => if rooted then [] else [e]
    | top :: rest => if top = ['.', '.'] then e :: stack else rest
  else e :: stack

/-- The function `filepath.Clean` on character lists. -/
def cleanL (path : List Char) : List Char :=
  match path with
  | [] => ['.']
  | c :: _ =>
    let rooted : Bool := c = '/'
    let kept := ((splitSlash path).foldl (cleanStep rooted) []).reverse
    if rooted then '/' :: List.intercalate ['/'] kept
    else if kept = [] then ['.'] else List.intercalate ['/'] kept

/-- Go `filepath.Clean`. -/
def Clean (path : String) : String := ⟨cleanL path.data⟩

/-- Go `filepath.Join`: leading empty elements are skipped, the rest is joined
with `/` and cleaned; with no non-empty element the result is empty. -/
def Join : List String → String
  | [] => ""
  | e :: es =>
    if e = "" then Join es
    else Clean ⟨List.intercalate ['/'] ((e :: es).map String.data)⟩

/-- Go `os.UserHomeDir` on Unix, as a function of the value of `$HOME`. -/
def UserHomeDir (envHome : String) : String × Option String :=
  if envHome ≠ "" then (envHome, none) else ("", some "$HOME is not defined")

/-- Go `filepath.IsAbs` on Unix: the path begins with a slash. -/
def IsAbs (path : String) : Bool := path.data.head? = some '/'

/-! ## `internal/config/app.go` -/

/-- AppConfig defines basic app metadata. -/
structure AppConfig where
  Name : String := ""
  /-- Go field `Type`. -/
  Typ : String := ""
  Version : String := ""
  Description : String := ""
deriving DecidableEq, Repr

/-- RuntimeConfig defines language runtime requirements. -/
structure RuntimeConfig where
  Language : String := ""
  Version : String := ""
deriving DecidableEq, Repr

/-- DatabaseConfig defines database requirements. -/
structure DatabaseConfig where
  /-- Go field `Type`. -/
  Typ : String := ""
  Required : Bool := false
  Name : String := ""
deriving DecidableEq, Repr

/-- InstallConfig defines installation method; `Env` lists the entries of the Go map. -/
structure InstallConfig where
  Method : String := ""
  Source : String := ""
  Command : String := ""
  Location : String := ""
  Env : List (String × String) := []
deriving DecidableEq, Repr

/-- WebConfig defines web server configuration. -/
structure WebConfig where
  Backend : String := ""
  Port : Int := 0
  DocumentRoot : String := ""
  StaticPaths : List String := []
deriving DecidableEq, Repr

/-- ServiceConfig defines a supervisord service. -/
structure ServiceConfig where
  Name : String := ""
  Command : String := ""
  Directory : String := ""
  Port : Int := 0
  Environment : List (String × String) := []
  StartSecs : Int := 0
  AutoRestart : Bool := false
  StdoutLogfile : String := ""
  StderrLogfile : String := ""
deriving DecidableEq, Repr

/-- CronJob represents a single cron entry. -/
structure CronJob where
  Schedule : String := ""
  Command : String := ""
  Log : String := ""
deriving DecidableEq, Repr

/-- CronConfig defines scheduled tasks. -/
structure CronConfig where
  Jobs : List CronJob := []
deriving DecidableEq, Repr

/-- BackupConfig defines backup strategy. -/
structure BackupConfig where
  Include : List String := []
  Exclude : List String := []
deriving DecidableEq, Repr

/-- AppManifest represents the complete app configuration. -/
structure AppManifest where
  App : AppConfig := {}
  Runtime : RuntimeConfig := {}
  Database : DatabaseConfig := {}
  Install : InstallConfig := {}
  Web : WebConfig := {}
  Services : List ServiceConfig := []
  Cron : CronConfig := {}
  Backup : BackupConfig := {}
deriving DecidableEq, Repr

/-- The map literal `validTypes` of `Validate`, as a lookup: a key that is
absent reads as `false`. -/
def validTypes (t : String) : Bool :=
  t = "php" || t = "python" || t = "nodejs" || t = "ruby" || t = "go" || t = "static"

/-- Go `(*AppManifest).Validate`: the checks in source order, each returning
on failure. -/
def AppManifest.Validate (m : AppManifest) : Option String :=
  if m.App.Name = "" then some "app name is required"
  else if m.App.Typ = "" then some "app type is required"
  else if m.Runtime.Language = "" then some "runtime language is required"
  else if !validTypes m.App.Typ then some ("invalid app type: " ++ m.App.Typ)
  else if m.App.Typ ≠ "php" ∧ m.Web.Backend = "http" ∧ m.Web.Port = 0 then
    some "port is required for http backend"
  else none

/-- The slice `searchPaths` of `FindManifest`. -/
def searchPaths (homeDir appName : String) : List String :=
  [ Join [homeDir, "apps", appName, ".uberman.toml"],
    Join ["apps", appName ++ ".toml"],
    Join ["apps", "custom", appName ++ ".toml"],
    Join [homeDir, ".uberman", "apps", appName ++ ".toml"] ]

/-- The loop of `FindManifest` over the search paths: the first path on which
`os.Stat` reports no error is returned. -/
def findLoop (statOk : String → Bool) (appName : String) : List String → String × Option String
  | [] => ("", some ("manifest not found for app: " ++ appName))
  | p :: ps => if statOk p then (p, none) else findLoop statOk appName ps

/-- Go `FindManifest`.  `envHome` is the value of `$HOME`; `statOk p` tells
whether `os.Stat(p)` returns a nil error in the current filesystem. -/
def FindManifest (envHome : String) (statOk : String → Bool) (appName : String) :
    String × Option String :=
  match UserHomeDir envHome with
  | (_, some err) => ("", some err)
  | (homeDir, none) => findLoop statOk appName (searchPaths homeDir appName)

/-! ## `internal/database/mysql.go`: naming -/

/-- Go `fmt.Sprintf` for a format whose only verbs are `%s` and whose operands
are strings: each `%s` is replaced by the next operand (by `%!s(MISSING)` when
the operands have run out), every other character is copied. -/
def sprintfL : List Char → List String → List Char
  | [], _ => []
  | '%' :: 's' :: rest, a :: args => a.data ++ sprintfL rest args
  | '%' :: 's' :: rest, [] => "%!s(MISSING)".data ++ sprintfL rest []
  | c :: rest, args => c :: sprintfL rest args

/-- Go `fmt.Sprintf`, restricted as `sprintfL`. -/
def Sprintf (format : String) (args : List String) : String := ⟨sprintfL format.data args⟩

/-- Go `GenerateDatabaseName`. -/
def GenerateDatabaseName (username appName : String) : String :=
  Sprintf "%s_%s" [username, appName]

/-! ## Library functions: `strings`, `unicode`, `bufio` -/

/-- Go `unicode.IsSpace`: the white-space code points. -/
def isSpace (c : Char) : Bool :=
  c = '\t' || c = '\n' || c = '\x0b' || c = '\x0c' || c = '\r' || c = ' ' ||
  c = '\u0085' || c = '\u00a0' || c = '\u1680' ||
  (0x2000 ≤ c.toNat && c.toNat ≤ 0x200a) ||
  c = '\u2028' || c = '\u2029' || c = '\u202f' || c = '\u205f' || c = '\u3000'

/-- Remove from both ends of `l` every character satisfying `p`. -/
def trimL (p : Char → Bool) (l : List Char) : List Char :=
  ((l.dropWhile p).reverse.dropWhile p).reverse

/-- Go `strings.TrimSpace`. -/
def TrimSpace (s : String) : String := ⟨trimL isSpace s.data⟩

/-- Go `strings.Trim(s, cutset)`. -/
def Trim (s cutset : String) : String := ⟨trimL (fun c => decide (c ∈ cutset.data)) s.data⟩

/-- Go `strings.HasPrefix`. -/
def HasPrefix (s pre : String) : Bool := pre.data.isPrefixOf s.data

/-- Substring test on character lists. -/
def containsL (sub : List Char) : List Char → Bool
  | [] => sub.isEmpty
  | c :: cs => sub.isPrefixOf (c :: cs) || containsL sub cs

/-- Go `strings.Contains`. -/
def Contains (s substr : String) : Bool := containsL substr.data s.data

/-- Cut a character list around the first occurrence of a non-empty separator. -/
def cutL (sep : List Char) : List Char → Option (List Char × List Char)
  | [] => none
  | c :: cs =>
    if sep.isPrefixOf (c :: cs) then some ([], (c :: cs).drop sep.length)
    else (cutL sep cs).map fun p => (c :: p.1, p.2)

/-- Go `strings.SplitN(s, sep, 2)` for a non-empty separator: the text before
and after the first separator, or `s` alone when there is none. -/
def SplitN2 (s sep : String) : List String :=
  match cutL sep.data s.data with
  | none => [s]
  | some (a, b) => [⟨a⟩, ⟨b⟩]

/-- Cut a character list at every newline. -/
def splitNewline : List Char → List (List Char)
  | [] => [[]]
  | c :: cs =>
    match splitNewline cs with
    | [] => if c = '\n' then [[], []] else [[c]]
    | w :: ws => if c = '\n' then [] :: w :: ws else (c :: w) :: ws

/-- The raw lines that `bufio.ScanLines` finds in a text: the pieces between
newlines, without a final empty piece (a text that is empty or ends in a
newline has no further line). -/
def rawLines (text : List Char) : List (List Char) :=
  let segs := splitNewline text
  if segs.getLast? = some [] then segs.dropLast else segs

/-- The helper `dropCR` of `bufio.ScanLines`: one trailing carriage return is removed. -/
def dropCR (l : List Char) : List Char :=
  if l.getLast? = some '\r' then l.dropLast else l

/-- Number of bytes of the UTF-8 encoding of a character list. -/
def byteLen (l : List Char) : Nat := (l.map Char.utf8Size).sum

/-- Go `bufio.MaxScanTokenSize`. -/
def MaxScanTokenSize : Nat := 64 * 1024

/-- A `bufio.Scanner` with the default buffer and `ScanLines` run to the end
over the raw lines of a text: the tokens delivered by successive `Scan` calls
and the final `Err()`.  A raw line that does not fit the buffer together with
room for its newline (`MaxScanTokenSize` bytes or more) stops the scan with
`ErrTooLong`. -/
def scanTokens : List (List Char) → List String × Option String
  | [] => ([], none)
  | seg :: segs =>
    if MaxScanTokenSize ≤ byteLen seg then ([], some "bufio.Scanner: token too long")
    else ((⟨dropCR seg⟩ : String) :: (scanTokens segs).1, (scanTokens segs).2)

/-! ## `internal/database/mysql.go`: credentials -/

/-- Credentials holds MySQL connection information. -/
structure Credentials where
  Host : String := ""
  Port : String := ""
  User : String := ""
  Password : String := ""
  Database : String := ""
deriving DecidableEq, Repr

/-- The `switch key` of `GetCredentials`, for a line already known to be an
assignment inside the client section. -/
def assignLine (creds : Credentials) (line : String) : Credentials :=
  match SplitN2 line "=" with
  | [p0, p1] =>
    let key := TrimSpace p0
    let value := Trim (TrimSpace p1) "\"'"
    if key = "user" then { creds with User := value, Database := value }
    else if key = "password" then { creds with Password := value }
    else if key = "host" then { creds with Host := value }
    else if key = "port" then { creds with Port := value }
    else creds
  | _ => creds

/-- The variables that the scan loop of `GetCredentials` updates. -/
structure ScanState where
  creds : Credentials
  inClientSection : Bool
deriving DecidableEq, Repr

/-- One iteration of the scan loop of `GetCredentials` on the token `tok`. -/
def credsStep (st : ScanState) (tok : String) : ScanState :=
  let line := TrimSpace tok
  if line = "[client]" then { st with inClientSection := true }
  else if HasPrefix line "[" then { st with inClientSection := false }
  else if st.inClientSection && Contains line "=" then
    { st with creds := assignLine st.creds line }
  else st

/-- The state with which `GetCredentials` enters its scan loop. -/
def credsInit : ScanState :=
  { creds := { Host := "localhost", Port := "3306" }, inClientSection := false }

/-- The part of `GetCredentials` after the file has been opened, as a function
of the file's text. -/
def credentialsOfText (text : String) : Option Credentials × Option String :=
  let scanned := scanTokens (rawLines text.data)
  let st := scanned.1.foldl credsStep credsInit
  match scanned.2 with
  | some err => (none, some ("error reading ~/.my.cnf: " ++ err))
  | none =>
    if st.creds.User = "" ∨ st.creds.Password = "" then
      (none, some "could not find MySQL credentials in ~/.my.cnf")
    else (some st.creds, none)

/-- Go `(*MySQLManager).GetCredentials`.  `envHome` is the value of `$HOME`;
`openFile p` is the outcome of `os.Open(p)`: the text of the file that was
opened, or the text of the error of `os.Open`.  A file that was opened is read
to its end: the only read error in the model is the one of the scanner itself
(a token that is too long), so an error of the operating system during the
read, as for a directory at the path, is outside the model. -/
def GetCredentials (envHome : String) (openFile : String → Except String String) :
    Option Credentials × Option String :=
  match UserHomeDir envHome with
  | (_, some err) => (none, some ("failed to get home directory: " ++ err))
  | (homeDir, none) =>
    match openFile (Join [homeDir, ".my.cnf"]) with
    | .error err => (none, some ("failed to open ~/.my.cnf: " ++ err))
    | .ok text => credentialsOfText text

/-! ## `internal/supervisor/service.go` -/

/-- Service represents a supervisord service configuration.  `Environment`
lists the entries of the Go map (a `nil` map and an empty map are both `[]`). -/
structure Service where
  Name : String := ""
  Command : String := ""
  Directory : String := ""
  Environment : List (String × String) := []
  StartSecs : Int := 0
  AutoRestart : Bool := false
  StdoutLogfile : String := ""
  StderrLogfile : String := ""
  User : String := ""
deriving DecidableEq, Repr

/-- Lexicographic comparison of two texts by code point, which for valid
UTF-8 is Go's byte-wise `<=` on strings. -/
def lexLe : List Char → List Char → Bool
  | [], _ => true
  | _ :: _, [] => false
  | a :: as, b :: bs => a.toNat < b.toNat || (a = b && lexLe as bs)

/-- Order of two map entries by key. -/
def keyLe (a b : String × String) : Prop := lexLe a.1.data b.1.data = true

instance : DecidableRel keyLe := fun a b => inferInstanceAs (Decidable (lexLe a.1.data b.1.data = true))

/-- The entries of a map in the order in which `text/template` ranges over
it: ascending keys. -/
def sortedEntries (env : List (String × String)) : List (String × String) :=
  env.insertionSort keyLe

/-- The body of `{{range $key, $value := .Environment}}` in `serviceTemplate`,
over all entries. -/
def renderEnvEntries : List (String × String) → String
  | [] => ""
  | (k, v) :: rest => k ++ "=\"" ++ v ++ "\"," ++ renderEnvEntries rest

/-- Execution of `serviceTemplate` on a service.  Each `{{-` removes the
newline in front of it, so every optional block brings its own leading
newline, and the template ends with one newline. -/
def renderService (s : Service) : String :=
  "[program:" ++ s.Name ++ "]\ncommand=" ++ s.Command ++ "\ndirectory=" ++ s.Directory
  ++ (if s.Environment ≠ [] then
        "\nenvironment=" ++ renderEnvEntries (sortedEntries s.Environment)
      else "")
  ++ "\nstartsecs=" ++ toString s.StartSecs
  ++ "\nautorestart=" ++ (if s.AutoRestart then "true" else "false")
  ++ (if s.StdoutLogfile ≠ "" then "\nstdout_logfile=" ++ s.StdoutLogfile else "")
  ++ (if s.StderrLogfile ≠ "" then "\nstderr_logfile=" ++ s.StderrLogfile else "")
  ++ "\n"

/-- The block `// Default values` of `CreateService`. -/
def serviceDefaults (homeDir : String) (service : Service) : Service :=
  let service := if service.StartSecs = 0 then { service with StartSecs := 15 } else service
  let service := if service.AutoRestart then { service with AutoRestart := true } else service
  let service :=
    if service.StdoutLogfile = "" then
      { service with StdoutLogfile := Join [homeDir, "logs", service.Name ++ ".log"] }
    else service
  let service :=
    if service.StderrLogfile = "" then
      { service with StderrLogfile := Join [homeDir, "logs", service.Name ++ "-error.log"] }
    else service
  service

/-- ServiceManager handles supervisord service management. -/
structure ServiceManager where
  dryRun : Bool
  verbose : Bool
deriving DecidableEq, Repr

/-- What a call of `CreateService` leaves behind: the returned error, the text
printed on standard output, and the file it wrote (path and content), if any. -/
structure CreateServiceResult where
  err : Option String
  stdout : String
  file : Option (String × String)
deriving DecidableEq, Repr

/-- Go `(*ServiceManager).CreateService`.  `envHome` is the value of `$HOME`;
`mkdirAll p` and `create p` are the errors, if any, that `os.MkdirAll` and
`os.Create` report for the path `p`; writing to an opened file succeeds. -/
def ServiceManager.CreateService (m : ServiceManager) (envHome : String)
    (mkdirAll create : String → Option String) (service : Service) : CreateServiceResult :=
  match UserHomeDir envHome with
  | (_, some err) => ⟨some ("failed to get home directory: " ++ err), "", none⟩
  | (homeDir, none) =>
    let service := serviceDefaults homeDir service
    let servicesDir := Join [homeDir, "etc", "services.d"]
    match mkdirAll servicesDir with
    | some err => ⟨some ("failed to create services directory: " ++ err), "", none⟩
    | none =>
      let configPath := Join [servicesDir, service.Name ++ ".ini"]
      let out := if m.verbose then "Creating service configuration: " ++ configPath ++ "\n" else ""
      if m.dryRun then
        ⟨none,
         out ++ "[DRY RUN] Would create service file: " ++ configPath ++ "\n"
           ++ "[DRY RUN] Service configuration:\n" ++ renderService service,
         none⟩
      else
        match create configPath with
        | some err => ⟨some ("failed to create service file: " ++ err), out, none⟩
        | none =>
          ⟨none,
           if m.verbose then out ++ "Service configuration created successfully\n" else out,
           some (configPath, renderService service)⟩


/-! ## `internal/appdir/manager.go`: paths and layout check -/

/-- Manager handles app directory structure. -/
structure Manager where
  appRoot : String
  appName : String
  dryRun : Bool
  verbose : Bool
deriving DecidableEq, Repr

/-- Go `NewManager`.  `envHome` is the value of `$HOME`. -/
def NewManager (envHome : String) (appName : String) (dryRun verbose : Bool) :
    Option Manager × Option String :=
  match UserHomeDir envHome with
  | (_, some err) => (none, some ("failed to get home directory: " ++ err))
  | (homeDir, none) =>
    (some { appRoot := Join [homeDir, "apps", appName], appName := appName,
            dryRun := dryRun, verbose := verbose }, none)

/-- Go `(*Manager).AppRoot`. -/
def Manager.AppRoot (m : Manager) : String := m.appRoot

/-- Go `(*Manager).AppDir`. -/
def Manager.AppDir (m : Manager) : String := Join [m.appRoot, "app"]

/-- Go `(*Manager).DataDir`. -/
def Manager.DataDir (m : Manager) : String := Join [m.appRoot, "data"]

/-- Go `(*Manager).LogsDir`. -/
def Manager.LogsDir (m : Manager) : String := Join [m.appRoot, "logs"]

/-- Go `(*Manager).BackupsDir`. -/
def Manager.BackupsDir (m : Manager) : String := Join [m.appRoot, "backups"]

/-- Go `(*Manager).TmpDir`. -/
def Manager.TmpDir (m : Manager) : String := Join [m.appRoot, "tmp"]

/-- Go `(*Manager).ConfigFile`. -/
def Manager.ConfigFile (m : Manager) : String := Join [m.appRoot, ".uberman.toml"]

/-- The loop of `(*Manager).Validate` over the required directories.  `stat p`
is the outcome of `os.Stat(p)`: `none` for an error, `some d` for a file
information whose `IsDir()` is `d`. -/
def validateDirs (stat : String → Option Bool) : List String → Option String
  | [] => none
  | dir :: rest =>
    match stat dir with
    | none => some ("directory does not exist: " ++ dir)
    | some isDir =>
      if !isDir then some ("path is not a directory: " ++ dir)
      else validateDirs stat rest

/-- Go `(*Manager).Validate` in a filesystem whose `os.Stat` is `stat`. -/
def Manager.Validate (m : Manager) (stat : String → Option Bool) : Option String :=
  match validateDirs stat [m.appRoot, m.AppDir, m.DataDir, m.LogsDir] with
  | some err => some err
  | none =>
    match stat m.ConfigFile with
    | none => some ("config file does not exist: " ++ m.ConfigFile)
    | some _ => none

/-- Go `(*Manager).Exists` in a filesystem whose `os.Stat` is `stat`. -/
def Manager.Exists (m : Manager) (stat : String → Option Bool) : Bool :=
  match stat m.appRoot with
  | none => false
  | some isDir => isDir

/-! ## The filesystem: entries, path resolution and the `os` calls used by `appdir`

The filesystem is a finite tree of directories, regular files and symbolic
links with POSIX path resolution and the Linux limits on the length of a name and
of a path.  Permissions are not modelled: the process may perform every
operation that the shape of the tree allows. -/

/-- An entry of the filesystem. -/
inductive Node where
  | dir
  | file
  | link (target : String)
deriving DecidableEq, Repr

/-- The error numbers that the modelled calls can report. -/
inductive Errno where
  | ENOENT
  | EEXIST
  | ENOTDIR
  | ENOTEMPTY
  | ELOOP
  | ENAMETOOLONG
  | EBUSY
  | EINVAL
deriving DecidableEq, Repr

/-- Go `syscall.Errno.Error()` on Linux. -/
def Errno.text : Errno → String
  | .ENOENT => "no such file or directory"
  | .EEXIST => "file exists"
  | .ENOTDIR => "not a directory"
  | .ENOTEMPTY => "directory not empty"
  | .ELOOP => "too many levels of symbolic links"
  | .ENAMETOOLONG => "file name too long"
  | .EBUSY => "device or resource busy"
  | .EINVAL => "invalid argument"

/-- A filesystem state: the entries other than the root directory, each under
the list of names that leads to it from the root (an earlier entry hides a
later one with the same names), and the names of the working directory. -/
structure FileSystem where
  entries : List (List String × Node)
  cwd : List String
deriving DecidableEq, Repr

/-- The first entry stored under the names `q`. -/
def lookupEntry : List (List String × Node) → List String → Option Node
  | [], _ => none
  | (k, n) :: rest, q => if k = q then some n else lookupEntry rest q

/-- The entry at a physical location; the root is a directory. -/
def FileSystem.lookup (fs : FileSystem) (q : List String) : Option Node :=
  if q = [] then some Node.dir else lookupEntry fs.entries q

/-- The filesystem with a new entry at `q`. -/
def FileSystem.insert (fs : FileSystem) (q : List String) (n : Node) : FileSystem :=
  { fs with entries := (q, n) :: fs.entries }

/-- The filesystem without the entry at `q`. -/
def FileSystem.erase (fs : FileSystem) (q : List String) : FileSystem :=
  { fs with entries := fs.entries.filter fun e => e.1 ≠ q }

/-- Whether the directory at `q` has an entry below it. -/
def FileSystem.hasChildren (fs : FileSystem) (q : List String) : Bool :=
  fs.entries.any fun e => q.isPrefixOf e.1 && decide (e.1 ≠ q)

/-- The names of a path: its pieces between slashes. -/
def pathNames (path : String) : List String :=
  (splitSlash path.data).map String.mk

/-- Linux `NAME_MAX`: the largest number of bytes of one name. -/
def NAME_MAX : Nat := 255

/-- Linux `PATH_MAX`: the number of bytes of a path, its final NUL included. -/
def PATH_MAX : Nat := 4096

/-- The number of symbolic links a resolution may follow (Linux). -/
def maxSymlinks : Nat := 40

/-- A number of names that no resolution exceeds: a path and the targets of
the links followed have fewer than `PATH_MAX` bytes each. -/
def maxPathSteps : Nat := (maxSymlinks + 1) * (PATH_MAX + 1)

/-- POSIX path resolution.  `cur` is the physical location of the directory
reached so far and the list holds the names still to be walked.  Empty names
and `.` stay in place, `..` goes to the parent, a directory is entered, a
symbolic link is replaced by the names of its target (from the root if the
target is absolute), except a link in last position when `follow` is false.
The result is the physical location of the entry named by the path, which may
be absent if only its last name is missing.  A name of more than `NAME_MAX`
bytes is refused.  At most `links` symbolic links are followed and at most
`steps` names are walked. -/
def walk (fs : FileSystem) :
    Nat → Nat → List String → List String → Bool → Except Errno (List String)
  | 0, _, _, _, _ => .error Errno.ENAMETOOLONG
  | _ + 1, _, cur, [], _ => .ok cur
  | steps + 1, links, cur, c :: rest, follow =>
    if c = "" ∨ c = "." then walk fs steps links cur rest follow
    else if c = ".." then walk fs steps links cur.dropLast rest follow
    else if NAME_MAX < byteLen c.data then .error Errno.ENAMETOOLONG
    else
      match fs.lookup (cur ++ [c]) with
      | none =>
        if rest.all (fun x => decide (x = "" ∨ x = ".")) then .ok (cur ++ [c])
        else .error Errno.ENOENT
      | some Node.dir => walk fs steps links (cur ++ [c]) rest follow
      | some Node.file => if rest = [] then .ok (cur ++ [c]) else .error Errno.ENOTDIR
      | some (Node.link target) =>
        if rest = [] ∧ follow = false then .ok (cur ++ [c])
        else
          match links with
          | 0 => .error Errno.ELOOP
          | links + 1 =>
            walk fs steps links (if IsAbs target then [] else cur)
              (pathNames target ++ rest) follow

/-- The physical location that a path names.  The empty path names nothing, a
path with a NUL byte is refused by the Go runtime before the system call, and
a path of `PATH_MAX` bytes or more by the kernel. -/
def resolve (fs : FileSystem) (path : String) (follow : Bool) : Except Errno (List String) :=
  if path = "" then .error Errno.ENOENT
  else if '\x00' ∈ path.data then .error Errno.EINVAL
  else if PATH_MAX ≤ byteLen path.data then .error Errno.ENAMETOOLONG
  else walk fs maxPathSteps maxSymlinks (if IsAbs path then [] else fs.cwd) (pathNames path)
    follow

/-- The system call `stat`: the entry that the path leads to, links followed. -/
def sysStat (fs : FileSystem) (path : String) : Except Errno Node :=
  match resolve fs path true with
  | .error e => .error e
  | .ok q =>
    match fs.lookup q with
    | none => .error Errno.ENOENT
    | some n => .ok n

/-- The system call `lstat`: the entry that the path names, a final link not
followed. -/
def sysLstat (fs : FileSystem) (path : String) : Except Errno Node :=
  match resolve fs path false with
  | .error e => .error e
  | .ok q =>
    match fs.lookup q with
    | none => .error Errno.ENOENT
    | some n => .ok n

/-- Go `os.Stat`, as far as its callers look at it: `none` for an error,
`some d` for a file information whose `IsDir()` is `d`. -/
def osStat (fs : FileSystem) (path : String) : Option Bool :=
  match sysStat fs path with
  | .error _ => none
  | .ok n => some (decide (n = Node.dir))

/-- Go `os.Lstat`, as far as its callers look at it. -/
def osLstat (fs : FileSystem) (path : String) : Option Bool :=
  match sysLstat fs path with
  | .error _ => none
  | .ok n => some (decide (n = Node.dir))

/-- Go `os.Mkdir`: the new filesystem and the error text, if any. -/
def osMkdir (fs : FileSystem) (path : String) : FileSystem × Option String :=
  match resolve fs path false with
  | .error e => (fs, some ("mkdir " ++ path ++ ": " ++ e.text))
  | .ok q =>
    match fs.lookup q with
    | some _ => (fs, some ("mkdir " ++ path ++ ": " ++ Errno.EEXIST.text))
    | none => (fs.insert q Node.dir, none)

/-- The last name of a path, the slashes at its end apart. -/
def lastName (path : String) : String :=
  ((pathNames path).reverse.find? fun c => decide (c ≠ "")).getD ""

/-- Go `os.Remove`: a file or link is unlinked, an empty directory is removed.
Of the two system calls that it tries, the error of `rmdir` is the one
reported for a directory: `rmdir` refuses a path whose last name is `.` with
`EINVAL`, one whose last name is `..` with `ENOTEMPTY`, and the root with
`EBUSY`. -/
def osRemove (fs : FileSystem) (path : String) : FileSystem × Option String :=
  match resolve fs path false with
  | .error e => (fs, some ("remove " ++ path ++ ": " ++ e.text))
  | .ok q =>
    if lastName path = "." then (fs, some ("remove " ++ path ++ ": " ++ Errno.EINVAL.text))
    else if lastName path = ".." then
      (fs, some ("remove " ++ path ++ ": " ++ Errno.ENOTEMPTY.text))
    else if q = [] then (fs, some ("remove " ++ path ++ ": " ++ Errno.EBUSY.text))
    else
      match fs.lookup q with
      | none => (fs, some ("remove " ++ path ++ ": " ++ Errno.ENOENT.text))
      | some Node.dir =>
        if fs.hasChildren q then
          (fs, some ("remove " ++ path ++ ": " ++ Errno.ENOTEMPTY.text))
        else (fs.erase q, none)
      | some _ => (fs.erase q, none)

/-- Go `os.Symlink(oldname, newname)`: a link at `newname` whose target is
the text `oldname`, which is not resolved. -/
def osSymlink (fs : FileSystem) (oldname newname : String) : FileSystem × Option String :=
  let failure (e : Errno) : FileSystem × Option String :=
    (fs, some ("symlink " ++ oldname ++ " " ++ newname ++ ": " ++ e.text))
  if '\x00' ∈ oldname.data then failure Errno.EINVAL
  else if oldname = "" then failure Errno.ENOENT
  else if PATH_MAX ≤ byteLen oldname.data then failure Errno.ENAMETOOLONG
  else
    match resolve fs newname false with
    | .error e => failure e
    | .ok q =>
      match fs.lookup q with
      | some _ => failure Errno.EEXIST
      | none => (fs.insert q (Node.link oldname), none)

/-- The parent that `os.MkdirAll` creates first: the path without its last
element and the separator before it, if that leaves more than nothing. -/
def mkdirAllParent (path : List Char) : Option (List Char) :=
  let stripped := (path.reverse.dropWhile fun c => c = '/').reverse
  let upToElement := (stripped.reverse.dropWhile fun c => c ≠ '/').reverse
  if 1 < upToElement.length then some upToElement.dropLast else none

/-- Go `os.MkdirAll`, with a recursion budget (the parent is shorter than the
path, so the length of the path is enough). -/
def mkdirAllFuel : Nat → FileSystem → String → FileSystem × Option String
  | 0, fs, path => (fs, some ("mkdir " ++ path ++ ": " ++ Errno.ENAMETOOLONG.text))
  | fuel + 1, fs, path =>
    match osStat fs path with
    | some true => (fs, none)
    | some false => (fs, some ("mkdir " ++ path ++ ": " ++ Errno.ENOTDIR.text))
    | none =>
      let made : FileSystem × Option String :=
        match mkdirAllParent path.data with
        | some parent => mkdirAllFuel fuel fs ⟨parent⟩
        | none => (fs, none)
      match made with
      | (fs1, some err) => (fs1, some err)
      | (fs1, none) =>
        match osMkdir fs1 path with
        | (fs2, none) => (fs2, none)
        | (fs2, some err) =>
          match osLstat fs2 path with
          | some true => (fs2, none)
          | _ => (fs2, some err)

/-- Go `os.MkdirAll`. -/
def osMkdirAll (fs : FileSystem) (path : String) : FileSystem × Option String :=
  mkdirAllFuel (path.length + 1) fs path

/-! ## `internal/appdir/manager.go`: creating the layout -/

/-- What a call that prints and changes the filesystem leaves behind. -/
structure Outcome where
  fs : FileSystem
  stdout : String
  err : Option String
deriving DecidableEq, Repr

/-- The loop of `(*Manager).Create` over the directories. -/
def createDirs (m : Manager) : List String → FileSystem → String → Outcome
  | [], fs, out => ⟨fs, out, none⟩
  | dir :: rest, fs, out =>
    let out := if m.verbose then out ++ "Creating directory: " ++ dir ++ "\n" else out
    if m.dryRun then
      createDirs m rest fs (out ++ "[DRY RUN] Would create directory: " ++ dir ++ "\n")
    else
      match osMkdirAll fs dir with
      | (fs1, some err) =>
        ⟨fs1, out, some ("failed to create directory " ++ dir ++ ": " ++ err)⟩
      | (fs1, none) => createDirs m rest fs1 out

/-- Go `(*Manager).createLogSymlink`.  `envHome` is the value of `$HOME`. -/
def Manager.createLogSymlink (m : Manager) (envHome : String) (fs : FileSystem)
    (out : String) : Outcome :=
  match UserHomeDir envHome with
  | (_, some err) => ⟨fs, out, some ("failed to get home directory: " ++ err)⟩
  | (homeDir, none) =>
    let centralLogsDir := Join [homeDir, "logs"]
    match osMkdirAll fs centralLogsDir with
    | (fs1, some err) =>
      ⟨fs1, out, some ("failed to create central logs directory: " ++ err)⟩
    | (fs1, none) =>
      let symlinkPath := Join [centralLogsDir, m.appName]
      let targetPath := m.LogsDir
      let out :=
        if m.verbose then
          out ++ "Creating log symlink: " ++ symlinkPath ++ " -> " ++ targetPath ++ "\n"
        else out
      if m.dryRun then
        ⟨fs1, out ++ "[DRY RUN] Would create symlink: " ++ symlinkPath ++ " -> "
          ++ targetPath ++ "\n", none⟩
      else
        let removed : FileSystem × Option String :=
          match osLstat fs1 symlinkPath with
          | some _ => osRemove fs1 symlinkPath
          | none => (fs1, none)
        match removed with
        | (fs2, some err) => ⟨fs2, out, some ("failed to remove existing symlink: " ++ err)⟩
        | (fs2, none) =>
          match osSymlink fs2 targetPath symlinkPath with
          | (fs3, some err) => ⟨fs3, out, some ("failed to create log symlink: " ++ err)⟩
          | (fs3, none) => ⟨fs3, out, none⟩

/-- Go `(*Manager).Create`.  `envHome` is the value of `$HOME`. -/
def Manager.Create (m : Manager) (envHome : String) (fs : FileSystem) : Outcome :=
  let out :=
    if m.verbose then "Creating app directory structure for: " ++ m.appName ++ "\n" else ""
  match createDirs m [m.appRoot, m.AppDir, m.DataDir, m.LogsDir, m.BackupsDir, m.TmpDir]
      fs out with
  | ⟨fs1, out1, some err⟩ => ⟨fs1, out1, some err⟩
  | ⟨fs1, out1, none⟩ =>
    match m.createLogSymlink envHome fs1 out1 with
    | ⟨fs2, out2, some err⟩ => ⟨fs2, out2, some err⟩
    | ⟨fs2, out2, none⟩ =>
      ⟨fs2, if m.verbose then out2 ++ "App directory structure created successfully\n"
            else out2, none⟩

/-! ## `internal/web/backend.go`: setting a backend -/

/-- BackendManager handles Uberspace web backend configuration. -/
structure BackendManager where
  dryRun : Bool
  verbose : Bool
deriving DecidableEq, Repr

/-- Backend represents a web backend configuration. -/
structure Backend where
  Path : String := ""
  /-- Go field `Type`. -/
  Typ : String := ""
  Port : Int := 0
  Domain : String := ""
deriving DecidableEq, Repr

/-- What a call that prints and runs external commands leaves behind: the text
printed on standard output, the commands executed (name and arguments), in
order, and the returned error. -/
structure Ran where
  stdout : String
  commands : List (String × List String)
  err : Option String
deriving DecidableEq, Repr

/-- Go `fmt.Sprintf("%d", n)`: the decimal numeral of an integer. -/
def formatInt (n : Int) : String := toString n

/-- Go `strings.Join(elems, " ")`. -/
def joinSpace (elems : List String) : String := " ".intercalate elems

/-- Go `(*BackendManager).SetBackend`.  `run name args` is what
`exec.Command(name, args...).CombinedOutput()` gives: the combined output and
the text of the error, if any. -/
def BackendManager.SetBackend (m : BackendManager)
    (run : String → List String → String × Option String) (backend : Backend) : Ran :=
  let args : List String :=
    if backend.Domain ≠ "" then
      ["web", "backend", "set", backend.Path, "--domain", backend.Domain]
    else ["web", "backend", "set", backend.Path]
  let typed : Option (List String) :=
    if backend.Typ = "apache" then some (args ++ ["--apache"])
    else if backend.Typ = "http" then
      some (args ++ ["--http", "--port", formatInt backend.Port])
    else none
  match typed with
  | none =>
    ⟨"", [], some (Sprintf "invalid backend type: %s (must be 'apache' or 'http')"
      [backend.Typ])⟩
  | some args =>
    let out := if m.verbose then "Setting backend: " ++ joinSpace args ++ "\n" else ""
    if m.dryRun then
      ⟨out ++ "[DRY RUN] Would execute: uberspace " ++ joinSpace args ++ "\n", [], none⟩
    else
      match run "uberspace" args with
      | (output, some err) =>
        ⟨out, [("uberspace", args)],
          some ("failed to set backend: " ++ err ++ "\nOutput: " ++ output)⟩
      | (output, none) =>
        ⟨if m.verbose then out ++ "Output: " ++ output ++ "\n" else out,
          [("uberspace", args)], none⟩

/-! ## `internal/web/backend.go`: listing backends and finding a port -/

/-- Go `strings.Split(s, "\n")`. -/
def splitLines (s : String) : List String := (splitNewline s.data).map String.mk

/-- Go `(*BackendManager).ListBackends`: the non-empty trimmed lines of the
output of `uberspace web backend list`. -/
def BackendManager.ListBackends (_ : BackendManager)
    (run : String → List String → String × Option String) : List String × Option String :=
  match run "uberspace" ["web", "backend", "list"] with
  | (_, some err) => ([], some ("failed to list backends: " ++ err))
  | (output, none) =>
    (((splitLines output).map TrimSpace).filter (fun line => line ≠ ""), none)

/-- Why a scan of package `fmt` stopped. -/
inductive ScanFailure where
  | unexpectedNewline
  | endOfInput
  | badVerb (verb : Char)
deriving DecidableEq, Repr

/-- The method `(*ss).SkipSpace` of package `fmt` inside `Sscanf`, where a
newline does not count as space: white space is skipped up to the first other
character, and a newline is an error. -/
def scanSkipSpace : List Char → Except ScanFailure (List Char)
  | [] => .ok []
  | c :: cs =>
    if c = '\n' then .error ScanFailure.unexpectedNewline
    else if isSpace c then scanSkipSpace cs
    else .ok (c :: cs)

/-- Go `fmt.Sscanf(str, "%*s => http:%d", &port)`, as far as it gets: the
value stored in `port` when the error is nil.  Scanning in package `fmt` has
no assignment suppression: after `%` it reads an optional decimal width, of
which there is none here, and takes the next character, `*`, as the verb.  The
verb is not `c`, so white space is skipped; it is not `%`, so the next
operand, `&port`, is taken and, being an `*int`, scanned by `scanInt` under
the verb `*`: white space is skipped, exhausted input is an error, and then
`getBase` rejects a verb that is none of `bdoUxXv`.  The scan stops at this
first directive in every case; the rest of the format is never reached. -/
def sscanfBackendPort (str : String) : Except ScanFailure Int :=
  match scanSkipSpace str.data with
  | .error e => .error e
  | .ok rest =>
    match scanSkipSpace rest with
    | .error e => .error e
    | .ok [] => .error ScanFailure.endOfInput
    | .ok (_ :: _) => .error (ScanFailure.badVerb '*')

/-- The keys of the map `usedPorts` of `FindAvailablePort`: the ports that the
scan of the backend lines stored. -/
def usedPorts (backends : List String) : List Int :=
  backends.filterMap fun backend =>
    match sscanfBackendPort backend with
    | .ok port => some port
    | .error _ => none

/-- The loop `for port := start; port <= end; port++` of `FindAvailablePort`:
the first port that is not a key of `usedPorts`.  `fuel` bounds the number
of rounds; `end - start + 1` rounds are enough. -/
def findPortLoop (used : List Int) (last : Int) : Nat → Int → Option Int
  | 0, _ => none
  | fuel + 1, port =>
    if port ≤ last then
      if port ∉ used then some port else findPortLoop used last fuel (port + 1)
    else none

/-- Go `(*BackendManager).FindAvailablePort`.  The Go `int` arguments are
integers here; after the clamping the loop counter stays below 65536. -/
def BackendManager.FindAvailablePort (m : BackendManager)
    (run : String → List String → String × Option String) (start last : Int) :
    Int × Option String :=
  let start := if start < 1024 then 1024 else start
  let last := if last > 65535 then 65535 else last
  match m.ListBackends run with
  | (_, some err) => (0, some err)
  | (backends, none) =>
    match findPortLoop (usedPorts backends) last (last - start + 1).toNat start with
    | some port => (port, none)
    | none =>
      (0, some ("no available ports in range " ++ formatInt start ++ "-" ++ formatInt last))

/-! ## `os.Stat` as the manifest lookup sees it -/

/-- Whether `os.Stat(p)` returns a nil error in the filesystem `fs`: the path
resolves to an entry, of whatever kind. -/
def statSucceeds (fs : FileSystem) (p : String) : Bool := (osStat fs p).isSome

/-! ## `internal/runtime/uberspace.go`, `internal/database/mysql.go`: commands of install -/

/-- Go `runtime.Manager`: handles Uberspace runtime version management. -/
structure RuntimeManager where
  dryRun : Bool
  verbose : Bool
deriving DecidableEq, Repr

/-- Go `(*runtime.Manager).SetVersion`. -/
def RuntimeManager.SetVersion (m : RuntimeManager)
    (run : String → List String → String × Option String) (language version : String) : Ran :=
  let out :=
    if m.verbose then "Setting " ++ language ++ " version to " ++ version ++ "\n" else ""
  if m.dryRun then
    ⟨out ++ "[DRY RUN] Would execute: uberspace tools version use " ++ language ++ " "
      ++ version ++ "\n", [], none⟩
  else
    match run "uberspace" ["tools", "version", "use", language, version] with
    | (output, some err) =>
      ⟨out, [("uberspace", ["tools", "version", "use", language, version])],
        some ("failed to set " ++ language ++ " version: " ++ err ++ "\nOutput: " ++ output)⟩
    | (output, none) =>
      ⟨if m.verbose then out ++ "Output: " ++ output ++ "\n" else out,
        [("uberspace", ["tools", "version", "use", language, version])], none⟩

/-- MySQLManager handles MySQL database operations on Uberspace. -/
structure MySQLManager where
  dryRun : Bool
  verbose : Bool
deriving DecidableEq, Repr

/-- The statement that `CreateDatabase` passes to `mysql -e`: the name between
backquotes. -/
def createDatabaseStatement (name : String) : String :=
  "CREATE DATABASE IF NOT EXISTS \x60" ++ name ++ "\x60"

/-- Go `(*MySQLManager).CreateDatabase`. -/
def MySQLManager.CreateDatabase (m : MySQLManager)
    (run : String → List String → String × Option String) (name : String) : Ran :=
  let out := if m.verbose then "Creating database: " ++ name ++ "\n" else ""
  if m.dryRun then
    ⟨out ++ "[DRY RUN] Would execute: mysql -e \"CREATE DATABASE IF NOT EXISTS " ++ name
      ++ "\"\n", [], none⟩
  else
    match run "mysql" ["-e", createDatabaseStatement name] with
    | (output, some err) =>
      ⟨out, [("mysql", ["-e", createDatabaseStatement name])],
        some ("failed to create database: " ++ err ++ "\nOutput: " ++ output)⟩
    | (_, none) =>
      ⟨if m.verbose then out ++ "Database " ++ name ++ " created successfully\n" else out,
        [("mysql", ["-e", createDatabaseStatement name])], none⟩

/-! ## `internal/config/app.go`: loading, and `cmd/uberman/install.go` -/

/-- Go `LoadManifest`.  `readFile p` is the outcome of `os.ReadFile(p)` and
`unmarshal data` that of `toml.Unmarshal` of the data into an empty manifest:
the result, or the text of the error. -/
def LoadManifest (readFile : String → Except String String)
    (unmarshal : String → Except String AppManifest) (path : String) :
    Option AppManifest × Option String :=
  match readFile path with
  | .error err => (none, some ("failed to read manifest: " ++ err))
  | .ok data =>
    match unmarshal data with
    | .error err => (none, some ("failed to parse manifest: " ++ err))
    | .ok manifest => (some manifest, none)

/-- What a run of `install` leaves behind: the filesystem, the text printed on
standard output, the commands executed, the names with which `CreateDatabase`
was called, and the returned error. -/
structure Installed where
  fs : FileSystem
  stdout : String
  commands : List (String × List String)
  databases : List String
  err : Option String
deriving DecidableEq, Repr

/-- The closing lines that `runInstall` prints. -/
def installClosing (appName appRoot : String) : String :=
  "\n✓ App '" ++ appName ++ "' installed successfully!\n" ++ "\nNext steps:\n"
  ++ "  - Check status: uberman status " ++ appName ++ "\n"
  ++ "  - View logs: tail -f ~/logs/" ++ appName ++ "/\n"
  ++ "  - App directory: " ++ appRoot ++ "\n"

/-- Go `runInstall` with the one argument `appName`.  `dryRun` and `verbose`
are the global flags, `envHome` and `envUser` the values of `$HOME` and
`$USER`, `fs` the filesystem at the start, `readFile` and `unmarshal` as in
`LoadManifest`, `run` as in `SetBackend`.  A nil pointer next to a nil error
does not occur. -/
def runInstall (dryRun verbose : Bool) (envHome envUser : String) (fs : FileSystem)
    (readFile : String → Except String String)
    (unmarshal : String → Except String AppManifest)
    (run : String → List String → String × Option String) (appName : String) : Installed :=
  let out := if verbose then "Installing app: " ++ appName ++ "\n" else ""
  match FindManifest envHome (statSucceeds fs) appName with
  | (_, some err) => ⟨fs, out, [], [], some ("failed to find manifest: " ++ err)⟩
  | (manifestPath, none) =>
    let out := if verbose then out ++ "Loading manifest from: " ++ manifestPath ++ "\n" else out
    match LoadManifest readFile unmarshal manifestPath with
    | (_, some err) => ⟨fs, out, [], [], some ("failed to load manifest: " ++ err)⟩
    | (none, none) => ⟨fs, out, [], [], some "nil manifest"⟩
    | (some manifest, none) =>
      match manifest.Validate with
      | some err => ⟨fs, out, [], [], some ("invalid manifest: " ++ err)⟩
      | none =>
        let out :=
          if verbose then
            out ++ "Manifest validated successfully\n"
              ++ "App: " ++ manifest.App.Name ++ " v" ++ manifest.App.Version ++ " ("
              ++ manifest.App.Typ ++ ")\n"
              ++ "Runtime: " ++ manifest.Runtime.Language ++ " " ++ manifest.Runtime.Version
              ++ "\n"
          else out
        match NewManager envHome appName dryRun verbose with
        | (_, some err) =>
          ⟨fs, out, [], [], some ("failed to create directory manager: " ++ err)⟩
        | (none, none) => ⟨fs, out, [], [], some "nil manager"⟩
        | (some dirManager, none) =>
          if dirManager.Exists (osStat fs) then
            ⟨fs, out, [], [], some ("app already exists at: " ++ dirManager.AppRoot)⟩
          else
            match dirManager.Create envHome fs with
            | ⟨fs1, out1, some err⟩ =>
              ⟨fs1, out ++ out1, [], [], some ("failed to create app directories: " ++ err)⟩
            | ⟨fs1, out1, none⟩ =>
              let out :=
                out ++ out1 ++ "✓ Created app directory structure at: " ++ dirManager.AppRoot
                  ++ "\n"
              match (RuntimeManager.mk dryRun verbose).SetVersion run
                  manifest.Runtime.Language manifest.Runtime.Version with
              | ⟨out2, ran2, some err⟩ =>
                ⟨fs1, out ++ out2, ran2, [], some ("failed to set runtime version: " ++ err)⟩
              | ⟨out2, ran2, none⟩ =>
                let out :=
                  out ++ out2 ++ "✓ Set " ++ manifest.Runtime.Language ++ " version to "
                    ++ manifest.Runtime.Version ++ "\n"
                if manifest.Database.Required then
                  let username := envUser
                  let dbName :=
                    if manifest.Database.Name = "" then GenerateDatabaseName username appName
                    else manifest.Database.Name
                  match (MySQLManager.mk dryRun verbose).CreateDatabase run dbName with
                  | ⟨out3, ran3, some err⟩ =>
                    ⟨fs1, out ++ out3, ran2 ++ ran3, [dbName],
                      some ("failed to create database: " ++ err)⟩
                  | ⟨out3, ran3, none⟩ =>
                    ⟨fs1,
                      out ++ out3 ++ "✓ Created database: " ++ dbName ++ "\n"
                        ++ installClosing appName dirManager.AppRoot,
                      ran2 ++ ran3, [dbName], none⟩
                else
                  ⟨fs1, out ++ installClosing appName dirManager.AppRoot, ran2, [], none⟩

/-! ## Specification-side definitions -/

/-- The five rules of manifest validation, numbered from 0 in the order of the
specification: rule `i` is violated by `m`. -/
def ruleViolated (m : AppManifest) : Nat → Prop
  | 0 => m.App.Name = ""
  | 1 => m.App.Typ = ""
  | 2 => m.Runtime.Language = ""
  | 3 => m.App.Typ ∉ ["php", "python", "nodejs", "ruby", "go", "static"]
  | 4 => m.App.Typ ≠ "php" ∧ m.Web.Backend = "http" ∧ m.Web.Port = 0
  | _ => False

/-- The error message that the specification attaches to rule `i`. -/
def ruleMessage (m : AppManifest) : Nat → String
  | 0 => "app name is required"
  | 1 => "app type is required"
  | 2 => "runtime language is required"
  | 3 => "invalid app type: " ++ m.App.Typ
  | _ => "port is required for http backend"

/-- The lines of a text as a reader of the file sees them: the pieces between
newlines, each without a trailing carriage return. -/
def fileLines (text : String) : List String :=
  (rawLines text.data).map fun l => ⟨dropCR l⟩

/-- The key=value lines of a credentials file that lie inside a section opened
by a header line that is exactly `[client]` after trimming, in file order and
trimmed.  Any other line starting with `[` opens another section.  `inClient`
tells whether the lines start inside a client section. -/
def clientAssignments : Bool → List String → List String
  | _, [] => []
  | inClient, l :: ls =>
    if TrimSpace l = "[client]" then clientAssignments true ls
    else if HasPrefix (TrimSpace l) "[" then clientAssignments false ls
    else if inClient = true ∧ '=' ∈ (TrimSpace l).data then
      TrimSpace l :: clientAssignments inClient ls
    else clientAssignments inClient ls

/-- A credentials file without its foreign lines: every line that is not a
header and lies before the first header or inside a section other than
`[client]` is removed; headers and the lines of client sections stay. -/
def withoutForeignLines : Bool → List String → List String
  | _, [] => []
  | inClient, l :: ls =>
    if TrimSpace l = "[client]" then l :: withoutForeignLines true ls
    else if HasPrefix (TrimSpace l) "[" then l :: withoutForeignLines false ls
    else if inClient = true then l :: withoutForeignLines inClient ls
    else withoutForeignLines inClient ls

/-- The key of an assignment line: the text before the first `=`, trimmed. -/
def assignedKey (line : String) : String :=
  TrimSpace ⟨line.data.takeWhile (fun c => c ≠ '=')⟩

/-- The value of an assignment line: the text after the first `=`, trimmed and
with the surrounding quote characters stripped. -/
def assignedValue (line : String) : String :=
  Trim (TrimSpace ⟨(line.data.dropWhile (fun c => c ≠ '=')).drop 1⟩) "\"'"

/-- The value of the last assignment to `key` among the assignment lines, if
there is one. -/
def lastAssigned (key : String) (assigns : List String) : Option String :=
  ((assigns.filter fun l => assignedKey l = key).getLast?).map assignedValue

/-- A text that the scanner reads to the end: every line is shorter than
`MaxScanTokenSize` bytes, so `scanner.Err()` is nil. -/
def Scannable (text : String) : Prop :=
  ∀ l ∈ rawLines text.data, byteLen l < MaxScanTokenSize

instance (text : String) : Decidable (Scannable text) :=
  inferInstanceAs (Decidable (∀ l ∈ rawLines text.data, byteLen l < MaxScanTokenSize))

/-- The last two checks of `GetCredentials` as the specification words them:
credentials are returned when user and password are both non-empty. -/
def credentialsOrNotFound (c : Credentials) : Option Credentials × Option String :=
  if c.User ≠ "" ∧ c.Password ≠ "" then (some c, none)
  else (none, some "could not find MySQL credentials in ~/.my.cnf")

/-- The field of the credentials that a key names. -/
def credentialField (c : Credentials) (key : String) : String :=
  if key = "user" then c.User
  else if key = "password" then c.Password
  else if key = "host" then c.Host
  else if key = "port" then c.Port
  else ""

/-- The lines of a rendered text: the pieces between its newlines (a text
ending in a newline has an empty last piece). -/
def textLines (t : String) : List String :=
  (splitNewline t.data).map String.mk

/-- The names that make up a path: its pieces between slashes, without the
empty ones. -/
def pathComponents (path : String) : List (List Char) :=
  (splitSlash path.data).filter fun e => e ≠ []

/-- The path `child` is a descendant of `root`: the names of `root` are a
proper prefix of the names of `child`, and the text of `root` is a proper
prefix of the text of `child`. -/
def IsDescendant (child root : String) : Prop :=
  (∃ rest, rest ≠ [] ∧ pathComponents child = pathComponents root ++ rest) ∧
  root.data <+: child.data ∧ root ≠ child

/-- A plain path element: not empty, without slash, and neither `.` nor `..`. -/
def Plain (e : List Char) : Prop :=
  e ≠ [] ∧ '/' ∉ e ∧ e ≠ ['.'] ∧ e ≠ ['.', '.']

/-- The rooted path with the given names: `/` followed by the names joined by
`/`. -/
def rootedPath (names : List String) : String :=
  ⟨'/' :: List.intercalate ['/'] (names.map String.data)⟩

/-- A name that the filesystem takes as one ordinary element of a path: a
plain element without NUL byte and of at most `NAME_MAX` bytes. -/
def OrdinaryName (n : String) : Prop :=
  Plain n.data ∧ '\x00' ∉ n.data ∧ byteLen n.data ≤ NAME_MAX

/-- The user names that the test of the database name limit draws: the
pattern `^[a-z][a-z0-9]{2,31}$`. -/
def isTestUserName (s : String) : Bool :=
  match s.data with
  | [] => false
  | c :: cs =>
    c.isLower && cs.all (fun d => d.isLower || d.isDigit) && decide (2 ≤ cs.length)
      && decide (cs.length ≤ 31)

/-- The application names that the test of the database name limit draws: the
pattern `^[a-z][a-z0-9-]{2,31}$`. -/
def isTestAppName (s : String) : Bool :=
  match s.data with
  | [] => false
  | c :: cs =>
    c.isLower && cs.all (fun d => d.isLower || d.isDigit || d = '-') && decide (2 ≤ cs.length)
      && decide (cs.length ≤ 31)

/-- The characters that the test of the name validation calls invalid in an
application name. -/
def invalidNameChars : List Char :=
  ['/', '\\', ':', '*', '?', '"', '<', '>', '|', ' ', '\t', '\n']

/-- The listing has a line of the form `<path> => http:<p>`: a backend that
already proxies to the port `p`. -/
def listsHttpPort (backends : List String) (p : Int) : Prop :=
  ∃ path : String, path ≠ "" ∧ (path ++ " => http:" ++ formatInt p) ∈ backends

/-- The port `p` is free: no listed http backend uses it. -/
def portFree (backends : List String) (p : Int) : Prop := ¬ listsHttpPort backends p

/-- The database name that install is to use for a manifest: the explicit name
when there is one, the derived name otherwise. -/
def chosenDatabaseName (manifest : AppManifest) (envUser appName : String) : String :=
  if manifest.Database.Name ≠ "" then manifest.Database.Name
  else GenerateDatabaseName envUser appName

/-- The install of `appName` reaches its database step with the manifest
`manifest`: the manifest is found, loaded and valid, the directory manager is
made, the application does not exist yet, and the creation of the layout and
the setting of the runtime version succeed. -/
def reachesDatabaseStep (dryRun verbose : Bool) (envHome : String) (fs : FileSystem)
    (readFile : String → Except String String)
    (unmarshal : String → Except String AppManifest)
    (run : String → List String → String × Option String) (appName : String)
    (manifest : AppManifest) : Prop :=
  ∃ (path : String) (dirManager : Manager),
    FindManifest envHome (statSucceeds fs) appName = (path, none) ∧
    LoadManifest readFile unmarshal path = (some manifest, none) ∧
    manifest.Validate = none ∧
    NewManager envHome appName dryRun verbose = (some dirManager, none) ∧
    dirManager.Exists (osStat fs) = false ∧
    (dirManager.Create envHome fs).err = none ∧
    ((RuntimeManager.mk dryRun verbose).SetVersion run manifest.Runtime.Language
      manifest.Runtime.Version).err = none

/-- The entries of the environment line as the specification writes them: each
entry `<k>="<v>"` followed by a comma. -/
def specEnvEntries (entries : List (String × String)) : String :=
  String.join (entries.map fun e => e.1 ++ "=\"" ++ e.2 ++ "\",")

/-- The text that the specification gives for a service whose defaults have
been applied: the lines in order, each followed by a newline, the environment
line only for a non-empty mapping. -/
def specServiceText (s : Service) : String :=
  "[program:" ++ s.Name ++ "]\n"
  ++ "command=" ++ s.Command ++ "\n"
  ++ "directory=" ++ s.Directory ++ "\n"
  ++ (if s.Environment ≠ [] then
        "environment=" ++ specEnvEntries (sortedEntries s.Environment) ++ "\n"
      else "")
  ++ "startsecs=" ++ toString s.StartSecs ++ "\n"
  ++ "autorestart=" ++ (if s.AutoRestart then "true" else "false") ++ "\n"
  ++ "stdout_logfile=" ++ s.StdoutLogfile ++ "\n"
  ++ "stderr_logfile=" ++ s.StderrLogfile ++ "\n"

/-- A line of the form key=value: a non-empty key without `=`, the sign `=`,
and a value. -/
def isKeyValueLine (line : String) : Prop :=
  ∃ key value : String, key ≠ "" ∧ '=' ∉ key.data ∧ line = key ++ "=" ++ value

/-- No field of the service that enters the text contains a newline. -/
def noNewlineInFields (s : Service) : Prop :=
  '\n' ∉ s.Name.data ∧ '\n' ∉ s.Command.data ∧ '\n' ∉ s.Directory.data ∧
  '\n' ∉ s.StdoutLogfile.data ∧ '\n' ∉ s.StderrLogfile.data ∧
  ∀ e ∈ s.Environment, '\n' ∉ e.1.data ∧ '\n' ∉ e.2.data

/-- Whether the entry at a location is a symbolic link. -/
def isLinkAt (fs : FileSystem) (q : List String) : Bool :=
  match fs.lookup q with
  | some (Node.link _) => true
  | _ => false

/-- No symbolic link stands at the location `q` or at a location above it. -/
def noLinkOnWay (fs : FileSystem) (q : List String) : Bool :=
  q.inits.all fun p => !isLinkAt fs p

/-- The filesystem has no entry at the location `q` or below it.  In a tree
nothing stands below a location that is absent; the list of entries of a
`FileSystem` is not required to form a tree, so the absence is asked of the
location and of every location below it. -/
def nothingAtOrBelow (fs : FileSystem) (q : List String) : Bool :=
  fs.entries.all fun e => !q.isPrefixOf e.1

/-- Every location reached from `cur` by a non-empty beginning of `names`
holds a directory. -/
def dirsAlong (fs : FileSystem) (cur names : List String) : Prop :=
  ∀ p, p <+: names → p ≠ [] → fs.lookup (cur ++ p) = some Node.dir

/-- The home directory with the names `h` is ready for the layout of the
application `n`: the home directory and the names above it are directories,
`<home>/apps` and `<home>/logs` are directories or absent, no directory stands
at the place of the log link `<home>/logs/<n>`, and the longest path that
`Create` makes, `<home>/apps/<n>/backups`, is shorter than `PATH_MAX`. -/
def homeTakesLayout (fs : FileSystem) (h : List String) (n : String) : Bool :=
  (h.inits.all fun p => decide (fs.lookup p = some Node.dir)) &&
  decide (fs.lookup (h ++ ["apps"]) = none ∨ fs.lookup (h ++ ["apps"]) = some Node.dir) &&
  decide (fs.lookup (h ++ ["logs"]) = none ∨ fs.lookup (h ++ ["logs"]) = some Node.dir) &&
  decide (fs.lookup (h ++ ["logs", n]) ≠ some Node.dir) &&
  decide (byteLen (rootedPath (h ++ ["apps", n, "backups"])).data < PATH_MAX)

/-! ## Inputs used as instances -/

/-- A manifest with an empty name and an invalid type. -/
def manifestNoNameBadType : AppManifest :=
  { App := { Name := "", Typ := "cobol" }, Runtime := { Language := "cobol" } }

/-- A filesystem in which the installed-app manifest and the flat project
manifest of `ghost` both exist, and nothing else does. -/
def statInstalledAndFlat (p : String) : Bool :=
  p = "/home/u/apps/ghost/.uberman.toml" || p = "apps/ghost.toml"

/-- A filesystem holding only near-misses of the candidates of `ghost`:
another letter case, a longer name, a backup copy. -/
def statNearMisses (p : String) : Bool :=
  p = "apps/Ghost.toml" || p = "apps/ghost2.toml" || p = "apps/ghost.toml.bak"

/-- The credentials file of the test `my.cnf with multiple sections`. -/
def cnfMultiSection : String :=
  "[mysql]\nuser = wronguser\npassword = wrongpass\n\n[client]\nuser = correctuser\npassword = correctpass\n\n[mysqldump]\nuser = dumpuser\n"

/-- The file `cnfMultiSection` with other assignments outside the client section. -/
def cnfMultiSectionOther : String :=
  "host = elsewhere\n[mysql]\npassword = other\n[client]\nuser = correctuser\npassword = correctpass\n\n[mysqldump]\n"

/-- The line `x=aa...a` with `n` letters `a` and a last letter `b`. -/
def longLineOf (n : Nat) : List Char := 'x' :: '=' :: (List.replicate n 'a' ++ ['b'])

/-- A line `x=aaa...b` of 70003 bytes, longer than the scanner's buffer. -/
def longLine : List Char := longLineOf 70000

/-- The text after the first line of the two files below. -/
def cnfClientRest : List Char := "[client]\nuser=u\npassword=p\n".data

/-- A credentials file whose first line, before any header, is `longLine`. -/
def cnfLongForeignLine : String := ⟨longLine ++ '\n' :: cnfClientRest⟩

/-- The same file with the short first line `x=a`. -/
def cnfShortForeignLine : String := ⟨"x=a".data ++ '\n' :: cnfClientRest⟩

/-- A file system in which every path opens as a file with the given text. -/
def openAs (text : String) : String → Except String String := fun _ => .ok text

/-- The credentials file of the test `invalid my.cnf format`; its comment
line is the only line with an `=` sign. -/
def cnfNoEquals : String := "[client]\nuser testuser\n# Missing = sign\n"

/-- A credentials file whose client section has no `=` sign at all. -/
def cnfNoAssignment : String := "[client]\nuser testuser\npassword testpass\n"

/-- A credentials file whose user is an empty quoted value. -/
def cnfEmptyUser : String := "[client]\nuser = \"\"\npassword = secret\n"

/-- A credentials file with only user and password in its client section. -/
def cnfUserPassword : String := "[client]\nuser = testuser\npassword = testpass\n"

/-- The credentials file of the test `credentials with custom host and port`. -/
def cnfCustomHostPort : String :=
  "[client]\nuser = customuser\npassword = custompass\nhost = mysql.example.com\nport = 3307\n"

/-- The credentials file of the test `credentials with quoted values`. -/
def cnfQuoted : String :=
  "[client]\nuser = \"quoted_user\"\npassword = 'single_quoted_pass'\n"

/-- The service of the test `create service with defaults`. -/
def svcDefaultApp : Service :=
  { Name := "defaultapp", Command := "npm start", Directory := "/home/user/apps/defaultapp" }

/-- The service of the test `create service with custom settings`. -/
def svcCustomApp : Service :=
  { Name := "customapp", Command := "python app.py", Directory := "/home/user/apps/customapp",
    StartSecs := 30, AutoRestart := false, StdoutLogfile := "/custom/logs/app.log",
    StderrLogfile := "/custom/logs/app-error.log" }

/-- A manifest that `Validate` accepts although its port is negative. -/
def manifestNegativePort : AppManifest :=
  { App := { Name := "api", Typ := "nodejs" }, Runtime := { Language := "node" },
    Web := { Backend := "http", Port := -1 } }

/-- A manifest with a runtime language and an empty runtime version. -/
def manifestNoVersion : AppManifest :=
  { App := { Name := "staticsite", Typ := "static" }, Runtime := { Language := "static" },
    Web := { Backend := "apache" } }

/-- A filesystem, seen through `os.Stat`, holding the complete layout of the
app `validapp` under `/home/u` and its config file. -/
def statCompleteLayout (p : String) : Option Bool :=
  if p = "/home/u/apps/validapp" ∨ p = "/home/u/apps/validapp/app" ∨
      p = "/home/u/apps/validapp/data" ∨ p = "/home/u/apps/validapp/logs" then some true
  else if p = "/home/u/apps/validapp/.uberman.toml" then some false
  else none

/-- The manager of the app `validapp` of the user with home `/home/u`. -/
def managerValidApp : Manager :=
  { appRoot := "/home/u/apps/validapp", appName := "validapp", dryRun := false,
    verbose := false }

/-- The lines that the template produces for a service, in order: header,
command, directory, the environment line if the mapping is not empty,
startsecs, autorestart, each log line if its path is not empty, and the empty
piece after the final newline. -/
def expectedLines (s : Service) : List String :=
  ["[program:" ++ s.Name ++ "]", "command=" ++ s.Command, "directory=" ++ s.Directory]
  ++ (if s.Environment ≠ [] then
        ["environment=" ++ renderEnvEntries (sortedEntries s.Environment)]
      else [])
  ++ ["startsecs=" ++ toString s.StartSecs,
      "autorestart=" ++ (if s.AutoRestart then "true" else "false")]
  ++ (if s.StdoutLogfile ≠ "" then ["stdout_logfile=" ++ s.StdoutLogfile] else [])
  ++ (if s.StderrLogfile ≠ "" then ["stderr_logfile=" ++ s.StderrLogfile] else [])
  ++ [""]

/-- A service whose only environment value contains a newline. -/
def svcNewlineEnv : Service :=
  { Name := "a", Command := "c", Directory := "d", Environment := [("K", "x\ny")],
    StartSecs := 15, StdoutLogfile := "o", StderrLogfile := "e" }

/-- The service of the test `create service with environment variables`. -/
def svcEnvApp : Service :=
  { Name := "envapp", Command := "node server.js", Directory := "/home/user/apps/envapp",
    Environment := [("NODE_ENV", "production"), ("PORT", "8080"), ("DEBUG", "false")],
    StartSecs := 15, StdoutLogfile := "/home/u/logs/envapp.log",
    StderrLogfile := "/home/u/logs/envapp-error.log" }

/-- A filesystem that holds the home directory `/home/u` and nothing else. -/
def fsHomeOnly : FileSystem :=
  { entries := [(["home", "u"], Node.dir), (["home"], Node.dir)], cwd := [] }

/-- The home directory `/home/u` with a regular file at `/home/u/logs`. -/
def fsLogsIsFile : FileSystem :=
  { entries := [(["home", "u", "logs"], Node.file), (["home", "u"], Node.dir),
      (["home"], Node.dir)], cwd := [] }

/-- The manager of `NewManager("ghost", true, false)` under `HOME=/home/u`. -/
def managerGhostDryRun : Manager :=
  { appRoot := "/home/u/apps/ghost", appName := "ghost", dryRun := true, verbose := false }

/-- The manager of `NewManager("ghost", false, false)` under `HOME=/home/u`. -/
def managerGhost : Manager :=
  { appRoot := "/home/u/apps/ghost", appName := "ghost", dryRun := false, verbose := false }

/-- The manager of `NewManager("../logs", true, false)` under `HOME=/home/u`. -/
def managerUpLogsDryRun : Manager :=
  { appRoot := "/home/u/logs", appName := "../logs", dryRun := true, verbose := false }

/-- The home directory `/h` in which `/h/logs` is a symbolic link to
`/h/apps/logs`. -/
def fsLogsLinked : FileSystem :=
  { entries := [(["h", "logs"], Node.link "/h/apps/logs"), (["h"], Node.dir)], cwd := [] }

/-- The manager of `NewManager("logs", false, false)` under `HOME=/h`. -/
def managerLogs : Manager :=
  { appRoot := "/h/apps/logs", appName := "logs", dryRun := false, verbose := false }

/-- The filesystem after `managerLogs.Create` on `fsLogsLinked`. -/
def fsLogsLinkedCreated : FileSystem :=
  { entries :=
      [(["h", "apps", "logs", "logs"], Node.link "/h/apps/logs/logs"),
       (["h", "apps", "logs", "tmp"], Node.dir),
       (["h", "apps", "logs", "backups"], Node.dir),
       (["h", "apps", "logs", "data"], Node.dir),
       (["h", "apps", "logs", "app"], Node.dir),
       (["h", "apps", "logs"], Node.dir),
       (["h", "apps"], Node.dir),
       (["h", "logs"], Node.link "/h/apps/logs"),
       (["h"], Node.dir)],
    cwd := [] }

/-- The filesystem after `managerGhost.Create` on `fsHomeOnly`. -/
def fsGhostCreated : FileSystem :=
  { entries :=
      [(["home", "u", "logs", "ghost"], Node.link "/home/u/apps/ghost/logs"),
       (["home", "u", "logs"], Node.dir),
       (["home", "u", "apps", "ghost", "tmp"], Node.dir),
       (["home", "u", "apps", "ghost", "backups"], Node.dir),
       (["home", "u", "apps", "ghost", "logs"], Node.dir),
       (["home", "u", "apps", "ghost", "data"], Node.dir),
       (["home", "u", "apps", "ghost", "app"], Node.dir),
       (["home", "u", "apps", "ghost"], Node.dir),
       (["home", "u", "apps"], Node.dir),
       (["home", "u"], Node.dir),
       (["home"], Node.dir)],
    cwd := [] }

/-- The home directory `/home/u` and the working directory `/work`: the
installed-app candidate of `ghost`, `/home/u/apps/ghost/.uberman.toml`, is a
directory, and the flat project candidate `/work/apps/ghost.toml` is a regular
file. -/
def fsManifestIsDir : FileSystem :=
  { entries :=
      [(["home"], Node.dir), (["home", "u"], Node.dir), (["home", "u", "apps"], Node.dir),
       (["home", "u", "apps", "ghost"], Node.dir),
       (["home", "u", "apps", "ghost", ".uberman.toml"], Node.dir),
       (["work"], Node.dir), (["work", "apps"], Node.dir),
       (["work", "apps", "ghost.toml"], Node.file)],
    cwd := ["work"] }

/-- The home directory `/home/u` and the working directory `/work` with the
one manifest file `/work/apps/examples/ghost/app.toml`. -/
def fsExamplesGhost : FileSystem :=
  { entries :=
      [(["home"], Node.dir), (["home", "u"], Node.dir),
       (["work"], Node.dir), (["work", "apps"], Node.dir),
       (["work", "apps", "examples"], Node.dir),
       (["work", "apps", "examples", "ghost"], Node.dir),
       (["work", "apps", "examples", "ghost", "app.toml"], Node.file)],
    cwd := ["work"] }

/-- The home directory `/home/u` and the working directory `/work` with the
one manifest file `/work/apps/custom/myapp/app.toml`. -/
def fsCustomMyapp : FileSystem :=
  { entries :=
      [(["home"], Node.dir), (["home", "u"], Node.dir),
       (["work"], Node.dir), (["work", "apps"], Node.dir),
       (["work", "apps", "custom"], Node.dir),
       (["work", "apps", "custom", "myapp"], Node.dir),
       (["work", "apps", "custom", "myapp", "app.toml"], Node.file)],
    cwd := ["work"] }

/-- A user name of 32 characters. -/
def userName32 : String := "abcdefghijklmnopqrstuvwxyz012345"

/-- An application name of 32 characters. -/
def appName32 : String := "my-application-with-a-long-name1"

/-- The manifest of the test of the name validation for the name `name`:
type and runtime language `php`, runtime version `8.3`. -/
def manifestNamed (name : String) : AppManifest :=
  { App := { Name := name, Typ := "php" }, Runtime := { Language := "php", Version := "8.3" } }

/-- A runner on which every command fails with exit status 1. -/
def runFails (_ : String) (_ : List String) : String × Option String :=
  ("uberspace: command not found\n", some "exit status 1")

/-- A runner on which every command succeeds with the output `OK`. -/
def runSucceeds (_ : String) (_ : List String) : String × Option String :=
  ("OK\n", none)

/-- An http backend for the root path with port 0. -/
def backendHttpZero : Backend := { Path := "/", Typ := "http", Port := 0 }

/-- A backend of the unknown type `nginx`. -/
def backendNginx : Backend := { Path := "/", Typ := "nginx", Port := 8080 }

/-- A runner whose backend listing is the one line `/ => http:1024`. -/
def runListsPort1024 (_ : String) (_ : List String) : String × Option String :=
  ("/ => http:1024\n", none)

/-- A valid manifest of a php application that requires a database and names
none. -/
def manifestBlog : AppManifest :=
  { App := { Name := "blog", Typ := "php", Version := "1.0" },
    Runtime := { Language := "php", Version := "8.3" },
    Database := { Typ := "mysql", Required := true } }

/-- A valid manifest of a php application that requires a database named
`shop_db`. -/
def manifestShop : AppManifest :=
  { App := { Name := "shop", Typ := "php", Version := "1.0" },
    Runtime := { Language := "php", Version := "8.3" },
    Database := { Typ := "mysql", Required := true, Name := "shop_db" } }

/-- Reading any file gives the text `blog`. -/
def readBlog (_ : String) : Except String String := .ok "blog"

/-- Parsing any text gives `manifestBlog`. -/
def unmarshalBlog (_ : String) : Except String AppManifest := .ok manifestBlog

/-- Parsing any text gives `manifestShop`. -/
def unmarshalShop (_ : String) : Except String AppManifest := .ok manifestShop

/-- The home directory `/home/u` in which the application `blog` is already
installed, and the working directory `/work` with the manifest
`apps/blog.toml`. -/
def fsBlogInstalled : FileSystem :=
  { entries :=
      [(["home"], Node.dir), (["home", "u"], Node.dir), (["home", "u", "apps"], Node.dir),
       (["home", "u", "apps", "blog"], Node.dir),
       (["work"], Node.dir), (["work", "apps"], Node.dir),
       (["work", "apps", "blog.toml"], Node.file)],
    cwd := ["work"] }

/-- The empty home directory `/home/u` and the working directory `/work` with
the manifests `apps/blog.toml` and `apps/shop.toml`. -/
def fsManifestsOnly : FileSystem :=
  { entries :=
      [(["home"], Node.dir), (["home", "u"], Node.dir),
       (["work"], Node.dir), (["work", "apps"], Node.dir),
       (["work", "apps", "blog.toml"], Node.file),
       (["work", "apps", "shop.toml"], Node.file)],
    cwd := ["work"] }

/-- A service whose path of the error log ends in a newline. -/
def svcLogEndsInNewline : Service :=
  { Name := "a", Command := "c", Directory := "d", StartSecs := 15, StdoutLogfile := "o",
    StderrLogfile := "e\n" }

/-- The home directory `/home/u` in which `/home/u/logs` is a symbolic link to
`/home/u/apps/.uberman.toml`, a path at which nothing stands. -/
def fsLogsToApp : FileSystem :=
  { entries := [(["home", "u", "logs"], Node.link "/home/u/apps/.uberman.toml"),
      (["home", "u"], Node.dir), (["home"], Node.dir)], cwd := [] }

/-- The manager of `NewManager("wiki", false, false)` under `HOME=/home/u`. -/
def managerWiki : Manager :=
  { appRoot := "/home/u/apps/wiki", appName := "wiki", dryRun := false, verbose := false }

/-- The manager of `NewManager(".uberman.toml", false, false)` under
`HOME=/home/u`. -/
def managerDotfile : Manager :=
  { appRoot := "/home/u/apps/.uberman.toml", appName := ".uberman.toml", dryRun := false,
    verbose := false }

/-! ## Theorems: manifest validation -/

theorem validTypes_iff (t : String) :
    validTypes t = true ↔ t ∈ ["php", "python", "nodejs", "ruby", "go", "static"] := by
  simp [validTypes, or_assoc]

/-- C1: `Validate` returns the message of the lowest-numbered violated rule,
in the order name, type, language, type membership, http port, and returns nil
exactly when no rule is violated. -/
theorem validate_reports_first_violated_rule (m : AppManifest) :
    (∀ i, i < 5 → ruleViolated m i → (∀ j, j < i → ¬ ruleViolated m j) →
        m.Validate = some (ruleMessage m i)) ∧
    (m.Validate = none ↔ ∀ i, i < 5 → ¬ ruleViolated m i) := by
  have hv := validTypes_iff m.App.Typ
  constructor
  · intro i hi hvi hlow
    have h0 : 0 < i → m.App.Name ≠ "" := fun h => hlow 0 h
    have h1 : 1 < i → m.App.Typ ≠ "" := fun h => hlow 1 h
    have h2 : 2 < i → m.Runtime.Language ≠ "" := fun h => hlow 2 h
    have h3 : 3 < i → m.App.Typ ∈ ["php", "python", "nodejs", "ruby", "go", "static"] :=
      fun h => not_not.mp (hlow 3 h)
    have hcases : i = 0 ∨ i = 1 ∨ i = 2 ∨ i = 3 ∨ i = 4 := by omega
    rcases hcases with h | h | h | h | h <;> subst h
    · simp only [ruleViolated] at hvi
      simp [AppManifest.Validate, ruleMessage, hvi]
    · simp only [ruleViolated] at hvi
      simp [AppManifest.Validate, ruleMessage, hvi, h0 (by decide)]
    · simp only [ruleViolated] at hvi
      simp [AppManifest.Validate, ruleMessage, hvi, h0 (by decide), h1 (by decide)]
    · simp only [ruleViolated] at hvi
      have hnv : validTypes m.App.Typ = false := by
        cases hb : validTypes m.App.Typ with
        | false => rfl
        | true => exact absurd (hv.mp hb) hvi
      simp [AppManifest.Validate, ruleMessage, hnv, h0 (by decide), h1 (by decide),
        h2 (by decide)]
    · simp only [ruleViolated] at hvi
      have hval : validTypes m.App.Typ = true := hv.mpr (h3 (by decide))
      simp [AppManifest.Validate, ruleMessage, hval, hvi, h0 (by decide), h1 (by decide),
        h2 (by decide)]
  · constructor
    · intro hnone i hi hvi
      have hcases : i = 0 ∨ i = 1 ∨ i = 2 ∨ i = 3 ∨ i = 4 := by omega
      unfold AppManifest.Validate at hnone
      split_ifs at hnone with a b c d e
      rcases hcases with h | h | h | h | h <;> subst h <;> simp only [ruleViolated] at hvi
      · exact a hvi
      · exact b hvi
      · exact c hvi
      · have hval : validTypes m.App.Typ = true := by simpa using d
        exact hvi (hv.mp hval)
      · exact e hvi
    · intro hall
      have a : m.App.Name ≠ "" := hall 0 (by decide)
      have b : m.App.Typ ≠ "" := hall 1 (by decide)
      have c : m.Runtime.Language ≠ "" := hall 2 (by decide)
      have d : validTypes m.App.Typ = true := hv.mpr (not_not.mp (hall 3 (by decide)))
      have e : ¬ (m.App.Typ ≠ "php" ∧ m.Web.Backend = "http" ∧ m.Web.Port = 0) :=
        hall 4 (by decide)
      unfold AppManifest.Validate
      rw [if_neg a, if_neg b, if_neg c, if_neg (by simp [d]), if_neg e]

/-- C1, at a manifest violating rules 0 and 3 at once: only the name error is reported. -/
theorem validate_reports_first_violated_rule_witness :
    ruleViolated manifestNoNameBadType 0 ∧ ruleViolated manifestNoNameBadType 3 ∧
    manifestNoNameBadType.Validate = some "app name is required" :=
  ⟨rfl, by simp [ruleViolated, manifestNoNameBadType],
   (validate_reports_first_violated_rule manifestNoNameBadType).1 0 (by decide) rfl
     (fun j hj => absurd hj (Nat.not_lt_zero j))⟩

/-- C2: with name and language present and a valid type, `Validate` fails with
the port message exactly when the type is not php, the backend is http and the
port is 0, and returns nil in every other case. -/
theorem validate_port_required_iff (m : AppManifest)
    (hname : m.App.Name ≠ "") (hlang : m.Runtime.Language ≠ "")
    (htype : m.App.Typ ∈ ["php", "python", "nodejs", "ruby", "go", "static"]) :
    (m.Validate = some "port is required for http backend" ↔
      (m.App.Typ ≠ "php" ∧ m.Web.Backend = "http" ∧ m.Web.Port = 0)) ∧
    (¬ (m.App.Typ ≠ "php" ∧ m.Web.Backend = "http" ∧ m.Web.Port = 0) → m.Validate = none) := by
  have hval : validTypes m.App.Typ = true := (validTypes_iff _).mpr htype
  have hne : m.App.Typ ≠ "" := by
    intro h
    rw [h] at htype
    revert htype
    decide
  have hstep : m.Validate =
      if m.App.Typ ≠ "php" ∧ m.Web.Backend = "http" ∧ m.Web.Port = 0 then
        some "port is required for http backend" else none := by
    unfold AppManifest.Validate
    rw [if_neg hname, if_neg hne, if_neg hlang, if_neg (by simp [hval])]
  rw [hstep]
  constructor
  · constructor
    · intro h
      by_contra hc
      rw [if_neg hc] at h
      cases h
    · intro h
      rw [if_pos h]
  · intro h
    rw [if_neg h]

/-- C2 at the two manifests named in the claim: php with backend http and
port 0 is accepted, static with backend http and port 0 is rejected. -/
theorem validate_port_required_iff_witness :
    ({ App := { Name := "blog", Typ := "php" }, Runtime := { Language := "php" },
       Web := { Backend := "http", Port := 0 } } : AppManifest).Validate = none ∧
    ({ App := { Name := "site", Typ := "static" }, Runtime := { Language := "html" },
       Web := { Backend := "http", Port := 0 } } : AppManifest).Validate
      = some "port is required for http backend" :=
  ⟨(validate_port_required_iff
      { App := { Name := "blog", Typ := "php" }, Runtime := { Language := "php" },
        Web := { Backend := "http", Port := 0 } }
      (by decide) (by decide) (by decide)).2 (by decide),
   (validate_port_required_iff
      { App := { Name := "site", Typ := "static" }, Runtime := { Language := "html" },
        Web := { Backend := "http", Port := 0 } }
      (by decide) (by decide) (by decide)).1.mpr (by decide)⟩

/-! ## Theorems: database naming -/

/-- C3: for all strings, empty ones and ones containing underscores included,
`GenerateDatabaseName user app` is `user`, one underscore, `app`; for instance
`alice` and `ghost` give `alice_ghost`. -/
theorem generateDatabaseName_exact (user app : String) :
    GenerateDatabaseName user app = user ++ "_" ++ app ∧
    GenerateDatabaseName "alice" "ghost" = "alice_ghost" := by
  constructor
  · apply String.ext
    simp [GenerateDatabaseName, Sprintf, sprintfL]
  · decide

/-! ## Theorems: manifest lookup -/

theorem findLoop_none (statOk : String → Bool) (appName : String) (ps : List String) :
    (findLoop statOk appName ps).2 ≠ none ↔ ∀ q ∈ ps, statOk q = false := by
  induction ps with
  | nil => simp [findLoop]
  | cons q qs ih =>
    cases hq : statOk q with
    | true => simp [findLoop, hq]
    | false => simpa [findLoop, hq] using ih

theorem findLoop_all_fail (statOk : String → Bool) (appName : String) (ps : List String)
    (h : ∀ q ∈ ps, statOk q = false) :
    findLoop statOk appName ps = ("", some ("manifest not found for app: " ++ appName)) := by
  induction ps with
  | nil => rfl
  | cons q qs ih =>
    have hq : statOk q = false := h q (List.mem_cons_self q qs)
    simp [findLoop, hq, ih (fun r hr => h r (List.mem_cons_of_mem q hr))]

theorem findLoop_congr (s1 s2 : String → Bool) (appName : String) (ps : List String)
    (h : ∀ q ∈ ps, s1 q = s2 q) : findLoop s1 appName ps = findLoop s2 appName ps := by
  induction ps with
  | nil => rfl
  | cons q qs ih =>
    have hq : s1 q = s2 q := h q (List.mem_cons_self q qs)
    simp [findLoop, hq, ih (fun r hr => h r (List.mem_cons_of_mem q hr))]

theorem FindManifest_eq (envHome : String) (hhome : envHome ≠ "") (statOk : String → Bool)
    (appName : String) :
    FindManifest envHome statOk appName
      = findLoop statOk appName (searchPaths envHome appName) := by
  simp [FindManifest, UserHomeDir, hhome]

/-- C4: with a resolvable home directory, `FindManifest` returns the candidate
of least index on which `os.Stat` succeeds, whatever holds for the later
candidates; the candidates are, in order, the installed-app path, the flat
project path, the custom path and the user-global path. -/
theorem findManifest_first_existing (envHome : String) (hhome : envHome ≠ "")
    (statOk : String → Bool) (appName : String) :
    searchPaths envHome appName =
      [ Join [envHome, "apps", appName, ".uberman.toml"],
        Join ["apps", appName ++ ".toml"],
        Join ["apps", "custom", appName ++ ".toml"],
        Join [envHome, ".uberman", "apps", appName ++ ".toml"] ] ∧
    (∀ i, i < 4 → statOk ((searchPaths envHome appName).getD i "") = true →
      (∀ j, j < i → statOk ((searchPaths envHome appName).getD j "") = false) →
      FindManifest envHome statOk appName = ((searchPaths envHome appName).getD i "", none)) ∧
    ((∃ p ∈ searchPaths envHome appName, statOk p = true) →
      ∃ i, i < 4 ∧ statOk ((searchPaths envHome appName).getD i "") = true ∧
        (∀ j, j < i → statOk ((searchPaths envHome appName).getD j "") = false) ∧
        FindManifest envHome statOk appName
          = ((searchPaths envHome appName).getD i "", none)) := by
  have key : ∀ i, i < 4 → statOk ((searchPaths envHome appName).getD i "") = true →
      (∀ j, j < i → statOk ((searchPaths envHome appName).getD j "") = false) →
      FindManifest envHome statOk appName
        = ((searchPaths envHome appName).getD i "", none) := by
    intro i hi hex hfirst
    rw [FindManifest_eq envHome hhome]
    have hcases : i = 0 ∨ i = 1 ∨ i = 2 ∨ i = 3 := by omega
    have h0 := hfirst 0
    have h1 := hfirst 1
    have h2 := hfirst 2
    rcases hcases with h | h | h | h <;> subst h <;>
      simp [searchPaths, findLoop] at hex h0 h1 h2 ⊢ <;> simp [*]
  refine ⟨rfl, key, ?_⟩
  rintro ⟨p, hp, hpok⟩
  have hmem : p = (searchPaths envHome appName).getD 0 "" ∨
      p = (searchPaths envHome appName).getD 1 "" ∨
      p = (searchPaths envHome appName).getD 2 "" ∨
      p = (searchPaths envHome appName).getD 3 "" := by
    simpa [searchPaths] using hp
  cases h0 : statOk ((searchPaths envHome appName).getD 0 "") with
  | true =>
    have hfirst : ∀ j, j < 0 → statOk ((searchPaths envHome appName).getD j "") = false :=
      fun j hj => absurd hj (Nat.not_lt_zero j)
    exact ⟨0, by decide, h0, hfirst, key 0 (by decide) h0 hfirst⟩
  | false =>
    cases h1 : statOk ((searchPaths envHome appName).getD 1 "") with
    | true =>
      have hfirst : ∀ j, j < 1 → statOk ((searchPaths envHome appName).getD j "") = false := by
        intro j hj
        interval_cases j
        exact h0
      exact ⟨1, by decide, h1, hfirst, key 1 (by decide) h1 hfirst⟩
    | false =>
      cases h2 : statOk ((searchPaths envHome appName).getD 2 "") with
      | true =>
        have hfirst : ∀ j, j < 2 →
            statOk ((searchPaths envHome appName).getD j "") = false := by
          intro j hj
          interval_cases j
          · exact h0
          · exact h1
        exact ⟨2, by decide, h2, hfirst, key 2 (by decide) h2 hfirst⟩
      | false =>
        cases h3 : statOk ((searchPaths envHome appName).getD 3 "") with
        | true =>
          have hfirst : ∀ j, j < 3 →
              statOk ((searchPaths envHome appName).getD j "") = false := by
            intro j hj
            interval_cases j
            · exact h0
            · exact h1
            · exact h2
          exact ⟨3, by decide, h3, hfirst, key 3 (by decide) h3 hfirst⟩
        | false =>
          exfalso
          rcases hmem with e | e | e | e
          · rw [e, h0] at hpok; cases hpok
          · rw [e, h1] at hpok; cases hpok
          · rw [e, h2] at hpok; cases hpok
          · rw [e, h3] at hpok; cases hpok

/-- C4 where the installed-app path and the flat project path both exist: the
installed-app path is returned. -/
theorem findManifest_first_existing_witness :
    statInstalledAndFlat "apps/ghost.toml" = true ∧
    FindManifest "/home/u" statInstalledAndFlat "ghost"
      = ("/home/u/apps/ghost/.uberman.toml", none) :=
  ⟨by decide,
   (findManifest_first_existing "/home/u" (by decide) statInstalledAndFlat "ghost").2.1 0
     (by decide) (by decide) (fun j hj => absurd hj (Nat.not_lt_zero j))⟩

/-- C5: with a resolvable home directory, `FindManifest` fails exactly when
`os.Stat` fails on all four candidates; it then returns the empty path and the
message `manifest not found for app: <name>`; and its outcome depends on the
filesystem only through those four paths, so no other file (a prefix, a
pattern, another letter case) can make it succeed. -/
theorem findManifest_error_iff (envHome : String) (hhome : envHome ≠ "")
    (statOk : String → Bool) (appName : String) :
    ((FindManifest envHome statOk appName).2 ≠ none ↔
      ∀ p ∈ searchPaths envHome appName, statOk p = false) ∧
    ((∀ p ∈ searchPaths envHome appName, statOk p = false) →
      FindManifest envHome statOk appName
        = ("", some ("manifest not found for app: " ++ appName))) ∧
    (∀ statOther : String → Bool,
      (∀ p ∈ searchPaths envHome appName, statOther p = statOk p) →
      FindManifest envHome statOther appName = FindManifest envHome statOk appName) := by
  refine ⟨?_, ?_, ?_⟩
  · rw [FindManifest_eq envHome hhome]
    exact findLoop_none statOk appName _
  · intro h
    rw [FindManifest_eq envHome hhome]
    exact findLoop_all_fail statOk appName _ h
  · intro statOther h
    rw [FindManifest_eq envHome hhome, FindManifest_eq envHome hhome]
    exact findLoop_congr statOther statOk appName _ h

/-- C5 on a filesystem with near-misses only: the lookup of `ghost` fails
with the not-found message and an empty path. -/
theorem findManifest_error_iff_witness :
    FindManifest "/home/u" statNearMisses "ghost"
      = ("", some "manifest not found for app: ghost") :=
  (findManifest_error_iff "/home/u" (by decide) statNearMisses "ghost").2.1 (by decide)

/-! ## Theorems: credentials -/

theorem scanTokens_of_short (segs : List (List Char))
    (h : ∀ l ∈ segs, byteLen l < MaxScanTokenSize) :
    scanTokens segs = (segs.map fun l => (⟨dropCR l⟩ : String), none) := by
  induction segs with
  | nil => rfl
  | cons seg rest ih =>
    have hseg : ¬ MaxScanTokenSize ≤ byteLen seg :=
      Nat.not_le.mpr (h seg (List.mem_cons_self seg rest))
    have hrest := ih (fun l hl => h l (List.mem_cons_of_mem seg hl))
    simp [scanTokens, hseg, hrest]

theorem scanTokens_of_long_head (seg : List Char) (rest : List (List Char))
    (h : MaxScanTokenSize ≤ byteLen seg) :
    scanTokens (seg :: rest) = ([], some "bufio.Scanner: token too long") := by
  simp [scanTokens, h]

theorem containsL_singleton (c : Char) (l : List Char) :
    containsL [c] l = decide (c ∈ l) := by
  induction l with
  | nil => simp [containsL]
  | cons d ds ih =>
    simp only [containsL, ih, List.isPrefixOf, List.mem_cons]
    by_cases hcd : c = d
    · simp [hcd]
    · simp [hcd]

theorem Contains_eq (line : String) : Contains line "=" = decide ('=' ∈ line.data) :=
  containsL_singleton '=' line.data

theorem clientAssignments_cons (b : Bool) (l : String) (ls : List String) :
    clientAssignments b (l :: ls) =
      if TrimSpace l = "[client]" then clientAssignments true ls
      else if HasPrefix (TrimSpace l) "[" then clientAssignments false ls
      else if b = true ∧ '=' ∈ (TrimSpace l).data then TrimSpace l :: clientAssignments b ls
      else clientAssignments b ls := by
  rw [clientAssignments]

theorem withoutForeignLines_cons (b : Bool) (l : String) (ls : List String) :
    withoutForeignLines b (l :: ls) =
      if TrimSpace l = "[client]" then l :: withoutForeignLines true ls
      else if HasPrefix (TrimSpace l) "[" then l :: withoutForeignLines false ls
      else if b = true then l :: withoutForeignLines b ls
      else withoutForeignLines b ls := by
  rw [withoutForeignLines]

theorem foldl_credsStep (lines : List String) (st : ScanState) :
    (lines.foldl credsStep st).creds
      = (clientAssignments st.inClientSection lines).foldl assignLine st.creds := by
  induction lines generalizing st with
  | nil => rfl
  | cons l ls ih =>
    rw [List.foldl_cons, ih, clientAssignments_cons]
    unfold credsStep
    by_cases h1 : TrimSpace l = "[client]"
    · simp [h1]
    · by_cases h2 : HasPrefix (TrimSpace l) "[" = true
      · simp [h1, h2]
      · by_cases h3 : st.inClientSection = true ∧ '=' ∈ (TrimSpace l).data
        · simp [h1, h2, h3, Contains_eq]
        · have h3b : (st.inClientSection && Contains (TrimSpace l) "=") = false := by
            rw [Contains_eq]
            by_cases hin : st.inClientSection = true
            · have : '=' ∉ (TrimSpace l).data := fun hm => h3 ⟨hin, hm⟩
              simp [this]
            · simp [hin]
          simp [h1, h2, h3, h3b]

theorem credentialsOfText_of_scannable (text : String) (h : Scannable text) :
    credentialsOfText text
      = credentialsOrNotFound
          ((clientAssignments false (fileLines text)).foldl assignLine credsInit.creds) := by
  unfold credentialsOfText
  simp only [scanTokens_of_short _ h]
  rw [foldl_credsStep]
  unfold credentialsOrNotFound fileLines
  simp only [credsInit]
  split_ifs with h1 h2 h2
  · exact absurd h1 (by tauto)
  · rfl
  · rfl
  · exact absurd h2 (by tauto)

theorem clientAssignments_withoutForeignLines (lines : List String) (b : Bool) :
    clientAssignments b (withoutForeignLines b lines) = clientAssignments b lines := by
  induction lines generalizing b with
  | nil => rfl
  | cons l ls ih =>
    rw [withoutForeignLines_cons, clientAssignments_cons]
    by_cases h1 : TrimSpace l = "[client]"
    · simp [h1, clientAssignments_cons, ih]
    · by_cases h2 : HasPrefix (TrimSpace l) "[" = true
      · simp [h1, h2, clientAssignments_cons, ih]
      · cases b with
        | true => simp [h1, h2, clientAssignments_cons, ih]
        | false => simp [h1, h2, ih]

theorem GetCredentials_eq (envHome : String) (hhome : envHome ≠ "")
    (openFile : String → Except String String) (text : String)
    (hopen : openFile (Join [envHome, ".my.cnf"]) = .ok text) :
    GetCredentials envHome openFile = credentialsOfText text := by
  simp [GetCredentials, UserHomeDir, hhome, hopen]

theorem cutL_eq (l : List Char) (h : '=' ∈ l) :
    cutL ['='] l
      = some (l.takeWhile (fun c => c ≠ '='), (l.dropWhile (fun c => c ≠ '=')).drop 1) := by
  induction l with
  | nil => cases h
  | cons c cs ih =>
    by_cases hc : c = '='
    · subst hc
      simp [cutL, List.isPrefixOf]
    · have hmem : '=' ∈ cs := by
        rcases List.mem_cons.mp h with h' | h'
        · exact absurd h'.symm hc
        · exact h'
      have hc' : ¬ ('=' = c) := fun h' => hc h'.symm
      simp [cutL, List.isPrefixOf, hc, hc', ih hmem]

theorem assignLine_eq (c : Credentials) (line : String) (h : '=' ∈ line.data) :
    assignLine c line =
      if assignedKey line = "user" then
        { c with User := assignedValue line, Database := assignedValue line }
      else if assignedKey line = "password" then { c with Password := assignedValue line }
      else if assignedKey line = "host" then { c with Host := assignedValue line }
      else if assignedKey line = "port" then { c with Port := assignedValue line }
      else c := by
  have hcut : cutL "=".data line.data
      = some (line.data.takeWhile (fun c => c ≠ '='),
              (line.data.dropWhile (fun c => c ≠ '=')).drop 1) := cutL_eq line.data h
  simp only [assignLine, SplitN2, hcut]
  rfl

theorem lastAssigned_nil (key : String) : lastAssigned key [] = none := rfl

theorem lastAssigned_cons (key : String) (a : String) (rest : List String) :
    lastAssigned key (a :: rest) =
      (lastAssigned key rest).or
        (if assignedKey a = key then some (assignedValue a) else none) := by
  unfold lastAssigned
  by_cases hk : assignedKey a = key
  · rw [List.filter_cons_of_pos (by simpa using hk), List.getLast?_cons, if_pos hk]
    cases (List.filter (fun l => decide (assignedKey l = key)) rest).getLast? <;> rfl
  · rw [List.filter_cons_of_neg (by simpa using hk), if_neg hk]
    cases (List.filter (fun l => decide (assignedKey l = key)) rest).getLast? <;> rfl

/-- The fields after all assignment lines have been applied: each is the value
of the last assignment to its key, or the initial value when there is none. -/
theorem foldl_assignLine_fields (assigns : List String)
    (hall : ∀ l ∈ assigns, '=' ∈ l.data) (c : Credentials) :
    (assigns.foldl assignLine c).User = (lastAssigned "user" assigns).getD c.User ∧
    (assigns.foldl assignLine c).Database = (lastAssigned "user" assigns).getD c.Database ∧
    (assigns.foldl assignLine c).Password = (lastAssigned "password" assigns).getD c.Password ∧
    (assigns.foldl assignLine c).Host = (lastAssigned "host" assigns).getD c.Host ∧
    (assigns.foldl assignLine c).Port = (lastAssigned "port" assigns).getD c.Port := by
  induction assigns generalizing c with
  | nil => simp [lastAssigned_nil]
  | cons a rest ih =>
    have ha : '=' ∈ a.data := hall a (List.mem_cons_self a rest)
    have hrest : ∀ l ∈ rest, '=' ∈ l.data := fun l hl => hall l (List.mem_cons_of_mem a hl)
    obtain ⟨i1, i2, i3, i4, i5⟩ := ih hrest (assignLine c a)
    rw [List.foldl_cons, i1, i2, i3, i4, i5, assignLine_eq c a ha]
    simp only [lastAssigned_cons]
    have e1 : ("user" : String) ≠ "password" := by decide
    have e2 : ("user" : String) ≠ "host" := by decide
    have e3 : ("user" : String) ≠ "port" := by decide
    have e4 : ("password" : String) ≠ "host" := by decide
    have e5 : ("password" : String) ≠ "port" := by decide
    have e6 : ("host" : String) ≠ "port" := by decide
    by_cases k1 : assignedKey a = "user"
    · simp only [k1, if_true, if_neg e1, if_neg e2, if_neg e3]
      refine ⟨?_, ?_, ?_, ?_, ?_⟩ <;> cases lastAssigned _ rest <;> rfl
    · by_cases k2 : assignedKey a = "password"
      · simp only [k2, if_true, if_neg e1.symm, if_neg e4, if_neg e5]
        refine ⟨?_, ?_, ?_, ?_, ?_⟩ <;> cases lastAssigned _ rest <;> rfl
      · by_cases k3 : assignedKey a = "host"
        · simp only [k3, if_true, if_neg e2.symm, if_neg e4.symm, if_neg e6]
          refine ⟨?_, ?_, ?_, ?_, ?_⟩ <;> cases lastAssigned _ rest <;> rfl
        · by_cases k4 : assignedKey a = "port"
          · simp only [k4, if_true, if_neg e3.symm, if_neg e5.symm, if_neg e6.symm]
            refine ⟨?_, ?_, ?_, ?_, ?_⟩ <;> cases lastAssigned _ rest <;> rfl
          · simp only [if_neg k1, if_neg k2, if_neg k3, if_neg k4]
            refine ⟨?_, ?_, ?_, ?_, ?_⟩ <;> cases lastAssigned _ rest <;> rfl

theorem mem_clientAssignments (lines : List String) (b : Bool) :
    ∀ l ∈ clientAssignments b lines, '=' ∈ l.data := by
  induction lines generalizing b with
  | nil => intro l hl; cases hl
  | cons x xs ih =>
    intro l hl
    rw [clientAssignments_cons] at hl
    split_ifs at hl with h1 h2 h3
    · exact ih true l hl
    · exact ih false l hl
    · rcases List.mem_cons.mp hl with h | h
      · rw [h]; exact h3.2
      · exact ih b l h
    · exact ih b l hl

theorem scanTokens_err_none (segs : List (List Char)) (h : (scanTokens segs).2 = none) :
    ∀ l ∈ segs, byteLen l < MaxScanTokenSize := by
  induction segs with
  | nil => intro l hl; cases hl
  | cons seg rest ih =>
    by_cases hseg : MaxScanTokenSize ≤ byteLen seg
    · simp [scanTokens, hseg] at h
    · have hrest : (scanTokens rest).2 = none := by simpa [scanTokens, hseg] using h
      intro l hl
      rcases List.mem_cons.mp hl with h' | h'
      · rw [h']; exact Nat.not_le.mp hseg
      · exact ih hrest l h'

theorem scannable_of_success (text : String) (c : Credentials)
    (h : credentialsOfText text = (some c, none)) : Scannable text := by
  apply scanTokens_err_none
  unfold credentialsOfText at h
  cases herr : (scanTokens (rawLines text.data)).2 with
  | none => rfl
  | some e => simp [herr] at h

theorem splitNewline_ne_nil (l : List Char) : splitNewline l ≠ [] := by
  cases l with
  | nil => simp [splitNewline]
  | cons c cs =>
    rw [splitNewline]
    cases splitNewline cs with
    | nil => by_cases hc : c = '\n' <;> simp [hc]
    | cons w ws => by_cases hc : c = '\n' <;> simp [hc]

theorem splitNewline_append (l r : List Char) (h : '\n' ∉ l) :
    splitNewline (l ++ '\n' :: r) = l :: splitNewline r := by
  induction l with
  | nil =>
    rw [List.nil_append, splitNewline]
    cases hs : splitNewline r with
    | nil => exact absurd hs (splitNewline_ne_nil r)
    | cons w ws => simp
  | cons c cs ih =>
    have hc : c ≠ '\n' := fun hc => h (by simp [hc])
    have hcs : '\n' ∉ cs := fun hm => h (List.mem_cons_of_mem c hm)
    rw [List.cons_append, splitNewline, ih hcs]
    simp [hc]

theorem rawLines_append (l r : List Char) (h : '\n' ∉ l) :
    rawLines (l ++ '\n' :: r) = l :: rawLines r := by
  unfold rawLines
  simp only [splitNewline_append l r h]
  cases hs : splitNewline r with
  | nil => exact absurd hs (splitNewline_ne_nil r)
  | cons w ws =>
    rw [List.getLast?_cons_cons]
    by_cases hl : (w :: ws).getLast? = some []
    · simp [hl]
    · simp [hl]

theorem byteLen_longLineOf (n : Nat) : byteLen (longLineOf n) = n + 3 := by
  have h1 : Char.utf8Size 'x' = 1 := by decide
  have h2 : Char.utf8Size '=' = 1 := by decide
  have h3 : Char.utf8Size 'a' = 1 := by decide
  have h4 : Char.utf8Size 'b' = 1 := by decide
  simp [byteLen, longLineOf, List.map_replicate, List.sum_replicate, h1, h2, h3, h4]
  omega

theorem newline_not_mem_longLineOf (n : Nat) : '\n' ∉ longLineOf n := by
  simp [longLineOf, List.mem_replicate]

theorem getLast_longLineOf (n : Nat) : (longLineOf n).getLast? = some 'b' := by
  have h : longLineOf n = ('x' :: '=' :: List.replicate n 'a') ++ ['b'] := rfl
  rw [h, List.getLast?_concat]

theorem dropWhile_of_head (p : Char → Bool) (l : List Char)
    (h : ∀ c, l.head? = some c → p c = false) : l.dropWhile p = l := by
  cases l with
  | nil => rfl
  | cons c cs => exact List.dropWhile_cons_of_neg (by simp [h c rfl])

theorem trimL_eq_self (p : Char → Bool) (l : List Char)
    (hh : ∀ c, l.head? = some c → p c = false)
    (hl : ∀ c, l.getLast? = some c → p c = false) : trimL p l = l := by
  unfold trimL
  rw [dropWhile_of_head p l hh, dropWhile_of_head p l.reverse, List.reverse_reverse]
  intro c hc
  rw [List.head?_reverse] at hc
  exact hl c hc

theorem trimSpace_longLineOf (n : Nat) : TrimSpace ⟨longLineOf n⟩ = ⟨longLineOf n⟩ := by
  unfold TrimSpace
  congr 1
  apply trimL_eq_self
  · intro c hc
    have : c = 'x' := by simpa [longLineOf] using hc.symm
    subst this
    decide
  · intro c hc
    rw [getLast_longLineOf] at hc
    have : c = 'b' := by simpa using hc.symm
    subst this
    decide

theorem fileLines_longLine_cons (n : Nat) (r : List Char) :
    fileLines ⟨longLineOf n ++ '\n' :: r⟩ = ⟨longLineOf n⟩ :: fileLines ⟨r⟩ := by
  unfold fileLines
  have hd : dropCR (longLineOf n) = longLineOf n := by
    unfold dropCR
    rw [getLast_longLineOf]
    simp
  simp only [rawLines_append _ r (newline_not_mem_longLineOf n), List.map_cons, hd]

theorem withoutForeignLines_longLine (n : Nat) (rest : List String) :
    withoutForeignLines false ((⟨longLineOf n⟩ : String) :: rest)
      = withoutForeignLines false rest := by
  rw [withoutForeignLines_cons, trimSpace_longLineOf]
  have h1 : (⟨longLineOf n⟩ : String) ≠ "[client]" := by
    intro h
    have hd := congrArg String.data h
    simp [longLineOf] at hd
  have h2 : HasPrefix ⟨longLineOf n⟩ "[" = false := by
    simp [HasPrefix, longLineOf, List.isPrefixOf]
  simp [h1, h2]

theorem cnfLongForeignLine_data :
    cnfLongForeignLine.data = longLineOf 70000 ++ '\n' :: cnfClientRest := rfl

theorem cnfLongForeignLine_eq :
    cnfLongForeignLine = ⟨longLineOf 70000 ++ '\n' :: cnfClientRest⟩ := rfl

theorem withoutForeignLines_cnfLong :
    withoutForeignLines false (fileLines cnfLongForeignLine)
      = withoutForeignLines false (fileLines ⟨cnfClientRest⟩) := by
  rw [cnfLongForeignLine_eq, fileLines_longLine_cons, withoutForeignLines_longLine]

theorem withoutForeignLines_cnfShort :
    withoutForeignLines false (fileLines cnfShortForeignLine)
      = withoutForeignLines false (fileLines ⟨cnfClientRest⟩) := by
  decide

theorem rawLines_cnfLong :
    rawLines cnfLongForeignLine.data = longLineOf 70000 :: rawLines cnfClientRest := by
  rw [cnfLongForeignLine_data]
  exact rawLines_append _ _ (newline_not_mem_longLineOf 70000)

theorem longLine_too_long : MaxScanTokenSize ≤ byteLen (longLineOf 70000) := by
  rw [byteLen_longLineOf]
  decide

theorem credentialsOfText_of_long_head (text : String) (seg : List Char)
    (rest : List (List Char)) (hraw : rawLines text.data = seg :: rest)
    (hlen : MaxScanTokenSize ≤ byteLen seg) :
    credentialsOfText text
      = (none, some "error reading ~/.my.cnf: bufio.Scanner: token too long") := by
  unfold credentialsOfText
  rw [hraw, scanTokens_of_long_head _ _ hlen]
  rfl

theorem credentialsOfText_cnfLong :
    credentialsOfText cnfLongForeignLine
      = (none, some "error reading ~/.my.cnf: bufio.Scanner: token too long") :=
  credentialsOfText_of_long_head _ _ _ rawLines_cnfLong longLine_too_long

/-- C6 as stated fails: two files that differ only in one key=value line
before the first header, a short one in one file and one of 70003 bytes in the
other, are the same once the foreign lines are removed, yet the first yields
credentials and the second fails with a read error. -/
theorem getCredentials_foreign_line_counterexample :
    withoutForeignLines false (fileLines cnfLongForeignLine)
      = withoutForeignLines false (fileLines cnfShortForeignLine) ∧
    GetCredentials "/home/u" (openAs cnfShortForeignLine)
      = (some { Host := "localhost", Port := "3306", User := "u", Password := "p",
                Database := "u" }, none) ∧
    GetCredentials "/home/u" (openAs cnfLongForeignLine)
      = (none, some "error reading ~/.my.cnf: bufio.Scanner: token too long") := by
  refine ⟨?_, ?_, ?_⟩
  · rw [withoutForeignLines_cnfLong, withoutForeignLines_cnfShort]
  · decide
  · rw [GetCredentials_eq "/home/u" (by decide) (openAs cnfLongForeignLine) cnfLongForeignLine rfl]
    exact credentialsOfText_cnfLong

/-- C6, amended: for two credentials files in which every line is shorter than
65536 bytes, the result of `GetCredentials` is the same whenever the files have
the same key=value lines inside `[client]` sections; in particular whenever
they differ only in lines before the first header or inside other sections. -/
theorem getCredentials_depends_on_client_section (envHome : String) (hhome : envHome ≠ "")
    (open1 open2 : String → Except String String) (t1 t2 : String)
    (hopen1 : open1 (Join [envHome, ".my.cnf"]) = .ok t1)
    (hopen2 : open2 (Join [envHome, ".my.cnf"]) = .ok t2)
    (hscan1 : Scannable t1) (hscan2 : Scannable t2) :
    (clientAssignments false (fileLines t1) = clientAssignments false (fileLines t2) →
      GetCredentials envHome open1 = GetCredentials envHome open2) ∧
    (withoutForeignLines false (fileLines t1) = withoutForeignLines false (fileLines t2) →
      GetCredentials envHome open1 = GetCredentials envHome open2) := by
  have key : clientAssignments false (fileLines t1) = clientAssignments false (fileLines t2) →
      GetCredentials envHome open1 = GetCredentials envHome open2 := by
    intro h
    rw [GetCredentials_eq envHome hhome open1 t1 hopen1,
      GetCredentials_eq envHome hhome open2 t2 hopen2,
      credentialsOfText_of_scannable t1 hscan1, credentialsOfText_of_scannable t2 hscan2, h]
  refine ⟨key, ?_⟩
  intro h
  apply key
  rw [← clientAssignments_withoutForeignLines (fileLines t1),
    ← clientAssignments_withoutForeignLines (fileLines t2), h]

theorem scannable_cnfMultiSection : Scannable cnfMultiSection := by
  unfold Scannable
  decide

theorem scannable_cnfMultiSectionOther : Scannable cnfMultiSectionOther := by
  unfold Scannable
  decide

/-- C6 on the file of the test with sections `[mysql]`, `[client]` and
`[mysqldump]` and on a file with other lines outside `[client]`: same result,
user `correctuser` and password `correctpass`. -/
theorem getCredentials_depends_on_client_section_witness :
    GetCredentials "/home/u" (openAs cnfMultiSection)
      = GetCredentials "/home/u" (openAs cnfMultiSectionOther) ∧
    GetCredentials "/home/u" (openAs cnfMultiSection)
      = (some { Host := "localhost", Port := "3306", User := "correctuser",
                Password := "correctpass", Database := "correctuser" }, none) :=
  ⟨(getCredentials_depends_on_client_section "/home/u" (by decide)
      (openAs cnfMultiSection) (openAs cnfMultiSectionOther) cnfMultiSection
      cnfMultiSectionOther rfl rfl scannable_cnfMultiSection
      scannable_cnfMultiSectionOther).2 (by decide),
   by decide⟩

theorem credentialsOfText_fields (text : String) (h : Scannable text) :
    ∃ c0 : Credentials,
      credentialsOfText text = credentialsOrNotFound c0 ∧
      c0.User = (lastAssigned "user" (clientAssignments false (fileLines text))).getD "" ∧
      c0.Database = (lastAssigned "user" (clientAssignments false (fileLines text))).getD "" ∧
      c0.Password
        = (lastAssigned "password" (clientAssignments false (fileLines text))).getD "" ∧
      c0.Host
        = (lastAssigned "host" (clientAssignments false (fileLines text))).getD "localhost" ∧
      c0.Port = (lastAssigned "port" (clientAssignments false (fileLines text))).getD "3306" :=
  ⟨_, credentialsOfText_of_scannable text h,
    foldl_assignLine_fields _ (mem_clientAssignments _ false) credsInit.creds⟩

theorem credentialsOrNotFound_ok (c0 c : Credentials)
    (h : credentialsOrNotFound c0 = (some c, none)) :
    c0 = c ∧ c0.User ≠ "" ∧ c0.Password ≠ "" := by
  unfold credentialsOrNotFound at h
  split_ifs at h with hc
  · exact ⟨by simpa using h, hc.1, hc.2⟩
  · simp at h

/-- C7: for a credentials file that is read without error (it opens, and the
scanner reaches its end), `GetCredentials` succeeds exactly when the last
assignments to `user` and to `password` inside `[client]` sections both exist
and are non-empty after trimming and quote stripping; otherwise it returns no
credentials and the error `could not find MySQL credentials in ~/.my.cnf`.  So
it fails when no `[client]` line has an `=` sign and when the user's value is
empty. -/
theorem getCredentials_succeeds_iff (envHome : String) (hhome : envHome ≠ "")
    (openFile : String → Except String String) (text : String)
    (hopen : openFile (Join [envHome, ".my.cnf"]) = .ok text) (hscan : Scannable text) :
    ((∃ c, GetCredentials envHome openFile = (some c, none)) ↔
      ((lastAssigned "user" (clientAssignments false (fileLines text))).getD "" ≠ "" ∧
       (lastAssigned "password" (clientAssignments false (fileLines text))).getD "" ≠ "")) ∧
    (¬ ((lastAssigned "user" (clientAssignments false (fileLines text))).getD "" ≠ "" ∧
        (lastAssigned "password" (clientAssignments false (fileLines text))).getD "" ≠ "") →
      GetCredentials envHome openFile
        = (none, some "could not find MySQL credentials in ~/.my.cnf")) ∧
    (clientAssignments false (fileLines text) = [] →
      GetCredentials envHome openFile
        = (none, some "could not find MySQL credentials in ~/.my.cnf")) ∧
    (lastAssigned "user" (clientAssignments false (fileLines text)) = some "" →
      GetCredentials envHome openFile
        = (none, some "could not find MySQL credentials in ~/.my.cnf")) := by
  obtain ⟨c0, hc0, hU, _, hP, _, _⟩ := credentialsOfText_fields text hscan
  rw [GetCredentials_eq envHome hhome openFile text hopen, hc0, ← hU, ← hP]
  have hfail : ¬ (c0.User ≠ "" ∧ c0.Password ≠ "") →
      credentialsOrNotFound c0
        = (none, some "could not find MySQL credentials in ~/.my.cnf") := by
    intro h
    unfold credentialsOrNotFound
    rw [if_neg h]
  refine ⟨⟨?_, ?_⟩, hfail, ?_, ?_⟩
  · rintro ⟨c, hc⟩
    exact (credentialsOrNotFound_ok c0 c hc).2
  · intro h
    exact ⟨c0, by unfold credentialsOrNotFound; rw [if_pos h]⟩
  · intro hA
    apply hfail
    rw [hU, hA]
    simp [lastAssigned_nil]
  · intro hA
    apply hfail
    rw [hU, hA]
    simp

/-- C7 on the file of the test `invalid my.cnf format`, on a file whose
`[client]` lines have no `=` sign, and on a file whose user is an empty quoted
value: all fail with the not-found error. -/
theorem getCredentials_succeeds_iff_witness :
    GetCredentials "/home/u" (openAs cnfNoEquals)
      = (none, some "could not find MySQL credentials in ~/.my.cnf") ∧
    GetCredentials "/home/u" (openAs cnfNoAssignment)
      = (none, some "could not find MySQL credentials in ~/.my.cnf") ∧
    GetCredentials "/home/u" (openAs cnfEmptyUser)
      = (none, some "could not find MySQL credentials in ~/.my.cnf") :=
  ⟨(getCredentials_succeeds_iff "/home/u" (by decide) (openAs cnfNoEquals) cnfNoEquals rfl
      (by unfold Scannable; decide)).2.1 (by decide),
   (getCredentials_succeeds_iff "/home/u" (by decide) (openAs cnfNoAssignment)
      cnfNoAssignment rfl (by unfold Scannable; decide)).2.2.1 (by decide),
   (getCredentials_succeeds_iff "/home/u" (by decide) (openAs cnfEmptyUser) cnfEmptyUser rfl
      (by unfold Scannable; decide)).2.2.2 (by decide)⟩

/-- C8: when `GetCredentials` succeeds, User and Password are the values of the
last assignments to `user` and `password` inside `[client]` sections, Host and
Port are the values of the last assignments to `host` and `port` there, or
`localhost` and `3306` when there is none, and Database equals User. -/
theorem getCredentials_fields (envHome : String) (hhome : envHome ≠ "")
    (openFile : String → Except String String) (text : String)
    (hopen : openFile (Join [envHome, ".my.cnf"]) = .ok text) (c : Credentials)
    (hok : GetCredentials envHome openFile = (some c, none)) :
    lastAssigned "user" (clientAssignments false (fileLines text)) = some c.User ∧
    lastAssigned "password" (clientAssignments false (fileLines text)) = some c.Password ∧
    c.Host = (lastAssigned "host" (clientAssignments false (fileLines text))).getD "localhost" ∧
    c.Port = (lastAssigned "port" (clientAssignments false (fileLines text))).getD "3306" ∧
    c.Database = c.User := by
  rw [GetCredentials_eq envHome hhome openFile text hopen] at hok
  obtain ⟨c0, hc0, hU, hD, hP, hH, hPo⟩ :=
    credentialsOfText_fields text (scannable_of_success text c hok)
  rw [hc0] at hok
  obtain ⟨hc, hUne, hPne⟩ := credentialsOrNotFound_ok c0 c hok
  subst hc
  refine ⟨?_, ?_, hH, hPo, by rw [hD, hU]⟩
  · cases hl : lastAssigned "user" (clientAssignments false (fileLines text)) with
    | none => rw [hl] at hU; exact absurd hU hUne
    | some v => rw [hl] at hU; rw [hU]; rfl
  · cases hl : lastAssigned "password" (clientAssignments false (fileLines text)) with
    | none => rw [hl] at hP; exact absurd hP hPne
    | some v => rw [hl] at hP; rw [hP]; rfl

/-- C8 on a `[client]` section with only user and password, and on the file of
the test with host `mysql.example.com` and port `3307`. -/
theorem getCredentials_fields_witness :
    (GetCredentials "/home/u" (openAs cnfUserPassword)
        = (some { Host := "localhost", Port := "3306", User := "testuser",
                  Password := "testpass", Database := "testuser" }, none) ∧
      lastAssigned "host" (clientAssignments false (fileLines cnfUserPassword)) = none ∧
      lastAssigned "port" (clientAssignments false (fileLines cnfUserPassword)) = none) ∧
    (GetCredentials "/home/u" (openAs cnfCustomHostPort)
        = (some { Host := "mysql.example.com", Port := "3307", User := "customuser",
                  Password := "custompass", Database := "customuser" }, none) ∧
      lastAssigned "host" (clientAssignments false (fileLines cnfCustomHostPort))
        = some "mysql.example.com") ∧
    lastAssigned "user" (clientAssignments false (fileLines cnfUserPassword))
      = some "testuser" :=
  ⟨⟨by decide, by decide, by decide⟩, ⟨by decide, by decide⟩,
   (getCredentials_fields "/home/u" (by decide) (openAs cnfUserPassword) cnfUserPassword rfl
      { Host := "localhost", Port := "3306", User := "testuser", Password := "testpass",
        Database := "testuser" } (by decide)).1⟩

theorem dropWhile_append_all (p : Char → Bool) (a r : List Char)
    (ha : ∀ c ∈ a, p c = true) : (a ++ r).dropWhile p = r.dropWhile p := by
  induction a with
  | nil => rfl
  | cons x xs ih =>
    have hx : p x = true := ha x (List.mem_cons_self x xs)
    rw [List.cons_append, List.dropWhile_cons_of_pos hx]
    exact ih (fun c hc => ha c (List.mem_cons_of_mem x hc))

theorem dropWhile_all (p : Char → Bool) (a : List Char) (ha : ∀ c ∈ a, p c = true) :
    a.dropWhile p = [] := by
  have h := dropWhile_append_all p a [] ha
  simpa using h

/-- Trimming removes a prefix and a suffix made of trimmed characters around a
middle part that neither starts nor ends with one. -/
theorem trimL_strip (p : Char → Bool) (a m b : List Char)
    (ha : ∀ c ∈ a, p c = true) (hb : ∀ c ∈ b, p c = true)
    (hh : ∀ c, m.head? = some c → p c = false)
    (hl : ∀ c, m.getLast? = some c → p c = false) : trimL p (a ++ m ++ b) = m := by
  unfold trimL
  rw [List.append_assoc, dropWhile_append_all p a _ ha]
  cases m with
  | nil =>
    rw [List.nil_append, dropWhile_all p b hb]
    rfl
  | cons x xs =>
    have hx : ¬ p x = true := by simp [hh x rfl]
    rw [List.cons_append, List.dropWhile_cons_of_neg hx, ← List.cons_append,
      List.reverse_append,
      dropWhile_append_all p b.reverse _ (fun c hc => hb c (List.mem_reverse.mp hc)),
      dropWhile_of_head p (x :: xs).reverse, List.reverse_reverse]
    intro c hc
    rw [List.head?_reverse] at hc
    exact hl c hc

theorem takeWhile_ne_append (key rest : List Char) (h : '=' ∉ key) :
    (key ++ '=' :: rest).takeWhile (fun c => c ≠ '=') = key := by
  induction key with
  | nil => simp
  | cons x xs ih =>
    have hx : x ≠ '=' := fun hx => h (by simp [hx])
    have hxs : '=' ∉ xs := fun hm => h (List.mem_cons_of_mem x hm)
    simpa [List.takeWhile_cons, hx] using ih hxs

theorem dropWhile_ne_append (key rest : List Char) (h : '=' ∉ key) :
    (key ++ '=' :: rest).dropWhile (fun c => c ≠ '=') = '=' :: rest := by
  induction key with
  | nil => simp
  | cons x xs ih =>
    have hx : x ≠ '=' := fun hx => h (by simp [hx])
    have hxs : '=' ∉ xs := fun hm => h (List.mem_cons_of_mem x hm)
    simpa [List.dropWhile_cons, hx] using ih hxs

/-- The scan step on a client-section line `key = qvq`, for a key that is a
plain word and a value `v` that neither starts nor ends with a quote
character: the line is an assignment of `v` to `key`. -/
theorem credsStep_quoted (st : ScanState) (hin : st.inClientSection = true)
    (key v : List Char) (q : Char) (hq : q = '"' ∨ q = '\x27')
    (hk0 : key ≠ []) (hkeq : '=' ∉ key)
    (hkh : ∀ c, key.head? = some c → isSpace c = false ∧ c ≠ '[')
    (hkl : ∀ c, key.getLast? = some c → isSpace c = false)
    (hvh : ∀ c, v.head? = some c → c ≠ '"' ∧ c ≠ '\x27')
    (hvl : ∀ c, v.getLast? = some c → c ≠ '"' ∧ c ≠ '\x27') :
    credsStep st ⟨key ++ [' ', '=', ' '] ++ [q] ++ v ++ [q]⟩
      = { st with creds := assignLine st.creds ⟨key ++ [' ', '=', ' '] ++ [q] ++ v ++ [q]⟩ } ∧
    assignedKey ⟨key ++ [' ', '=', ' '] ++ [q] ++ v ++ [q]⟩ = ⟨key⟩ ∧
    assignedValue ⟨key ++ [' ', '=', ' '] ++ [q] ++ v ++ [q]⟩ = ⟨v⟩ ∧
    '=' ∈ (⟨key ++ [' ', '=', ' '] ++ [q] ++ v ++ [q]⟩ : String).data := by
  have hqs : isSpace q = false := by rcases hq with h | h <;> subst h <;> decide
  obtain ⟨k, ks, rfl⟩ := List.exists_cons_of_ne_nil hk0
  have hkspace : isSpace k = false := (hkh k rfl).1
  have hkbr : k ≠ '[' := (hkh k rfl).2
  have hline : (k :: ks) ++ [' ', '=', ' '] ++ [q] ++ v ++ [q]
      = ((k :: ks) ++ [' ']) ++ '=' :: (' ' :: q :: (v ++ [q])) := by simp
  have hnoteq : '=' ∉ (k :: ks) ++ [' '] := by
    intro hm
    rcases List.mem_append.mp hm with h | h
    · exact hkeq h
    · simp at h
  have htrim : TrimSpace ⟨(k :: ks) ++ [' ', '=', ' '] ++ [q] ++ v ++ [q]⟩
      = ⟨(k :: ks) ++ [' ', '=', ' '] ++ [q] ++ v ++ [q]⟩ := by
    unfold TrimSpace
    congr 1
    apply trimL_eq_self
    · intro c hc
      have : c = k := by simpa using hc.symm
      rw [this]; exact hkspace
    · intro c hc
      rw [List.getLast?_concat] at hc
      have : c = q := by simpa using hc.symm
      rw [this]; exact hqs
  have hmem : '=' ∈ (⟨(k :: ks) ++ [' ', '=', ' '] ++ [q] ++ v ++ [q]⟩ : String).data := by
    simp
  have hne : (⟨(k :: ks) ++ [' ', '=', ' '] ++ [q] ++ v ++ [q]⟩ : String) ≠ "[client]" := by
    intro h
    have hd := congrArg String.data h
    have hd' : k = '[' := by
      have := congrArg List.head? hd
      simpa using this
    exact hkbr hd'
  have hpre : HasPrefix ⟨(k :: ks) ++ [' ', '=', ' '] ++ [q] ++ v ++ [q]⟩ "[" = false := by
    have : ¬ ('[' = k) := fun h => hkbr h.symm
    simp [HasPrefix, List.isPrefixOf, this]
  refine ⟨?_, ?_, ?_, hmem⟩
  · unfold credsStep
    simp only [htrim, hne, hpre, if_false, Contains_eq, hin, Bool.true_and, hmem,
      decide_True, if_true, Bool.false_eq_true]
  · unfold assignedKey
    simp only [hline, takeWhile_ne_append _ _ hnoteq]
    unfold TrimSpace
    congr 1
    have := trimL_strip isSpace [] (k :: ks) [' '] (by simp) (by simp [isSpace])
      (fun c hc => (hkh c hc).1) hkl
    simpa using this
  · unfold assignedValue
    simp only [hline, dropWhile_ne_append _ _ hnoteq, List.drop_succ_cons, List.drop_zero]
    have h1 : TrimSpace ⟨' ' :: q :: (v ++ [q])⟩ = ⟨q :: (v ++ [q])⟩ := by
      unfold TrimSpace
      congr 1
      have := trimL_strip isSpace [' '] (q :: (v ++ [q])) [] (by simp [isSpace]) (by simp)
        (by intro c hc; have : c = q := by simpa using hc.symm
            rw [this]; exact hqs)
        (by intro c hc
            have hc' : (q :: (v ++ [q])).getLast? = some q := by
              rw [← List.cons_append, List.getLast?_concat]
            rw [hc'] at hc
            have : c = q := by simpa using hc.symm
            rw [this]; exact hqs)
      simpa using this
    rw [h1]
    unfold Trim
    congr 1
    have hcut : ∀ c : Char, decide (c ∈ ("\"'" : String).data) = true ↔ (c = '"' ∨ c = '\x27') := by
      intro c
      simp
    have := trimL_strip (fun c => decide (c ∈ ("\"'" : String).data)) [q] v [q]
      (by intro c hc
          have : c = q := by simpa using hc
          rw [this]; exact (hcut q).mpr hq)
      (by intro c hc
          have : c = q := by simpa using hc
          rw [this]; exact (hcut q).mpr hq)
      (by intro c hc
          have h := hvh c hc
          cases hd : decide (c ∈ ("\"'" : String).data) with
          | false => exact hd
          | true => exact absurd ((hcut c).mp hd) (by tauto))
      (by intro c hc
          have h := hvl c hc
          cases hd : decide (c ∈ ("\"'" : String).data) with
          | false => exact hd
          | true => exact absurd ((hcut c).mp hd) (by tauto))
    simpa using this

theorem credsStep_quoted_field (st : ScanState) (hin : st.inClientSection = true)
    (key : String) (hkey : key ∈ ["user", "password", "host", "port"]) (v : String)
    (q : Char) (hq : q = '"' ∨ q = '\x27')
    (hvh : ∀ c, v.data.head? = some c → c ≠ '"' ∧ c ≠ '\x27')
    (hvl : ∀ c, v.data.getLast? = some c → c ≠ '"' ∧ c ≠ '\x27') :
    credentialField
      (credsStep st ⟨key.data ++ [' ', '=', ' '] ++ [q] ++ v.data ++ [q]⟩).creds key = v := by
  have hprops : key.data ≠ [] ∧ '=' ∉ key.data ∧
      (∀ c, key.data.head? = some c → isSpace c = false ∧ c ≠ '[') ∧
      (∀ c, key.data.getLast? = some c → isSpace c = false) := by
    simp only [List.mem_cons, List.mem_singleton, List.not_mem_nil, or_false] at hkey
    rcases hkey with h | h | h | h <;> subst h <;> decide
  obtain ⟨hk0, hkeq, hkh, hkl⟩ := hprops
  obtain ⟨hstep, hK, hV, hmem⟩ :=
    credsStep_quoted st hin key.data v.data q hq hk0 hkeq hkh hkl hvh hvl
  rw [hstep, assignLine_eq _ _ hmem, hK, hV]
  simp only [List.mem_cons, List.mem_singleton, List.not_mem_nil, or_false] at hkey
  rcases hkey with h | h | h | h <;> subst h <;> rfl

/-- C9: inside a client section, the line `key = "v"` and the line `key = 'v'`
both set the field of `key` (user, password, host or port) to exactly `v`,
for every `v` that neither begins nor ends with a quote character; this holds
whatever else `v` contains. -/
theorem quoted_value_is_stripped (st : ScanState) (hin : st.inClientSection = true)
    (key : String) (hkey : key ∈ ["user", "password", "host", "port"]) (v : String)
    (hvh : ∀ c, v.data.head? = some c → c ≠ '"' ∧ c ≠ '\x27')
    (hvl : ∀ c, v.data.getLast? = some c → c ≠ '"' ∧ c ≠ '\x27') :
    credentialField (credsStep st (key ++ " = \"" ++ v ++ "\"")).creds key = v ∧
    credentialField (credsStep st (key ++ " = '" ++ v ++ "'")).creds key = v := by
  have e1 : key ++ " = \"" ++ v ++ "\""
      = ⟨key.data ++ [' ', '=', ' '] ++ ['"'] ++ v.data ++ ['"']⟩ := by
    apply String.ext
    simp [String.data_append]
  have e2 : key ++ " = '" ++ v ++ "'"
      = ⟨key.data ++ [' ', '=', ' '] ++ ['\x27'] ++ v.data ++ ['\x27']⟩ := by
    apply String.ext
    simp [String.data_append]
  rw [e1, e2]
  exact ⟨credsStep_quoted_field st hin key hkey v '"' (Or.inl rfl) hvh hvl,
    credsStep_quoted_field st hin key hkey v '\x27' (Or.inr rfl) hvh hvl⟩

/-- C9 on the lines of the test `credentials with quoted values`, and the
result of `GetCredentials` on that file. -/
theorem quoted_value_is_stripped_witness :
    (credentialField
        (credsStep { creds := credsInit.creds, inClientSection := true }
          ("user" ++ " = \"" ++ "quoted_user" ++ "\"")).creds "user" = "quoted_user" ∧
      credentialField
        (credsStep { creds := credsInit.creds, inClientSection := true }
          ("user" ++ " = '" ++ "quoted_user" ++ "'")).creds "user" = "quoted_user") ∧
    GetCredentials "/home/u" (openAs cnfQuoted)
      = (some { Host := "localhost", Port := "3306", User := "quoted_user",
                Password := "single_quoted_pass", Database := "quoted_user" }, none) :=
  ⟨quoted_value_is_stripped { creds := credsInit.creds, inClientSection := true } rfl
      "user" (by decide) "quoted_user" (by decide) (by decide),
   by decide⟩

/-! ## Theorems: service rendering -/

theorem cleanStep_nonempty (rooted : Bool) (stack : List (List Char)) (e : List Char)
    (h : ∀ x ∈ stack, x ≠ []) : ∀ x ∈ cleanStep rooted stack e, x ≠ [] := by
  unfold cleanStep
  by_cases h1 : e = [] ∨ e = ['.']
  · rw [if_pos h1]
    exact h
  · rw [if_neg h1]
    have he : e ≠ [] := fun he => h1 (Or.inl he)
    by_cases h2 : e = ['.', '.']
    · rw [if_pos h2]
      cases stack with
      | nil =>
        cases rooted with
        | true => intro x hx; simp at hx
        | false =>
          intro x hx
          have hxe : x = e := by simpa using hx
          rw [hxe]
          exact he
      | cons top rest =>
        by_cases ht : top = ['.', '.']
        · intro x hx
          simp only [ht, if_true] at hx
          rw [← ht] at hx
          rcases List.mem_cons.mp hx with hx | hx
          · rw [hx]
            exact he
          · exact h x hx
        · intro x hx
          simp only [ht, if_false] at hx
          exact h x (List.mem_cons_of_mem top hx)
    · rw [if_neg h2]
      intro x hx
      rcases List.mem_cons.mp hx with hx | hx
      · rw [hx]
        exact he
      · exact h x hx

theorem foldl_cleanStep_nonempty (rooted : Bool) (es stack : List (List Char))
    (h : ∀ x ∈ stack, x ≠ []) : ∀ x ∈ es.foldl (cleanStep rooted) stack, x ≠ [] := by
  induction es generalizing stack with
  | nil => exact h
  | cons e rest ih => exact ih _ (cleanStep_nonempty rooted stack e h)

theorem intercalate_ne_nil (sep : List Char) (kept : List (List Char)) (hk : kept ≠ [])
    (h : ∀ x ∈ kept, x ≠ []) : List.intercalate sep kept ≠ [] := by
  cases kept with
  | nil => exact absurd rfl hk
  | cons x xs =>
    have hx : x ≠ [] := h x (List.mem_cons_self x xs)
    cases xs with
    | nil => simpa [List.intercalate, List.intersperse] using hx
    | cons y ys => simp [List.intercalate, List.intersperse, hx]

theorem cleanL_ne_nil (path : List Char) : cleanL path ≠ [] := by
  unfold cleanL
  cases path with
  | nil => simp
  | cons c cs =>
    simp only
    split_ifs with h1 h2
    · simp
    · simp
    · apply intercalate_ne_nil _ _ h2
      intro x hx
      exact foldl_cleanStep_nonempty _ _ [] (by simp) x (List.mem_reverse.mp hx)

theorem Clean_ne_empty (path : String) : Clean path ≠ "" := by
  intro h
  exact cleanL_ne_nil path.data (congrArg String.data h)

/-- A join whose elements include a non-empty one after any position is not
empty; here: a join of three elements with a non-empty second one. -/
theorem Join_logs_ne_empty (homeDir file : String) : Join [homeDir, "logs", file] ≠ "" := by
  unfold Join
  split_ifs with h
  · unfold Join
    rw [if_neg (by decide)]
    exact Clean_ne_empty _
  · exact Clean_ne_empty _

theorem serviceDefaults_fields (homeDir : String) (s : Service) :
    (serviceDefaults homeDir s).Name = s.Name ∧
    (serviceDefaults homeDir s).Command = s.Command ∧
    (serviceDefaults homeDir s).Directory = s.Directory ∧
    (serviceDefaults homeDir s).Environment = s.Environment ∧
    (serviceDefaults homeDir s).AutoRestart = s.AutoRestart ∧
    (serviceDefaults homeDir s).StartSecs = (if s.StartSecs = 0 then 15 else s.StartSecs) ∧
    (serviceDefaults homeDir s).StdoutLogfile
      = (if s.StdoutLogfile = "" then Join [homeDir, "logs", s.Name ++ ".log"]
         else s.StdoutLogfile) ∧
    (serviceDefaults homeDir s).StderrLogfile
      = (if s.StderrLogfile = "" then Join [homeDir, "logs", s.Name ++ "-error.log"]
         else s.StderrLogfile) := by
  unfold serviceDefaults
  by_cases h1 : s.StartSecs = 0 <;> by_cases h2 : s.StdoutLogfile = "" <;>
    by_cases h3 : s.StderrLogfile = "" <;> by_cases h4 : s.AutoRestart = true <;>
    simp [h1, h2, h3, h4]

/-- C10: the text that `CreateService` renders carries `startsecs=15` when
StartSecs is 0 and the given StartSecs otherwise, a `stdout_logfile` line with
the join of home, `logs` and `<Name>.log` when StdoutLogfile is empty and the
given path otherwise, and a `stderr_logfile` line with the join of home,
`logs` and `<Name>-error.log` when StderrLogfile is empty and the given path
otherwise.  The text is what is written to the service file, and in dry-run
mode what is printed after the two dry-run lines. -/
theorem createService_applies_defaults (m : ServiceManager) (envHome : String)
    (hhome : envHome ≠ "") (mkdirAll create : String → Option String) (service : Service)
    (hmkdir : mkdirAll (Join [envHome, "etc", "services.d"]) = none) :
    renderService (serviceDefaults envHome service)
      = "[program:" ++ service.Name ++ "]\ncommand=" ++ service.Command
        ++ "\ndirectory=" ++ service.Directory
        ++ (if service.Environment ≠ [] then
              "\nenvironment=" ++ renderEnvEntries (sortedEntries service.Environment)
            else "")
        ++ "\nstartsecs="
        ++ toString (if service.StartSecs = 0 then (15 : Int) else service.StartSecs)
        ++ "\nautorestart=" ++ (if service.AutoRestart then "true" else "false")
        ++ "\nstdout_logfile="
        ++ (if service.StdoutLogfile = "" then Join [envHome, "logs", service.Name ++ ".log"]
            else service.StdoutLogfile)
        ++ "\nstderr_logfile="
        ++ (if service.StderrLogfile = "" then
              Join [envHome, "logs", service.Name ++ "-error.log"]
            else service.StderrLogfile)
        ++ "\n" ∧
    (m.dryRun = false →
      create (Join [Join [envHome, "etc", "services.d"], service.Name ++ ".ini"]) = none →
      (m.CreateService envHome mkdirAll create service).err = none ∧
      (m.CreateService envHome mkdirAll create service).file
        = some (Join [Join [envHome, "etc", "services.d"], service.Name ++ ".ini"],
                renderService (serviceDefaults envHome service))) ∧
    (m.dryRun = true →
      (m.CreateService envHome mkdirAll create service).err = none ∧
      (m.CreateService envHome mkdirAll create service).file = none ∧
      (m.CreateService envHome mkdirAll create service).stdout
        = (if m.verbose then
             "Creating service configuration: "
               ++ Join [Join [envHome, "etc", "services.d"], service.Name ++ ".ini"] ++ "\n"
           else "")
          ++ "[DRY RUN] Would create service file: "
          ++ Join [Join [envHome, "etc", "services.d"], service.Name ++ ".ini"] ++ "\n"
          ++ "[DRY RUN] Service configuration:\n"
          ++ renderService (serviceDefaults envHome service)) := by
  obtain ⟨hname, hcmd, hdir, henv, hauto, hsecs, hout, herr⟩ :=
    serviceDefaults_fields envHome service
  refine ⟨?_, ?_, ?_⟩
  · have ho : (serviceDefaults envHome service).StdoutLogfile ≠ "" := by
      rw [hout]
      split_ifs with h
      · exact Join_logs_ne_empty envHome _
      · exact h
    have he : (serviceDefaults envHome service).StderrLogfile ≠ "" := by
      rw [herr]
      split_ifs with h
      · exact Join_logs_ne_empty envHome _
      · exact h
    unfold renderService
    rw [if_pos ho, if_pos he, hname, hcmd, hdir, henv, hauto, hsecs, hout, herr]
    simp only [String.append_assoc]
  · intro hdry hcreate
    simp [ServiceManager.CreateService, UserHomeDir, hhome, hmkdir, hdry, hcreate, hname]
  · intro hdry
    simp [ServiceManager.CreateService, UserHomeDir, hhome, hmkdir, hdry, hname,
      String.append_assoc]

/-- C10 on the services of the tests `create service with defaults` and
`create service with custom settings`: the first renders `startsecs=15` and
the two default log paths under the home directory, the second renders its own
StartSecs 30 and its own log paths. -/
theorem createService_applies_defaults_witness :
    (({ dryRun := false, verbose := false } : ServiceManager).CreateService "/home/u"
        (fun _ => none) (fun _ => none) svcDefaultApp).file
      = some (Join [Join ["/home/u", "etc", "services.d"], svcDefaultApp.Name ++ ".ini"],
              renderService (serviceDefaults "/home/u" svcDefaultApp)) ∧
    Join [Join ["/home/u", "etc", "services.d"], svcDefaultApp.Name ++ ".ini"]
      = "/home/u/etc/services.d/defaultapp.ini" ∧
    renderService (serviceDefaults "/home/u" svcDefaultApp)
      = "[program:defaultapp]\ncommand=npm start\ndirectory=/home/user/apps/defaultapp\nstartsecs=15\nautorestart=false\nstdout_logfile=/home/u/logs/defaultapp.log\nstderr_logfile=/home/u/logs/defaultapp-error.log\n" ∧
    renderService (serviceDefaults "/home/u" svcCustomApp)
      = "[program:customapp]\ncommand=python app.py\ndirectory=/home/user/apps/customapp\nstartsecs=30\nautorestart=false\nstdout_logfile=/custom/logs/app.log\nstderr_logfile=/custom/logs/app-error.log\n" :=
  ⟨((createService_applies_defaults { dryRun := false, verbose := false } "/home/u"
      (by decide) (fun _ => none) (fun _ => none) svcDefaultApp rfl).2.1 rfl rfl).2,
   by decide, by decide, by decide⟩

/-! ## Theorems: validity of accepted manifests -/

/-- C19 as stated fails: a nodejs manifest with backend http and port -1 is
accepted, and so is a php manifest with backend http and port 0; in neither is
the port positive. -/
theorem validate_accepts_nonpositive_port_counterexample :
    manifestNegativePort.Validate = none ∧ manifestNegativePort.Web.Backend = "http" ∧
    ¬ (0 < manifestNegativePort.Web.Port) ∧
    ({ App := { Name := "blog", Typ := "php" }, Runtime := { Language := "php" },
       Web := { Backend := "http", Port := 0 } } : AppManifest).Validate = none := by
  decide

/-- The manifests that `Validate` accepts. -/
theorem validate_none_iff (m : AppManifest) :
    m.Validate = none ↔
      (m.App.Name ≠ "" ∧ m.App.Typ ≠ "" ∧ m.Runtime.Language ≠ "" ∧
       m.App.Typ ∈ ["php", "python", "nodejs", "ruby", "go", "static"] ∧
       (m.App.Typ ≠ "php" → m.Web.Backend = "http" → m.Web.Port ≠ 0)) := by
  have hv := validTypes_iff m.App.Typ
  constructor
  · intro h
    unfold AppManifest.Validate at h
    split_ifs at h with a b c d e
    refine ⟨a, b, c, hv.mp (by simpa using d), ?_⟩
    intro h1 h2 h3
    exact e ⟨h1, h2, h3⟩
  · rintro ⟨a, b, c, d, e⟩
    unfold AppManifest.Validate
    rw [if_neg a, if_neg b, if_neg c, if_neg (by simp [hv.mpr d]),
      if_neg (fun h => e h.1 h.2.1 h.2.2)]

/-- C19, amended: every manifest that `Validate` accepts has a non-empty name,
type and runtime language, a type among php, python, nodejs, ruby, go, static,
and, if its type is not php and its web backend is `http`, a port other than 0
(positive or negative); and every manifest with these properties is accepted. -/
theorem validate_accepts_iff (m : AppManifest) :
    m.Validate = none ↔
      (m.App.Name ≠ "" ∧ m.App.Typ ≠ "" ∧ m.Runtime.Language ≠ "" ∧
       m.App.Typ ∈ ["php", "python", "nodejs", "ruby", "go", "static"] ∧
       (m.App.Typ ≠ "php" → m.Web.Backend = "http" → m.Web.Port ≠ 0)) :=
  validate_none_iff m

/-- C20 as stated fails: a manifest with a runtime language and an empty
runtime version is accepted. -/
theorem validate_accepts_empty_version_counterexample :
    manifestNoVersion.Runtime.Version = "" ∧ manifestNoVersion.Validate = none := by
  decide

/-- C20, amended: `Validate` returns an error for every manifest whose runtime
language is empty; the runtime version is not looked at, so the outcome is the
same whatever the version is, the empty version included. -/
theorem validate_requires_language (m : AppManifest) :
    (m.Runtime.Language = "" → m.Validate ≠ none) ∧
    (∀ v : String,
      ({ m with Runtime := { m.Runtime with Version := v } } : AppManifest).Validate
        = m.Validate) := by
  constructor
  · intro h hnone
    exact ((validate_none_iff m).mp hnone).2.2.1 h
  · intro v
    rfl

/-- C20 on a manifest without runtime language: the language error. -/
theorem validate_requires_language_witness :
    ({ App := { Name := "app", Typ := "go" }, Runtime := { Language := "", Version := "1.22" } }
      : AppManifest).Validate ≠ none :=
  (validate_requires_language
    { App := { Name := "app", Typ := "go" }, Runtime := { Language := "", Version := "1.22" } }).1
    rfl

/-! ## Theorems: directory layout paths and layout check -/

theorem NewManager_eq (envHome : String) (hhome : envHome ≠ "") (appName : String)
    (dryRun verbose : Bool) :
    NewManager envHome appName dryRun verbose
      = (some { appRoot := Join [envHome, "apps", appName], appName := appName,
                dryRun := dryRun, verbose := verbose }, none) := by
  simp [NewManager, UserHomeDir, hhome]

/-- C13: with a resolvable home directory `h`, `NewManager` returns a manager
whose AppRoot is the join of `h`, `apps` and the name and whose other six
paths are the joins of AppRoot with `app`, `data`, `logs`, `backups`, `tmp`
and `.uberman.toml`; managers built with other flags have the same paths. -/
theorem newManager_paths (envHome : String) (hhome : envHome ≠ "") (appName : String)
    (dryRun verbose : Bool) :
    ∃ m : Manager,
      NewManager envHome appName dryRun verbose = (some m, none) ∧
      m.AppRoot = Join [envHome, "apps", appName] ∧
      m.AppDir = Join [m.AppRoot, "app"] ∧
      m.DataDir = Join [m.AppRoot, "data"] ∧
      m.LogsDir = Join [m.AppRoot, "logs"] ∧
      m.BackupsDir = Join [m.AppRoot, "backups"] ∧
      m.TmpDir = Join [m.AppRoot, "tmp"] ∧
      m.ConfigFile = Join [m.AppRoot, ".uberman.toml"] ∧
      (∀ (d v : Bool) (m2 : Manager),
        NewManager envHome appName d v = (some m2, none) →
        m2.AppRoot = m.AppRoot ∧ m2.AppDir = m.AppDir ∧ m2.DataDir = m.DataDir ∧
        m2.LogsDir = m.LogsDir ∧ m2.BackupsDir = m.BackupsDir ∧ m2.TmpDir = m.TmpDir ∧
        m2.ConfigFile = m.ConfigFile) := by
  refine ⟨_, NewManager_eq envHome hhome appName dryRun verbose, rfl, rfl, rfl, rfl, rfl, rfl,
    rfl, ?_⟩
  intro d v m2 h
  rw [NewManager_eq envHome hhome appName d v] at h
  have hm : m2 = { appRoot := Join [envHome, "apps", appName], appName := appName,
                   dryRun := d, verbose := v } := by
    simpa using h.symm
  subst hm
  exact ⟨rfl, rfl, rfl, rfl, rfl, rfl, rfl⟩

/-- C13 for the app `ghost` of the user with home `/home/u`. -/
theorem newManager_paths_witness :
    ∃ m : Manager,
      NewManager "/home/u" "ghost" true false = (some m, none) ∧
      m.AppRoot = "/home/u/apps/ghost" ∧ m.AppDir = "/home/u/apps/ghost/app" ∧
      m.ConfigFile = "/home/u/apps/ghost/.uberman.toml" := by
  obtain ⟨m, h1, h2, h3, _, _, _, _, h8, _⟩ :=
    newManager_paths "/home/u" (by decide) "ghost" true false
  refine ⟨m, h1, ?_, ?_, ?_⟩
  · rw [h2]; decide
  · rw [h3, h2]; decide
  · rw [h8, h2]; decide

theorem validateDirs_congr (s1 s2 : String → Option Bool) (dirs : List String)
    (h : ∀ p ∈ dirs, s1 p = s2 p) : validateDirs s1 dirs = validateDirs s2 dirs := by
  induction dirs with
  | nil => rfl
  | cons d rest ih =>
    have hd : s1 d = s2 d := h d (List.mem_cons_self d rest)
    simp only [validateDirs, hd, ih (fun p hp => h p (List.mem_cons_of_mem d hp))]

theorem validateDirs_none_iff (stat : String → Option Bool) (dirs : List String) :
    validateDirs stat dirs = none ↔ ∀ p ∈ dirs, stat p = some true := by
  induction dirs with
  | nil => simp [validateDirs]
  | cons d rest ih =>
    cases hd : stat d with
    | none => simp [validateDirs, hd]
    | some b =>
      cases b with
      | false => simp [validateDirs, hd]
      | true => simp [validateDirs, hd, ih]

/-- The first required directory that is missing or not a directory decides
the error of the directory loop. -/
theorem validateDirs_first_offender (stat : String → Option Bool) (pre : List String)
    (d : String) (post : List String) (hpre : ∀ p ∈ pre, stat p = some true) :
    (stat d = none →
      validateDirs stat (pre ++ d :: post) = some ("directory does not exist: " ++ d)) ∧
    (stat d = some false →
      validateDirs stat (pre ++ d :: post) = some ("path is not a directory: " ++ d)) := by
  induction pre with
  | nil =>
    constructor
    · intro h; simp [validateDirs, h]
    · intro h; simp [validateDirs, h]
  | cons q qs ih =>
    have hq : stat q = some true := hpre q (List.mem_cons_self q qs)
    have ih' := ih (fun p hp => hpre p (List.mem_cons_of_mem q hp))
    constructor
    · intro h; simp [validateDirs, hq, ih'.1 h]
    · intro h; simp [validateDirs, hq, ih'.2 h]

/-- C15: `Validate` returns nil exactly when `os.Stat` reports AppRoot,
AppDir, DataDir and LogsDir as directories and succeeds on ConfigFile; the
first of the four directories, in this order, on which `os.Stat` fails or
which is not a directory gives `directory does not exist: <path>` or `path is
not a directory: <path>`; with the four directories in place and no config
file the error is `config file does not exist: <path>`; and the result depends
on the filesystem only through these five paths, so not on the backups and tmp
directories. -/
theorem manager_validate_layout (m : Manager) (stat : String → Option Bool) :
    (m.Validate stat = none ↔
      (stat m.AppRoot = some true ∧ stat m.AppDir = some true ∧ stat m.DataDir = some true ∧
       stat m.LogsDir = some true ∧ stat m.ConfigFile ≠ none)) ∧
    (∀ i, i < 4 →
      (∀ j, j < i → stat ([m.AppRoot, m.AppDir, m.DataDir, m.LogsDir].getD j "") = some true) →
      (stat ([m.AppRoot, m.AppDir, m.DataDir, m.LogsDir].getD i "") = none →
        m.Validate stat = some ("directory does not exist: "
          ++ [m.AppRoot, m.AppDir, m.DataDir, m.LogsDir].getD i "")) ∧
      (stat ([m.AppRoot, m.AppDir, m.DataDir, m.LogsDir].getD i "") = some false →
        m.Validate stat = some ("path is not a directory: "
          ++ [m.AppRoot, m.AppDir, m.DataDir, m.LogsDir].getD i ""))) ∧
    (stat m.AppRoot = some true → stat m.AppDir = some true → stat m.DataDir = some true →
      stat m.LogsDir = some true → stat m.ConfigFile = none →
      m.Validate stat = some ("config file does not exist: " ++ m.ConfigFile)) ∧
    (∀ statOther : String → Option Bool,
      (∀ p ∈ [m.AppRoot, m.AppDir, m.DataDir, m.LogsDir, m.ConfigFile],
        statOther p = stat p) →
      m.Validate statOther = m.Validate stat) := by
  have hdirs := validateDirs_none_iff stat [m.appRoot, m.AppDir, m.DataDir, m.LogsDir]
  refine ⟨?_, ?_, ?_, ?_⟩
  · unfold Manager.Validate
    cases hv : validateDirs stat [m.appRoot, m.AppDir, m.DataDir, m.LogsDir] with
    | some err =>
      have hnot := mt hdirs.mpr (by rw [hv]; simp)
      constructor
      · intro h
        cases h
      intro h
      exfalso
      apply hnot
      intro p hp
      simp only [List.mem_cons, List.mem_singleton, List.not_mem_nil, or_false] at hp
      rcases hp with e | e | e | e <;> rw [e]
      · exact h.1
      · exact h.2.1
      · exact h.2.2.1
      · exact h.2.2.2.1
    | none =>
      have hall := hdirs.mp hv
      have h1 : stat m.AppRoot = some true := hall _ (by simp [Manager.AppRoot])
      have h2 : stat m.AppDir = some true := hall _ (by simp)
      have h3 : stat m.DataDir = some true := hall _ (by simp)
      have h4 : stat m.LogsDir = some true := hall _ (by simp)
      cases hc : stat m.ConfigFile with
      | none => simp [h1, h2, h3, h4]
      | some b => simp [h1, h2, h3, h4]
  · intro i hi hlow
    have hcases : i = 0 ∨ i = 1 ∨ i = 2 ∨ i = 3 := by omega
    have h0 := hlow 0
    have h1 := hlow 1
    have h2 := hlow 2
    unfold Manager.Validate
    rcases hcases with h | h | h | h <;> subst h
    · have := validateDirs_first_offender stat [] m.appRoot [m.AppDir, m.DataDir, m.LogsDir]
        (by simp)
      constructor
      · intro hs
        have e := this.1 hs
        simp only [List.nil_append] at e
        simp [e, Manager.AppRoot]
      · intro hs
        have e := this.2 hs
        simp only [List.nil_append] at e
        simp [e, Manager.AppRoot]
    · have := validateDirs_first_offender stat [m.appRoot] m.AppDir [m.DataDir, m.LogsDir]
        (by intro p hp
            have hp' : p = m.appRoot := by simpa using hp
            rw [hp']
            exact h0 (by decide))
      constructor
      · intro hs
        have e := this.1 hs
        simp only [List.singleton_append] at e
        simp [e]
      · intro hs
        have e := this.2 hs
        simp only [List.singleton_append] at e
        simp [e]
    · have := validateDirs_first_offender stat [m.appRoot, m.AppDir] m.DataDir [m.LogsDir]
        (by intro p hp
            simp only [List.mem_cons, List.mem_singleton, List.not_mem_nil, or_false] at hp
            rcases hp with e | e <;> rw [e]
            · exact h0 (by decide)
            · exact h1 (by decide))
      constructor
      · intro hs
        have e := this.1 hs
        simp only [List.cons_append, List.nil_append] at e
        simp [e]
      · intro hs
        have e := this.2 hs
        simp only [List.cons_append, List.nil_append] at e
        simp [e]
    · have := validateDirs_first_offender stat [m.appRoot, m.AppDir, m.DataDir] m.LogsDir []
        (by intro p hp
            simp only [List.mem_cons, List.mem_singleton, List.not_mem_nil, or_false] at hp
            rcases hp with e | e | e <;> rw [e]
            · exact h0 (by decide)
            · exact h1 (by decide)
            · exact h2 (by decide))
      constructor
      · intro hs
        have e := this.1 hs
        simp only [List.cons_append, List.nil_append] at e
        simp [e]
      · intro hs
        have e := this.2 hs
        simp only [List.cons_append, List.nil_append] at e
        simp [e]
  · intro h1 h2 h3 h4 hc
    have hv : validateDirs stat [m.appRoot, m.AppDir, m.DataDir, m.LogsDir] = none := by
      apply hdirs.mpr
      intro p hp
      simp only [List.mem_cons, List.mem_singleton, List.not_mem_nil, or_false] at hp
      rcases hp with e | e | e | e <;> rw [e] <;> assumption
    simp [Manager.Validate, hv, hc]
  · intro statOther h
    unfold Manager.Validate
    have hv := validateDirs_congr statOther stat [m.appRoot, m.AppDir, m.DataDir, m.LogsDir]
      (by intro p hp
          apply h
          simp only [List.mem_cons, List.mem_singleton, List.not_mem_nil, or_false] at hp ⊢
          rcases hp with e | e | e | e
          · exact Or.inl e
          · exact Or.inr (Or.inl e)
          · exact Or.inr (Or.inr (Or.inl e))
          · exact Or.inr (Or.inr (Or.inr (Or.inl e))))
    have hc : statOther m.ConfigFile = stat m.ConfigFile := h _ (by simp)
    rw [hv, hc]

/-- C15 on the complete layout of `validapp` with its config file: `Validate`
returns nil; without the config file it reports the config file. -/
theorem manager_validate_layout_witness :
    managerValidApp.Validate statCompleteLayout = none ∧
    managerValidApp.Validate
        (fun p => if p = "/home/u/apps/validapp/.uberman.toml" then none
                  else statCompleteLayout p)
      = some "config file does not exist: /home/u/apps/validapp/.uberman.toml" :=
  ⟨(manager_validate_layout managerValidApp statCompleteLayout).1.mpr (by decide),
   (manager_validate_layout managerValidApp
      (fun p => if p = "/home/u/apps/validapp/.uberman.toml" then none
                else statCompleteLayout p)).2.2.1
      (by decide) (by decide) (by decide) (by decide) (by decide)⟩

/-! ## Theorems: lines of the rendered service text -/

theorem splitNewline_append_gen (a b : List Char) :
    splitNewline (a ++ '\n' :: b) = splitNewline a ++ splitNewline b := by
  induction a with
  | nil =>
    rw [List.nil_append, splitNewline]
    cases hs : splitNewline b with
    | nil => exact absurd hs (splitNewline_ne_nil b)
    | cons w ws => simp [splitNewline, hs]
  | cons c cs ih =>
    rw [List.cons_append, splitNewline, ih]
    cases hs : splitNewline cs with
    | nil => exact absurd hs (splitNewline_ne_nil cs)
    | cons w ws =>
      rw [splitNewline, hs]
      by_cases hc : c = '\n' <;> simp [hc]

theorem splitNewline_of_not_mem (l : List Char) (h : '\n' ∉ l) : splitNewline l = [l] := by
  induction l with
  | nil => rfl
  | cons c cs ih =>
    have hc : c ≠ '\n' := fun hc => h (by simp [hc])
    have hcs : '\n' ∉ cs := fun hm => h (List.mem_cons_of_mem c hm)
    rw [splitNewline, ih hcs]
    simp [hc]

/-- A piece without newline that stands between two newlines is a line. -/
theorem mem_splitNewline_middle (a l r : List Char) (hl : '\n' ∉ l) :
    l ∈ splitNewline (a ++ '\n' :: (l ++ '\n' :: r)) := by
  rw [splitNewline_append_gen, splitNewline_append l r hl]
  simp

/-- A piece without newline that follows a newline starts a line. -/
theorem exists_line_with_prefix (a p r : List Char) (hp : '\n' ∉ p) :
    ∃ l ∈ splitNewline (a ++ '\n' :: (p ++ r)), p.isPrefixOf l = true := by
  have key : ∀ q : List Char, '\n' ∉ q → ∃ w ws, splitNewline (q ++ r) = (q ++ w) :: ws := by
    intro q
    induction q with
    | nil =>
      intro _
      cases hs : splitNewline r with
      | nil => exact absurd hs (splitNewline_ne_nil r)
      | cons w ws => exact ⟨w, ws, by simp [hs]⟩
    | cons c cs ih =>
      intro hq
      have hc : c ≠ '\n' := fun hc => hq (by simp [hc])
      have hcs : '\n' ∉ cs := fun hm => hq (List.mem_cons_of_mem c hm)
      obtain ⟨w, ws, hw⟩ := ih hcs
      refine ⟨w, ws, ?_⟩
      rw [List.cons_append, splitNewline, hw]
      simp [hc]
  obtain ⟨w, ws, hw⟩ := key p hp
  refine ⟨p ++ w, ?_, ?_⟩
  · rw [splitNewline_append_gen, hw]
    simp
  · rw [List.isPrefixOf_iff_prefix]
    exact List.prefix_append p w

theorem digitChar_ne_newline (d : Nat) : Nat.digitChar d ≠ '\n' := by
  by_cases h : d < 16
  · interval_cases d <;> decide
  · have e : Nat.digitChar d = '*' := by
      unfold Nat.digitChar
      repeat rw [if_neg (by omega)]
    rw [e]
    decide

theorem toDigitsCore_no_newline (fuel n : Nat) (acc : List Char) (h : '\n' ∉ acc) :
    '\n' ∉ Nat.toDigitsCore 10 fuel n acc := by
  induction fuel generalizing n acc with
  | zero => simpa [Nat.toDigitsCore] using h
  | succ f ih =>
    have hacc : '\n' ∉ Nat.digitChar (n % 10) :: acc := by
      intro hm
      rcases List.mem_cons.mp hm with e | e
      · exact digitChar_ne_newline _ e.symm
      · exact h e
    unfold Nat.toDigitsCore
    simp only
    split_ifs with h0
    · exact hacc
    · exact ih _ _ hacc

theorem toString_nat_no_newline (n : Nat) : '\n' ∉ (toString n).data := by
  have h : (toString n).data = Nat.toDigitsCore 10 (n + 1) n [] := rfl
  rw [h]
  exact toDigitsCore_no_newline _ _ _ (by simp)

theorem toString_int_no_newline (z : Int) : '\n' ∉ (toString z).data := by
  cases z with
  | ofNat n => exact toString_nat_no_newline n
  | negSucc n =>
    have h : (toString (Int.negSucc n)).data = '-' :: (toString (n + 1)).data := rfl
    rw [h]
    intro hm
    rcases List.mem_cons.mp hm with e | e
    · exact absurd e (by decide)
    · exact toString_nat_no_newline _ e

/-- The text after the autorestart value: the optional log lines and the final
newline. -/
theorem renderService_tail (s : Service) :
    ∃ rest : List Char,
      ((if s.StdoutLogfile ≠ "" then "\nstdout_logfile=" ++ s.StdoutLogfile else "")
        ++ ((if s.StderrLogfile ≠ "" then "\nstderr_logfile=" ++ s.StderrLogfile else "")
        ++ "\n")).data = '\n' :: rest := by
  by_cases ho : s.StdoutLogfile ≠ ""
  · rw [if_pos ho]
    exact ⟨_, rfl⟩
  · rw [if_neg ho]
    by_cases he : s.StderrLogfile ≠ ""
    · rw [if_pos he]
      exact ⟨_, rfl⟩
    · rw [if_neg he]
      exact ⟨_, rfl⟩

theorem data_autorestart (p x t : String) :
    (p ++ ("\nautorestart=" ++ (x ++ t))).data
      = p.data ++ '\n' :: (("autorestart=" ++ x).data ++ t.data) := by
  simp only [String.data_append]
  rfl

/-- The rendered text, cut around its autorestart line. -/
theorem renderService_autorestart (s : Service) :
    ∃ a r : List Char,
      (renderService s).data
        = a ++ '\n' :: (("autorestart=" ++ (if s.AutoRestart then "true" else "false")).data
            ++ '\n' :: r) := by
  obtain ⟨rest, hrest⟩ := renderService_tail s
  refine ⟨("[program:" ++ s.Name ++ "]\ncommand=" ++ s.Command ++ "\ndirectory=" ++ s.Directory
      ++ (if s.Environment ≠ [] then
            "\nenvironment=" ++ renderEnvEntries (sortedEntries s.Environment)
          else "")
      ++ "\nstartsecs=" ++ toString s.StartSecs).data, rest, ?_⟩
  have h : renderService s
      = ("[program:" ++ s.Name ++ "]\ncommand=" ++ s.Command ++ "\ndirectory=" ++ s.Directory
          ++ (if s.Environment ≠ [] then
                "\nenvironment=" ++ renderEnvEntries (sortedEntries s.Environment)
              else "")
          ++ "\nstartsecs=" ++ toString s.StartSecs)
        ++ ("\nautorestart=" ++ ((if s.AutoRestart then "true" else "false")
        ++ ((if s.StdoutLogfile ≠ "" then "\nstdout_logfile=" ++ s.StdoutLogfile else "")
        ++ ((if s.StderrLogfile ≠ "" then "\nstderr_logfile=" ++ s.StderrLogfile else "")
        ++ "\n")))) := by
    unfold renderService
    simp only [String.append_assoc]
  rw [h, data_autorestart, hrest]

theorem textLines_mem_of_middle (t : String) (a r : List Char) (l : String)
    (hl : '\n' ∉ l.data) (h : t.data = a ++ '\n' :: (l.data ++ '\n' :: r)) :
    l ∈ textLines t := by
  unfold textLines
  rw [h]
  exact List.mem_map.mpr ⟨l.data, mem_splitNewline_middle a l.data r hl, rfl⟩

/-- C12: the text rendered by `CreateService` contains the line
`autorestart=true` when the given AutoRestart flag is true and the line
`autorestart=false` when it is false; the default handling leaves the flag as
it is, so an unset flag is rendered as false. -/
theorem autorestart_line_follows_flag (homeDir : String) (service : Service) :
    (serviceDefaults homeDir service).AutoRestart = service.AutoRestart ∧
    (service.AutoRestart = true →
      "autorestart=true" ∈ textLines (renderService (serviceDefaults homeDir service))) ∧
    (service.AutoRestart = false →
      "autorestart=false" ∈ textLines (renderService (serviceDefaults homeDir service))) := by
  have hflag := (serviceDefaults_fields homeDir service).2.2.2.2.1
  obtain ⟨a, r, h⟩ := renderService_autorestart (serviceDefaults homeDir service)
  rw [hflag] at h
  refine ⟨hflag, ?_, ?_⟩
  · intro ht
    rw [ht] at h
    exact textLines_mem_of_middle _ a r "autorestart=true" (by decide) h
  · intro hf
    rw [hf] at h
    exact textLines_mem_of_middle _ a r "autorestart=false" (by decide) h

/-- C12 on the service of the test `create service with defaults`, which does
not set AutoRestart: the line is `autorestart=false`. -/
theorem autorestart_line_follows_flag_witness :
    svcDefaultApp.AutoRestart = false ∧
    "autorestart=false" ∈ textLines (renderService (serviceDefaults "/home/u" svcDefaultApp)) :=
  ⟨rfl, (autorestart_line_follows_flag "/home/u" svcDefaultApp).2.2 rfl⟩

theorem intercalate_cons_cons (sep p q : List Char) (rest : List (List Char)) :
    List.intercalate sep (p :: q :: rest) = p ++ sep ++ List.intercalate sep (q :: rest) := by
  simp [List.intercalate, List.intersperse]

/-- Pieces without newline joined by newlines are the lines of the joined text. -/
theorem splitNewline_intercalate (ps : List (List Char)) (hne : ps ≠ [])
    (h : ∀ p ∈ ps, '\n' ∉ p) : splitNewline (List.intercalate ['\n'] ps) = ps := by
  induction ps with
  | nil => exact absurd rfl hne
  | cons p rest ih =>
    have hp : '\n' ∉ p := h p (List.mem_cons_self p rest)
    cases rest with
    | nil =>
      have e : List.intercalate ['\n'] [p] = p := by simp [List.intercalate, List.intersperse]
      rw [e, splitNewline_of_not_mem p hp]
    | cons q rest' =>
      rw [intercalate_cons_cons]
      have e : p ++ ['\n'] ++ List.intercalate ['\n'] (q :: rest')
          = p ++ '\n' :: List.intercalate ['\n'] (q :: rest') := by simp
      rw [e, splitNewline_append p _ hp,
        ih (by simp) (fun x hx => h x (List.mem_cons_of_mem p hx))]

/-- The rendered text is its expected lines joined by newlines. -/
theorem renderService_data_eq (s : Service) :
    (renderService s).data
      = List.intercalate ['\n'] ((expectedLines s).map String.data) := by
  unfold renderService expectedLines
  by_cases h1 : s.Environment = [] <;> by_cases h2 : s.StdoutLogfile = "" <;>
    by_cases h3 : s.StderrLogfile = "" <;>
    simp only [h1, h2, h3, ne_eq, if_true, if_false, not_true_eq_false, not_false_eq_true,
      String.data_append, List.map_cons, List.map_nil, List.map_append, List.cons_append,
      List.nil_append, List.append_nil, List.intercalate, List.intersperse, List.flatten,
      List.append_assoc, List.singleton_append]

theorem containsL_of_infix (sub a b : List Char) : containsL sub (a ++ sub ++ b) = true := by
  induction a with
  | nil =>
    cases hsb : sub ++ b with
    | nil =>
      have hs : sub = [] := (List.append_eq_nil.mp hsb).1
      simp [hs, containsL]
      have hb : b = [] := (List.append_eq_nil.mp hsb).2
      simp [hb, containsL]
    | cons c cs =>
      have hp : sub.isPrefixOf (c :: cs) = true := by
        rw [← hsb, List.isPrefixOf_iff_prefix]
        exact List.prefix_append sub b
      simp [hsb, containsL, hp]
  | cons x xs ih =>
    have e : (x :: xs) ++ sub ++ b = x :: (xs ++ sub ++ b) := by simp
    rw [e, containsL, ih]
    simp

theorem mem_sortedEntries (env : List (String × String)) (e : String × String) :
    e ∈ sortedEntries env ↔ e ∈ env :=
  (List.perm_insertionSort keyLe env).mem_iff

/-- Every entry is rendered as `key="value",` without any change to key or value. -/
theorem renderEnvEntries_infix (entries : List (String × String)) (e : String × String)
    (h : e ∈ entries) :
    ∃ a b : List Char,
      (renderEnvEntries entries).data = a ++ (e.1 ++ "=\"" ++ e.2 ++ "\"").data ++ b := by
  induction entries with
  | nil => cases h
  | cons x rest ih =>
    obtain ⟨k, v⟩ := x
    rcases List.mem_cons.mp h with he | he
    · subst he
      refine ⟨[], ',' :: (renderEnvEntries rest).data, ?_⟩
      simp only [renderEnvEntries, String.data_append, List.nil_append, List.append_assoc]
      rfl
    · obtain ⟨a, b, hab⟩ := ih he
      refine ⟨(k ++ "=\"" ++ v ++ "\",").data ++ a, b, ?_⟩
      simp only [renderEnvEntries, String.data_append, hab, List.append_assoc]

theorem renderEnvEntries_no_newline (entries : List (String × String))
    (h : ∀ e ∈ entries, '\n' ∉ e.1.data ∧ '\n' ∉ e.2.data) :
    '\n' ∉ (renderEnvEntries entries).data := by
  induction entries with
  | nil => simp [renderEnvEntries]
  | cons x rest ih =>
    obtain ⟨k, v⟩ := x
    have hk := (h (k, v) (List.mem_cons_self _ _)).1
    have hv := (h (k, v) (List.mem_cons_self _ _)).2
    have hrest := ih (fun e he => h e (List.mem_cons_of_mem _ he))
    have e1 : ("=\"" : String).data = ['=', '"'] := rfl
    have e2 : ("\"," : String).data = ['"', ','] := rfl
    simp only [renderEnvEntries, String.data_append, List.mem_append, e1, e2, List.mem_cons,
      List.mem_singleton, List.not_mem_nil, or_false, not_or]
    simp only at hk hv
    refine ⟨⟨⟨⟨hk, by decide, by decide⟩, hv⟩, by decide, by decide⟩, hrest⟩

theorem append_no_newline (lit x : String) (hl : '\n' ∉ lit.data) (hx : '\n' ∉ x.data) :
    '\n' ∉ (lit ++ x).data := by
  rw [String.data_append]
  intro hm
  rcases List.mem_append.mp hm with h | h
  · exact hl h
  · exact hx h

/-- The lines of the rendered text are the expected lines when no rendered
field contains a newline. -/
theorem textLines_renderService (s : Service)
    (hN : '\n' ∉ s.Name.data) (hC : '\n' ∉ s.Command.data) (hD : '\n' ∉ s.Directory.data)
    (hO : '\n' ∉ s.StdoutLogfile.data) (hE : '\n' ∉ s.StderrLogfile.data)
    (hEnv : s.Environment ≠ [] →
      '\n' ∉ (renderEnvEntries (sortedEntries s.Environment)).data) :
    textLines (renderService s) = expectedLines s := by
  unfold textLines
  rw [renderService_data_eq, splitNewline_intercalate]
  · rw [List.map_map]
    have : (String.mk ∘ String.data) = id := by
      funext x
      rfl
    rw [this, List.map_id]
  · simp [expectedLines]
  · intro p hp
    obtain ⟨l, hl, rfl⟩ := List.mem_map.mp hp
    have h0 : '\n' ∉ ("[program:" ++ s.Name ++ "]").data :=
      append_no_newline _ _ (append_no_newline _ _ (by decide) hN) (by decide)
    have h1 : '\n' ∉ ("command=" ++ s.Command).data := append_no_newline _ _ (by decide) hC
    have h2 : '\n' ∉ ("directory=" ++ s.Directory).data :=
      append_no_newline _ _ (by decide) hD
    have h3 : '\n' ∉ ("startsecs=" ++ toString s.StartSecs).data :=
      append_no_newline _ _ (by decide) (toString_int_no_newline _)
    have h4 : '\n' ∉ ("autorestart=" ++ (if s.AutoRestart then "true" else "false")).data := by
      cases s.AutoRestart <;> decide
    have h5 : '\n' ∉ ("stdout_logfile=" ++ s.StdoutLogfile).data :=
      append_no_newline _ _ (by decide) hO
    have h6 : '\n' ∉ ("stderr_logfile=" ++ s.StderrLogfile).data :=
      append_no_newline _ _ (by decide) hE
    have h7 : '\n' ∉ ("" : String).data := by decide
    have hall : ∀ l ∈ expectedLines s, '\n' ∉ l.data := by
      unfold expectedLines
      by_cases c1 : s.Environment = []
      · by_cases c2 : s.StdoutLogfile = "" <;> by_cases c3 : s.StderrLogfile = "" <;>
          simp only [c1, c2, c3, ne_eq, not_true_eq_false, not_false_eq_true, if_true,
            if_false, List.append_nil, List.cons_append, List.nil_append, List.mem_cons,
            List.mem_singleton, List.not_mem_nil, or_false, forall_eq_or_imp, forall_eq,
            h0, h1, h2, h3, h4, h5, h6, h7, and_self, IsEmpty.forall_iff, implies_true]
      · have h8 : '\n' ∉
            ("environment=" ++ renderEnvEntries (sortedEntries s.Environment)).data :=
          append_no_newline _ _ (by decide) (hEnv c1)
        by_cases c2 : s.StdoutLogfile = "" <;> by_cases c3 : s.StderrLogfile = "" <;>
          simp only [c1, c2, c3, ne_eq, not_true_eq_false, not_false_eq_true, if_true,
            if_false, List.append_nil, List.cons_append, List.nil_append, List.mem_cons,
            List.mem_singleton, List.not_mem_nil, or_false, forall_eq_or_imp, forall_eq,
            h0, h1, h2, h3, h4, h5, h6, h7, h8, and_self, IsEmpty.forall_iff, implies_true]
    exact hall l hl

theorem intercalate_append_cons (xs : List (List Char)) (q : List Char)
    (zs : List (List Char)) (hx : xs ≠ []) :
    List.intercalate ['\n'] (xs ++ q :: zs)
      = List.intercalate ['\n'] xs ++ '\n' :: List.intercalate ['\n'] (q :: zs) := by
  induction xs with
  | nil => exact absurd rfl hx
  | cons x rest ih =>
    cases rest with
    | nil =>
      have e : List.intercalate ['\n'] [x] = x := by simp [List.intercalate, List.intersperse]
      rw [e, List.singleton_append, intercalate_cons_cons]
      simp
    | cons y ys =>
      have e : (x :: y :: ys) ++ q :: zs = x :: y :: (ys ++ q :: zs) := rfl
      rw [e, intercalate_cons_cons, intercalate_cons_cons]
      have ih' := ih (by simp)
      rw [List.cons_append] at ih'
      rw [ih']
      simp

theorem intercalate_cons_exists (q : List Char) (zs : List (List Char)) :
    ∃ t, List.intercalate ['\n'] (q :: zs) = q ++ t := by
  cases zs with
  | nil => exact ⟨[], by simp [List.intercalate, List.intersperse]⟩
  | cons z zs' => exact ⟨['\n'] ++ List.intercalate ['\n'] (z :: zs'), by
      rw [intercalate_cons_cons]; simp⟩

/-- With a non-empty environment the rendered text has the text `environment=`
and the rendered entries right after a newline. -/
theorem renderService_environment (s : Service) (hne : s.Environment ≠ []) :
    ∃ a t : List Char,
      (renderService s).data
        = a ++ '\n' :: ("environment=".data
            ++ ((renderEnvEntries (sortedEntries s.Environment)).data ++ t)) := by
  have hl : (expectedLines s).map String.data
      = [("[program:" ++ s.Name ++ "]").data, ("command=" ++ s.Command).data,
          ("directory=" ++ s.Directory).data]
        ++ ("environment=" ++ renderEnvEntries (sortedEntries s.Environment)).data
          :: (([("startsecs=" ++ toString s.StartSecs),
                ("autorestart=" ++ (if s.AutoRestart then "true" else "false"))]
              ++ (if s.StdoutLogfile ≠ "" then ["stdout_logfile=" ++ s.StdoutLogfile] else [])
              ++ (if s.StderrLogfile ≠ "" then ["stderr_logfile=" ++ s.StderrLogfile] else [])
              ++ [""]).map String.data) := by
    unfold expectedLines
    rw [if_pos hne]
    simp only [List.map_append, List.map_cons, List.map_nil, List.append_assoc,
      List.cons_append, List.nil_append]
  obtain ⟨t, ht⟩ := intercalate_cons_exists
    ("environment=" ++ renderEnvEntries (sortedEntries s.Environment)).data
    (([("startsecs=" ++ toString s.StartSecs),
        ("autorestart=" ++ (if s.AutoRestart then "true" else "false"))]
      ++ (if s.StdoutLogfile ≠ "" then ["stdout_logfile=" ++ s.StdoutLogfile] else [])
      ++ (if s.StderrLogfile ≠ "" then ["stderr_logfile=" ++ s.StderrLogfile] else [])
      ++ [""]).map String.data)
  refine ⟨List.intercalate ['\n'] [("[program:" ++ s.Name ++ "]").data,
    ("command=" ++ s.Command).data, ("directory=" ++ s.Directory).data], t, ?_⟩
  rw [renderService_data_eq, hl, intercalate_append_cons _ _ _ (by simp), ht]
  simp only [String.data_append, List.append_assoc]

/-- Among the expected lines only the environment line begins with
`environment=`. -/
theorem expectedLines_environment (s : Service) :
    ∀ l ∈ expectedLines s, HasPrefix l "environment=" = true →
      s.Environment ≠ [] ∧
      l = "environment=" ++ renderEnvEntries (sortedEntries s.Environment) := by
  have g0 : HasPrefix ("[program:" ++ s.Name ++ "]") "environment=" = false := rfl
  have g1 : HasPrefix ("command=" ++ s.Command) "environment=" = false := rfl
  have g2 : HasPrefix ("directory=" ++ s.Directory) "environment=" = false := rfl
  have g3 : HasPrefix ("startsecs=" ++ toString s.StartSecs) "environment=" = false := rfl
  have g4 : HasPrefix ("autorestart=" ++ (if s.AutoRestart then "true" else "false"))
      "environment=" = false := rfl
  have g5 : HasPrefix ("stdout_logfile=" ++ s.StdoutLogfile) "environment=" = false := rfl
  have g6 : HasPrefix ("stderr_logfile=" ++ s.StderrLogfile) "environment=" = false := rfl
  have g7 : HasPrefix "" "environment=" = false := rfl
  unfold expectedLines
  by_cases c1 : s.Environment = [] <;> by_cases c2 : s.StdoutLogfile = "" <;>
    by_cases c3 : s.StderrLogfile = "" <;>
    simp only [c1, c2, c3, ne_eq, not_true_eq_false, not_false_eq_true, if_true,
      if_false, List.append_nil, List.cons_append, List.nil_append, List.mem_cons,
      List.mem_singleton, List.not_mem_nil, or_false, forall_eq_or_imp, forall_eq,
      g0, g1, g2, g3, g4, g5, g6, g7, and_self, IsEmpty.forall_iff, implies_true,
      Bool.false_eq_true, false_implies]

/-- C11 as stated fails: for a service whose name, command, directory and log
paths have no newline and whose environment maps `K` to a value with a
newline, the rendered text has a line beginning with `environment=`, and no
such line contains the entry `K="x<newline>y"`. -/
theorem environment_line_newline_counterexample :
    ('\n' ∉ svcNewlineEnv.Name.data ∧ '\n' ∉ svcNewlineEnv.Command.data ∧
      '\n' ∉ svcNewlineEnv.Directory.data ∧ '\n' ∉ svcNewlineEnv.StdoutLogfile.data ∧
      '\n' ∉ svcNewlineEnv.StderrLogfile.data) ∧
    ("K", "x\ny") ∈ svcNewlineEnv.Environment ∧
    (∃ l ∈ textLines (renderService svcNewlineEnv), HasPrefix l "environment=" = true) ∧
    (∀ l ∈ textLines (renderService svcNewlineEnv), HasPrefix l "environment=" = true →
      Contains l ("K" ++ "=\"" ++ "x\ny" ++ "\"") = false) := by
  decide

/-- C11, amended: for every service whose name, command, directory and log
paths contain no newline, the rendered text has a line beginning with
`environment=` exactly when the environment mapping is not empty; the text
contains `k="v"`, with `k` and `v` copied unchanged, for every entry; and when
no key and no value contains a newline, the line beginning with
`environment=` is the one environment line and contains `k="v"` for every
entry. -/
theorem environment_line_iff (s : Service)
    (hN : '\n' ∉ s.Name.data) (hC : '\n' ∉ s.Command.data) (hD : '\n' ∉ s.Directory.data)
    (hO : '\n' ∉ s.StdoutLogfile.data) (hE : '\n' ∉ s.StderrLogfile.data) :
    ((∃ l ∈ textLines (renderService s), HasPrefix l "environment=" = true) ↔
      s.Environment ≠ []) ∧
    (∀ e ∈ s.Environment,
      Contains (renderService s) (e.1 ++ "=\"" ++ e.2 ++ "\"") = true) ∧
    ((∀ e ∈ s.Environment, '\n' ∉ e.1.data ∧ '\n' ∉ e.2.data) →
      ∀ l ∈ textLines (renderService s), HasPrefix l "environment=" = true →
        l = "environment=" ++ renderEnvEntries (sortedEntries s.Environment) ∧
        ∀ e ∈ s.Environment, Contains l (e.1 ++ "=\"" ++ e.2 ++ "\"") = true) := by
  refine ⟨⟨?_, ?_⟩, ?_, ?_⟩
  · rintro ⟨l, hl, hp⟩
    by_contra hempty
    have hlines := textLines_renderService s hN hC hD hO hE (fun h => absurd hempty h)
    rw [hlines] at hl
    exact (expectedLines_environment s l hl hp).1 hempty
  · intro hne
    obtain ⟨a, t, hdata⟩ := renderService_environment s hne
    obtain ⟨l, hl, hp⟩ := exists_line_with_prefix a "environment=".data
      ((renderEnvEntries (sortedEntries s.Environment)).data ++ t) (by decide)
    refine ⟨⟨l⟩, ?_, hp⟩
    unfold textLines
    rw [hdata]
    exact List.mem_map.mpr ⟨l, hl, rfl⟩
  · intro e he
    have hne : s.Environment ≠ [] := List.ne_nil_of_mem he
    obtain ⟨a, t, hdata⟩ := renderService_environment s hne
    obtain ⟨a', b', hab⟩ := renderEnvEntries_infix (sortedEntries s.Environment) e
      ((mem_sortedEntries s.Environment e).mpr he)
    unfold Contains
    have hform : (renderService s).data
        = (a ++ '\n' :: ("environment=".data ++ a'))
          ++ (e.1 ++ "=\"" ++ e.2 ++ "\"").data ++ (b' ++ t) := by
      rw [hdata, hab]
      simp only [List.append_assoc, List.cons_append]
    rw [hform]
    exact containsL_of_infix _ _ _
  · intro hnl l hl hp
    have hEnv : s.Environment ≠ [] →
        '\n' ∉ (renderEnvEntries (sortedEntries s.Environment)).data := by
      intro _
      apply renderEnvEntries_no_newline
      intro e he
      exact hnl e ((mem_sortedEntries s.Environment e).mp he)
    rw [textLines_renderService s hN hC hD hO hE hEnv] at hl
    obtain ⟨_, hline⟩ := expectedLines_environment s l hl hp
    refine ⟨hline, ?_⟩
    intro e he
    obtain ⟨a', b', hab⟩ := renderEnvEntries_infix (sortedEntries s.Environment) e
      ((mem_sortedEntries s.Environment e).mpr he)
    rw [hline]
    unfold Contains
    have hform : ("environment=" ++ renderEnvEntries (sortedEntries s.Environment)).data
        = ("environment=".data ++ a') ++ (e.1 ++ "=\"" ++ e.2 ++ "\"").data ++ b' := by
      rw [String.data_append, hab]
      simp only [List.append_assoc]
    rw [hform]
    exact containsL_of_infix _ _ _

/-- C11 on the service of the test `create service with environment
variables`: the environment line lists the three entries in key order, and
`PORT="8080"` is in it. -/
theorem environment_line_iff_witness :
    "environment=DEBUG=\"false\",NODE_ENV=\"production\",PORT=\"8080\","
      ∈ textLines (renderService svcEnvApp) ∧
    Contains (renderService svcEnvApp) (("PORT", "8080").1 ++ "=\"" ++ ("PORT", "8080").2 ++ "\"")
      = true :=
  ⟨by decide,
   (environment_line_iff svcEnvApp (by decide) (by decide) (by decide) (by decide)
      (by decide)).2.1 ("PORT", "8080") (by decide)⟩

/-! ## Theorems: cleaned paths -/

theorem splitSlash_ne_nil (l : List Char) : splitSlash l ≠ [] := by
  cases l with
  | nil => simp [splitSlash]
  | cons c cs =>
    rw [splitSlash]
    cases splitSlash cs with
    | nil => by_cases hc : c = '/' <;> simp [hc]
    | cons w ws => by_cases hc : c = '/' <;> simp [hc]

theorem splitSlash_append_gen (a b : List Char) :
    splitSlash (a ++ '/' :: b) = splitSlash a ++ splitSlash b := by
  induction a with
  | nil =>
    rw [List.nil_append, splitSlash]
    cases hs : splitSlash b with
    | nil => exact absurd hs (splitSlash_ne_nil b)
    | cons w ws => simp [splitSlash, hs]
  | cons c cs ih =>
    rw [List.cons_append, splitSlash, ih]
    cases hs : splitSlash cs with
    | nil => exact absurd hs (splitSlash_ne_nil cs)
    | cons w ws =>
      rw [splitSlash, hs]
      by_cases hc : c = '/' <;> simp [hc]

theorem splitSlash_of_not_mem (l : List Char) (h : '/' ∉ l) : splitSlash l = [l] := by
  induction l with
  | nil => rfl
  | cons c cs ih =>
    have hc : c ≠ '/' := fun hc => h (by simp [hc])
    have hcs : '/' ∉ cs := fun hm => h (List.mem_cons_of_mem c hm)
    rw [splitSlash, ih hcs]
    simp [hc]

theorem splitSlash_no_slash (l : List Char) : ∀ x ∈ splitSlash l, '/' ∉ x := by
  induction l with
  | nil => simp [splitSlash]
  | cons c cs ih =>
    rw [splitSlash]
    cases hs : splitSlash cs with
    | nil => exact absurd hs (splitSlash_ne_nil cs)
    | cons w ws =>
      rw [hs] at ih
      have hw : '/' ∉ w := ih w (List.mem_cons_self w ws)
      have hws : ∀ x ∈ ws, '/' ∉ x := fun x hx => ih x (List.mem_cons_of_mem w hx)
      by_cases hc : c = '/'
      · intro x hx
        simp only [hc, if_true, List.mem_cons] at hx
        rcases hx with e | e | e
        · rw [e]; simp
        · rw [e]; exact hw
        · exact hws x e
      · intro x hx
        simp only [hc, if_false, List.mem_cons] at hx
        rcases hx with e | e
        · rw [e]
          intro hm
          rcases List.mem_cons.mp hm with h1 | h1
          · exact hc h1.symm
          · exact hw h1
        · exact hws x e

theorem intercalate_slash_cons_cons (p q : List Char) (rest : List (List Char)) :
    List.intercalate ['/'] (p :: q :: rest) = p ++ '/' :: List.intercalate ['/'] (q :: rest) := by
  simp [List.intercalate, List.intersperse]

theorem intercalate_slash_singleton (p : List Char) : List.intercalate ['/'] [p] = p := by
  simp [List.intercalate, List.intersperse]

theorem intercalate_slash_concat (ks : List (List Char)) (x : List Char) (hk : ks ≠ []) :
    List.intercalate ['/'] (ks ++ [x]) = List.intercalate ['/'] ks ++ '/' :: x := by
  induction ks with
  | nil => exact absurd rfl hk
  | cons k rest ih =>
    cases rest with
    | nil =>
      rw [List.singleton_append, intercalate_slash_cons_cons, intercalate_slash_singleton,
        intercalate_slash_singleton]
    | cons y ys =>
      have e : (k :: y :: ys) ++ [x] = k :: y :: (ys ++ [x]) := rfl
      have ih' := ih (by simp)
      rw [List.cons_append] at ih'
      rw [e, intercalate_slash_cons_cons, intercalate_slash_cons_cons, ih']
      simp

/-- Elements without slash joined by slashes are the pieces of the joined path. -/
theorem splitSlash_intercalate (ks : List (List Char)) (hne : ks ≠ [])
    (h : ∀ k ∈ ks, '/' ∉ k) : splitSlash (List.intercalate ['/'] ks) = ks := by
  induction ks with
  | nil => exact absurd rfl hne
  | cons k rest ih =>
    have hk : '/' ∉ k := h k (List.mem_cons_self k rest)
    cases rest with
    | nil => rw [intercalate_slash_singleton, splitSlash_of_not_mem k hk]
    | cons q rest' =>
      rw [intercalate_slash_cons_cons, splitSlash_append_gen, splitSlash_of_not_mem k hk,
        ih (by simp) (fun x hx => h x (List.mem_cons_of_mem k hx))]
      rfl

theorem cleanStep_plain (rooted : Bool) (stack : List (List Char)) (e : List Char)
    (he : Plain e) : cleanStep rooted stack e = e :: stack := by
  unfold cleanStep
  rw [if_neg (by rintro (h | h); exact he.1 h; exact he.2.2.1 h), if_neg he.2.2.2]

theorem foldl_cleanStep_plain (rooted : Bool) (es stack : List (List Char))
    (h : ∀ e ∈ es, Plain e) : es.foldl (cleanStep rooted) stack = es.reverse ++ stack := by
  induction es generalizing stack with
  | nil => rfl
  | cons e rest ih =>
    rw [List.foldl_cons, cleanStep_plain rooted stack e (h e (List.mem_cons_self e rest)),
      ih _ (fun x hx => h x (List.mem_cons_of_mem e hx))]
    simp

/-- In a rooted path the scan keeps plain elements only. -/
theorem cleanStep_rooted_keeps_plain (stack : List (List Char)) (e : List Char)
    (hs : ∀ x ∈ stack, Plain x) (he : '/' ∉ e) : ∀ x ∈ cleanStep true stack e, Plain x := by
  unfold cleanStep
  by_cases h1 : e = [] ∨ e = ['.']
  · rw [if_pos h1]
    exact hs
  · rw [if_neg h1]
    by_cases h2 : e = ['.', '.']
    · rw [if_pos h2]
      cases stack with
      | nil => intro x hx; simp at hx
      | cons top rest =>
        have htop : top ≠ ['.', '.'] := (hs top (List.mem_cons_self top rest)).2.2.2
        simp only [htop, if_false]
        intro x hx
        exact hs x (List.mem_cons_of_mem top hx)
    · rw [if_neg h2]
      intro x hx
      rcases List.mem_cons.mp hx with e1 | e1
      · rw [e1]
        exact ⟨fun h => h1 (Or.inl h), he, fun h => h1 (Or.inr h), h2⟩
      · exact hs x e1

theorem foldl_cleanStep_rooted_plain (es stack : List (List Char))
    (hs : ∀ x ∈ stack, Plain x) (he : ∀ e ∈ es, '/' ∉ e) :
    ∀ x ∈ es.foldl (cleanStep true) stack, Plain x := by
  induction es generalizing stack with
  | nil => exact hs
  | cons e rest ih =>
    exact ih _ (cleanStep_rooted_keeps_plain stack e hs (he e (List.mem_cons_self e rest)))
      (fun x hx => he x (List.mem_cons_of_mem e hx))

/-- The clean form of a rooted path: a slash followed by plain elements joined
by slashes. -/
theorem cleanL_rooted (rest : List Char) :
    ∃ ks : List (List Char), (∀ k ∈ ks, Plain k) ∧
      cleanL ('/' :: rest) = '/' :: List.intercalate ['/'] ks := by
  refine ⟨((splitSlash ('/' :: rest)).foldl (cleanStep true) []).reverse, ?_, ?_⟩
  · intro k hk
    exact foldl_cleanStep_rooted_plain _ [] (by simp) (splitSlash_no_slash _) k
      (List.mem_reverse.mp hk)
  · simp [cleanL]

theorem splitSlash_rooted (rest : List Char) :
    splitSlash ('/' :: rest) = [] :: splitSlash rest := by
  have h := splitSlash_append_gen [] rest
  simpa [splitSlash] using h

/-- Appending a plain element to a clean rooted path gives a clean path: the
cleaning of `/k1/.../kn/x` is itself, and the cleaning of `//x` is `/x`. -/
theorem cleanL_rooted_append (ks : List (List Char)) (x : List Char)
    (hks : ∀ k ∈ ks, Plain k) (hx : Plain x) :
    cleanL (('/' :: List.intercalate ['/'] ks) ++ '/' :: x)
      = '/' :: List.intercalate ['/'] (ks ++ [x]) := by
  have hc : cleanL (('/' :: List.intercalate ['/'] ks) ++ '/' :: x)
      = '/' :: List.intercalate ['/']
          ((splitSlash (('/' :: List.intercalate ['/'] ks) ++ '/' :: x)).foldl
            (cleanStep true) []).reverse := by
    simp [cleanL]
  rw [hc]
  have hsplit : splitSlash (('/' :: List.intercalate ['/'] ks) ++ '/' :: x)
      = [] :: (splitSlash (List.intercalate ['/'] ks) ++ [x]) := by
    rw [List.cons_append, splitSlash_rooted, splitSlash_append_gen,
      splitSlash_of_not_mem x hx.2.1]
  rw [hsplit]
  have hdrop : ∀ stack : List (List Char), cleanStep true stack [] = stack := by
    intro stack
    simp [cleanStep]
  cases ks with
  | nil =>
    have e : List.intercalate ['/'] ([] : List (List Char)) = [] := rfl
    rw [e]
    simp only [splitSlash, List.singleton_append, List.foldl_cons, hdrop, List.foldl_nil,
      List.nil_append]
    rw [cleanStep_plain true [] x hx]
    rfl
  | cons k rest =>
    rw [splitSlash_intercalate (k :: rest) (by simp) (fun y hy => (hks y hy).2.1),
      List.foldl_cons, hdrop,
      foldl_cleanStep_plain true _ []
        (by intro e he
            rcases List.mem_append.mp he with h | h
            · exact hks e h
            · have : e = x := by simpa using h
              rw [this]; exact hx)]
    simp

theorem Join_two (root x : String) (hroot : root ≠ "") :
    Join [root, x] = ⟨cleanL (root.data ++ '/' :: x.data)⟩ := by
  unfold Join
  rw [if_neg hroot]
  unfold Clean
  simp [List.intercalate, List.intersperse]

/-- The join of a clean rooted path with a plain name. -/
theorem Join_clean_rooted (ks : List (List Char)) (x : String)
    (hks : ∀ k ∈ ks, Plain k) (hx : Plain x.data) :
    Join [⟨'/' :: List.intercalate ['/'] ks⟩, x]
      = ⟨'/' :: List.intercalate ['/'] (ks ++ [x.data])⟩ := by
  rw [Join_two _ _ (by intro h; have := congrArg String.data h; simp at this)]
  rw [cleanL_rooted_append ks x.data hks hx]

/-- The join of an absolute home directory with further elements is a clean
rooted path. -/
theorem Join_abs_home (h a n : String) (habs : IsAbs h = true) :
    ∃ ks : List (List Char), (∀ k ∈ ks, Plain k) ∧
      Join [h, a, n] = ⟨'/' :: List.intercalate ['/'] ks⟩ := by
  have hd : ∃ h', h.data = '/' :: h' := by
    unfold IsAbs at habs
    cases hh : h.data with
    | nil => simp [hh] at habs
    | cons c cs =>
      have : c = '/' := by simpa [hh] using habs
      exact ⟨cs, by rw [this]⟩
  obtain ⟨h', hh'⟩ := hd
  have hne : h ≠ "" := by
    intro e
    rw [e] at hh'
    cases hh'
  obtain ⟨ks, hks, hclean⟩ := cleanL_rooted (h' ++ '/' :: (a.data ++ '/' :: n.data))
  refine ⟨ks, hks, ?_⟩
  unfold Join
  rw [if_neg hne]
  unfold Clean
  congr 1
  rw [← hclean]
  congr 1
  simp [List.intercalate, List.intersperse, hh']

theorem pathComponents_clean_rooted (ks : List (List Char)) (hks : ∀ k ∈ ks, Plain k) :
    pathComponents ⟨'/' :: List.intercalate ['/'] ks⟩ = ks := by
  unfold pathComponents
  simp only [splitSlash_rooted]
  cases ks with
  | nil => simp [splitSlash, List.intercalate]
  | cons k rest =>
    rw [splitSlash_intercalate (k :: rest) (by simp) (fun y hy => (hks y hy).2.1)]
    rw [List.filter_cons_of_neg (by simp)]
    apply List.filter_eq_self.mpr
    intro e he
    simpa using (hks e he).1

/-- A child of a clean rooted path: absolute, and a descendant of the path. -/
theorem child_of_clean_rooted (ks : List (List Char)) (x : String)
    (hks : ∀ k ∈ ks, Plain k) (hx : Plain x.data) :
    IsAbs (Join [⟨'/' :: List.intercalate ['/'] ks⟩, x]) = true ∧
    IsDescendant (Join [⟨'/' :: List.intercalate ['/'] ks⟩, x])
      ⟨'/' :: List.intercalate ['/'] ks⟩ := by
  rw [Join_clean_rooted ks x hks hx]
  have hks' : ∀ k ∈ ks ++ [x.data], Plain k := by
    intro e he
    rcases List.mem_append.mp he with h | h
    · exact hks e h
    · have : e = x.data := by simpa using h
      rw [this]; exact hx
  have hcomp : pathComponents ⟨'/' :: List.intercalate ['/'] (ks ++ [x.data])⟩
      = pathComponents ⟨'/' :: List.intercalate ['/'] ks⟩ ++ [x.data] := by
    rw [pathComponents_clean_rooted _ hks', pathComponents_clean_rooted _ hks]
  refine ⟨rfl, ⟨[x.data], by simp, hcomp⟩, ?_, ?_⟩
  · cases ks with
    | nil =>
      simp only [List.nil_append, intercalate_slash_singleton]
      exact ⟨x.data, rfl⟩
    | cons k rest =>
      rw [intercalate_slash_concat (k :: rest) x.data (by simp)]
      exact ⟨'/' :: x.data, rfl⟩
  · intro e
    rw [← e] at hcomp
    have hlen := congrArg List.length hcomp
    simp at hlen

/-- C14 as stated fails: `$HOME` is used as it is, so with the relative home
`home/u` the seven paths of the app `ghost` are relative; and with the
relative home `u` and the name `../..` AppRoot is `.` and AppDir is `app`,
which does not have AppRoot as a prefix. -/
theorem manager_paths_relative_home_counterexample :
    (NewManager "home/u" "ghost" false false).1.map
        (fun m => (m.AppRoot, IsAbs m.AppRoot, IsAbs m.AppDir, IsAbs m.ConfigFile))
      = some ("home/u/apps/ghost", false, false, false) ∧
    (NewManager "u" "../.." false false).1.map (fun m => (m.AppRoot, m.AppDir))
      = some (".", "app") ∧
    ¬ ("." : String).data <+: ("app" : String).data := by
  refine ⟨by decide, by decide, ?_⟩
  rw [← List.isPrefixOf_iff_prefix]
  decide

/-- C14, amended: for every absolute home directory and every application
name, each of the seven paths of the manager is absolute, and each of the six
paths other than AppRoot is a descendant of AppRoot: its names are those of
AppRoot followed by one more name, and its text has the text of AppRoot as a
proper prefix. -/
theorem manager_paths_absolute (envHome : String) (habs : IsAbs envHome = true)
    (appName : String) (dryRun verbose : Bool) :
    ∃ m : Manager,
      NewManager envHome appName dryRun verbose = (some m, none) ∧
      (IsAbs m.AppRoot = true ∧ IsAbs m.AppDir = true ∧ IsAbs m.DataDir = true ∧
        IsAbs m.LogsDir = true ∧ IsAbs m.BackupsDir = true ∧ IsAbs m.TmpDir = true ∧
        IsAbs m.ConfigFile = true) ∧
      (IsDescendant m.AppDir m.AppRoot ∧ IsDescendant m.DataDir m.AppRoot ∧
        IsDescendant m.LogsDir m.AppRoot ∧ IsDescendant m.BackupsDir m.AppRoot ∧
        IsDescendant m.TmpDir m.AppRoot ∧ IsDescendant m.ConfigFile m.AppRoot) := by
  have hne : envHome ≠ "" := by
    intro e
    rw [e] at habs
    exact absurd habs (by decide)
  obtain ⟨ks, hks, hroot⟩ := Join_abs_home envHome "apps" appName habs
  refine ⟨_, NewManager_eq envHome hne appName dryRun verbose, ?_, ?_⟩
  · simp only [Manager.AppRoot, Manager.AppDir, Manager.DataDir, Manager.LogsDir,
      Manager.BackupsDir, Manager.TmpDir, Manager.ConfigFile, hroot]
    exact ⟨rfl,
      (child_of_clean_rooted ks "app" hks ⟨by decide, by decide, by decide, by decide⟩).1,
      (child_of_clean_rooted ks "data" hks ⟨by decide, by decide, by decide, by decide⟩).1,
      (child_of_clean_rooted ks "logs" hks ⟨by decide, by decide, by decide, by decide⟩).1,
      (child_of_clean_rooted ks "backups" hks ⟨by decide, by decide, by decide, by decide⟩).1,
      (child_of_clean_rooted ks "tmp" hks ⟨by decide, by decide, by decide, by decide⟩).1,
      (child_of_clean_rooted ks ".uberman.toml" hks
        ⟨by decide, by decide, by decide, by decide⟩).1⟩
  · simp only [Manager.AppRoot, Manager.AppDir, Manager.DataDir, Manager.LogsDir,
      Manager.BackupsDir, Manager.TmpDir, Manager.ConfigFile, hroot]
    exact ⟨
      (child_of_clean_rooted ks "app" hks ⟨by decide, by decide, by decide, by decide⟩).2,
      (child_of_clean_rooted ks "data" hks ⟨by decide, by decide, by decide, by decide⟩).2,
      (child_of_clean_rooted ks "logs" hks ⟨by decide, by decide, by decide, by decide⟩).2,
      (child_of_clean_rooted ks "backups" hks ⟨by decide, by decide, by decide, by decide⟩).2,
      (child_of_clean_rooted ks "tmp" hks ⟨by decide, by decide, by decide, by decide⟩).2,
      (child_of_clean_rooted ks ".uberman.toml" hks
        ⟨by decide, by decide, by decide, by decide⟩).2⟩

/-- C14 for the home `/home/u`, also with a name that climbs out of `apps`:
the paths stay absolute and the children stay below AppRoot. -/
theorem manager_paths_absolute_witness :
    (∃ m : Manager, NewManager "/home/u" "ghost" false false = (some m, none) ∧
      IsAbs m.AppRoot = true ∧ IsDescendant m.LogsDir m.AppRoot) ∧
    (NewManager "/home/u" "../../.." false false).1.map (fun m => (m.AppRoot, m.AppDir))
      = some ("/", "/app") := by
  obtain ⟨m, h1, h2, h3⟩ :=
    manager_paths_absolute "/home/u" (by decide) "ghost" false false
  exact ⟨⟨m, h1, h2.1, h3.2.2.1⟩, by decide⟩

/-! ## Theorems: path resolution and `MkdirAll` on rooted paths -/

theorem pathNames_rootedPath (names : List String) (hne : names ≠ [])
    (h : ∀ c ∈ names, '/' ∉ c.data) : pathNames (rootedPath names) = "" :: names := by
  unfold pathNames rootedPath
  have hne' : names.map String.data ≠ [] := by simpa using hne
  have h' : ∀ k ∈ names.map String.data, '/' ∉ k := by
    intro k hk
    obtain ⟨c, hc, rfl⟩ := List.mem_map.mp hk
    exact h c hc
  simp only [splitSlash_rooted, splitSlash_intercalate _ hne' h', List.map_cons, List.map_map]
  congr 1
  exact List.map_id _

theorem byteLen_append (a b : List Char) : byteLen (a ++ b) = byteLen a + byteLen b := by
  simp [byteLen]

theorem byteLen_cons (c : Char) (l : List Char) : byteLen (c :: l) = c.utf8Size + byteLen l := by
  simp [byteLen]

theorem not_mem_intercalate (x : Char) (ks : List (List Char)) (hx : x ≠ '/')
    (h : ∀ k ∈ ks, x ∉ k) : x ∉ List.intercalate ['/'] ks := by
  induction ks with
  | nil => simp [List.intercalate]
  | cons k rest ih =>
    cases rest with
    | nil =>
      rw [intercalate_slash_singleton]
      exact h k (List.mem_cons_self k [])
    | cons q rest' =>
      rw [intercalate_slash_cons_cons]
      intro hm
      rcases List.mem_append.mp hm with h1 | h1
      · exact h k (List.mem_cons_self k _) h1
      · rcases List.mem_cons.mp h1 with h2 | h2
        · exact hx h2
        · exact ih (fun y hy => h y (List.mem_cons_of_mem k hy)) h2

/-- A name that is walked like any other: not empty, not `.` or `..`, within
`NAME_MAX`. -/
theorem walk_name (fs : FileSystem) (steps links : Nat) (cur : List String) (c : String)
    (rest : List String) (follow : Bool)
    (h : c ≠ "" ∧ c ≠ "." ∧ c ≠ ".." ∧ byteLen c.data ≤ NAME_MAX) :
    walk fs (steps + 1) links cur (c :: rest) follow
      = match fs.lookup (cur ++ [c]) with
        | none =>
          if rest.all (fun x => decide (x = "" ∨ x = ".")) then .ok (cur ++ [c])
          else .error Errno.ENOENT
        | some Node.dir => walk fs steps links (cur ++ [c]) rest follow
        | some Node.file => if rest = [] then .ok (cur ++ [c]) else .error Errno.ENOTDIR
        | some (Node.link target) =>
          if rest = [] ∧ follow = false then .ok (cur ++ [c])
          else
            match links with
            | 0 => .error Errno.ELOOP
            | links + 1 =>
              walk fs steps links (if IsAbs target then [] else cur)
                (pathNames target ++ rest) follow := by
  obtain ⟨h1, h2, h3, h4⟩ := h
  rw [walk]
  rw [if_neg (by rintro (e | e); exact h1 e; exact h2 e), if_neg h3, if_neg (by omega)]

theorem walk_empty_name (fs : FileSystem) (steps links : Nat) (cur : List String)
    (rest : List String) (follow : Bool) :
    walk fs (steps + 1) links cur ("" :: rest) follow = walk fs steps links cur rest follow := by
  rw [walk]
  simp

theorem walk_done (fs : FileSystem) (steps links : Nat) (cur : List String) (follow : Bool) :
    walk fs (steps + 1) links cur [] follow = .ok cur := by
  rw [walk]

theorem walk_ordinary (fs : FileSystem) (steps links : Nat) (cur : List String) (c : String)
    (rest : List String) (follow : Bool) (h : OrdinaryName c) :
    walk fs (steps + 1) links cur (c :: rest) follow
      = match fs.lookup (cur ++ [c]) with
        | none =>
          if rest.all (fun x => decide (x = "" ∨ x = ".")) then .ok (cur ++ [c])
          else .error Errno.ENOENT
        | some Node.dir => walk fs steps links (cur ++ [c]) rest follow
        | some Node.file => if rest = [] then .ok (cur ++ [c]) else .error Errno.ENOTDIR
        | some (Node.link target) =>
          if rest = [] ∧ follow = false then .ok (cur ++ [c])
          else
            match links with
            | 0 => .error Errno.ELOOP
            | links + 1 =>
              walk fs steps links (if IsAbs target then [] else cur)
                (pathNames target ++ rest) follow := by
  apply walk_name
  obtain ⟨⟨h1, _, h3, h4⟩, _, h6⟩ := h
  refine ⟨?_, ?_, ?_, h6⟩
  · intro e; rw [e] at h1; exact h1 rfl
  · intro e; rw [e] at h3; exact h3 rfl
  · intro e; rw [e] at h4; exact h4 rfl

theorem ordinary_home : OrdinaryName "home" := by
  unfold OrdinaryName Plain
  decide

theorem ordinary_u : OrdinaryName "u" := by
  unfold OrdinaryName Plain
  decide

theorem ordinary_apps : OrdinaryName "apps" := by
  unfold OrdinaryName Plain
  decide

theorem ordinary_ne (n : String) (h : OrdinaryName n) : n ≠ "" ∧ n ≠ "." := by
  obtain ⟨⟨h1, _, h3, _⟩, _⟩ := h
  constructor
  · intro e; rw [e] at h1; exact h1 rfl
  · intro e; rw [e] at h3; exact h3 rfl


theorem ordinary_logs : OrdinaryName "logs" := by
  unfold OrdinaryName Plain
  decide

theorem ordinary_app : OrdinaryName "app" := by
  unfold OrdinaryName Plain
  decide

theorem ordinary_data : OrdinaryName "data" := by
  unfold OrdinaryName Plain
  decide

theorem ordinary_backups : OrdinaryName "backups" := by
  unfold OrdinaryName Plain
  decide

theorem ordinary_tmp : OrdinaryName "tmp" := by
  unfold OrdinaryName Plain
  decide

theorem ordinary_config : OrdinaryName ".uberman.toml" := by
  unfold OrdinaryName Plain
  decide

theorem Join_rootedPath (names : List String) (x : String)
    (hall : ∀ c ∈ names, OrdinaryName c) (hx : OrdinaryName x) :
    Join [rootedPath names, x] = rootedPath (names ++ [x]) := by
  unfold rootedPath
  rw [Join_clean_rooted (names.map String.data) x
    (by intro k hk
        obtain ⟨c, hc, rfl⟩ := List.mem_map.mp hk
        exact (hall c hc).1) hx.1]
  simp

theorem rootedPath_snoc_data (names : List String) (x : String) (hne : names ≠ []) :
    (rootedPath (names ++ [x])).data = (rootedPath names).data ++ '/' :: x.data := by
  unfold rootedPath
  have hne' : names.map String.data ≠ [] := by simpa using hne
  simp only [List.map_append, List.map_cons, List.map_nil,
    intercalate_slash_concat _ _ hne', List.cons_append]

theorem dropWhile_append_stop (p : Char → Bool) (l : List Char) (a : Char) (r : List Char)
    (hl : ∀ c ∈ l, p c = true) (ha : p a = false) :
    (l ++ a :: r).dropWhile p = a :: r := by
  induction l with
  | nil => simp [List.dropWhile, ha]
  | cons c cs ih =>
    have hc := hl c (List.mem_cons_self c cs)
    simp only [List.cons_append, List.dropWhile, hc]
    exact ih (fun x hx => hl x (List.mem_cons_of_mem c hx))

/-- The parent that `MkdirAll` creates first, for a path that ends in a slash
and a name. -/
theorem mkdirAllParent_append (p x : List Char) (hp : p ≠ []) (hx : x ≠ [])
    (hslash : '/' ∉ x) : mkdirAllParent (p ++ '/' :: x) = some p := by
  have hrev : (p ++ '/' :: x).reverse = x.reverse ++ '/' :: p.reverse := by simp
  have hstrip : ((x.reverse ++ '/' :: p.reverse).dropWhile fun c => decide (c = '/'))
      = x.reverse ++ '/' :: p.reverse := by
    cases hxr : x.reverse with
    | nil => exact absurd (List.reverse_eq_nil_iff.mp hxr) hx
    | cons a r =>
      have ha : a ∈ x := List.mem_reverse.mp (by rw [hxr]; exact List.mem_cons_self a r)
      have hne : a ≠ '/' := fun e => hslash (e ▸ ha)
      simp [List.dropWhile, hne]
  have hup : (x.reverse ++ '/' :: p.reverse).dropWhile (fun c => decide (c ≠ '/'))
      = '/' :: p.reverse := by
    apply dropWhile_append_stop
    · intro c hc
      have : c ∈ x := List.mem_reverse.mp hc
      have hne : c ≠ '/' := fun e => hslash (e ▸ this)
      simpa using hne
    · simp
  have hlen : 0 < p.length := List.length_pos.mpr hp
  unfold mkdirAllParent
  rw [hrev]
  simp only [hstrip, List.reverse_reverse, hup, List.reverse_cons, List.length_append,
    List.length_reverse, List.length_singleton]
  rw [if_pos (by omega)]
  simp

theorem mkdirAllParent_rootedPath (names : List String) (x : String) (hne : names ≠ [])
    (hx : OrdinaryName x) :
    mkdirAllParent (rootedPath (names ++ [x])).data = some (rootedPath names).data := by
  rw [rootedPath_snoc_data names x hne]
  exact mkdirAllParent_append _ _ (by simp [rootedPath]) hx.1.1 hx.1.2.1

theorem mkdirAllFuel_succ (fuel : Nat) (fs : FileSystem) (path : String) :
    mkdirAllFuel (fuel + 1) fs path
      = match osStat fs path with
        | some true => (fs, none)
        | some false => (fs, some ("mkdir " ++ path ++ ": " ++ Errno.ENOTDIR.text))
        | none =>
          match (match mkdirAllParent path.data with
                 | some parent => mkdirAllFuel fuel fs ⟨parent⟩
                 | none => (fs, none)) with
          | (fs1, some err) => (fs1, some err)
          | (fs1, none) =>
            match osMkdir fs1 path with
            | (fs2, none) => (fs2, none)
            | (fs2, some err) =>
              match osLstat fs2 path with
              | some true => (fs2, none)
              | _ => (fs2, some err) := by
  rw [mkdirAllFuel]

theorem createDirs_made (m : Manager) (dir : String) (rest : List String)
    (fs fs1 : FileSystem) (out : String) (hdry : m.dryRun = false)
    (h : osMkdirAll fs dir = (fs1, none)) :
    createDirs m (dir :: rest) fs out
      = createDirs m rest fs1
          (if m.verbose then out ++ "Creating directory: " ++ dir ++ "\n" else out) := by
  rw [createDirs]
  simp only [hdry, h, Bool.false_eq_true, if_false]

/-! ## Theorems: the calls of `Create` where no symbolic link is on the way

Where the names of a rooted path are ordinary and no symbolic link stands on
the way, resolution walks the names one directory after the other.  The first
group of statements reads off what a call that reported no error has done; the
second group gives conditions under which the calls report no error. -/

theorem lookup_insert (fs : FileSystem) (q : List String) (nd : Node) (q2 : List String)
    (hq : q ≠ []) :
    (fs.insert q nd).lookup q2 = if q2 = q then some nd else fs.lookup q2 := by
  unfold FileSystem.lookup FileSystem.insert
  by_cases h2 : q2 = []
  · subst h2
    have : ¬ ([] : List String) = q := fun e => hq e.symm
    simp [this]
  · simp only [h2, if_false, lookupEntry]
    by_cases h : q2 = q
    · simp [h]
    · have h' : ¬ q = q2 := fun e => h e.symm
      simp [h, h']

theorem lookupEntry_filter (es : List (List String × Node)) (q q2 : List String) :
    lookupEntry (es.filter fun e => e.1 ≠ q) q2
      = if q2 = q then none else lookupEntry es q2 := by
  induction es with
  | nil => simp [lookupEntry]
  | cons e rest ih =>
    obtain ⟨k, nd⟩ := e
    by_cases hk : k = q
    · subst hk
      simp only [List.filter_cons, ne_eq, not_true_eq_false, decide_False, Bool.false_eq_true,
        if_false, ih, lookupEntry]
      by_cases h : q2 = k
      · simp [h]
      · have h' : ¬ k = q2 := fun e => h e.symm
        simp [h, h']
    · simp only [List.filter_cons, ne_eq, hk, not_false_eq_true, decide_True, if_true,
        lookupEntry, ih]
      by_cases h : k = q2
      · have : ¬ q2 = q := fun e => hk (h.trans e)
        simp [h, this]
      · simp [h]

theorem lookup_erase (fs : FileSystem) (q q2 : List String) (hq : q ≠ []) :
    (fs.erase q).lookup q2 = if q2 = q then none else fs.lookup q2 := by
  unfold FileSystem.lookup FileSystem.erase
  by_cases h2 : q2 = []
  · subst h2
    have : ¬ ([] : List String) = q := fun e => hq e.symm
    simp [this]
  · simp only [h2, if_false]
    exact lookupEntry_filter fs.entries q q2

theorem lookupEntry_absent (es : List (List String × Node)) (q : List String)
    (h : ∀ e ∈ es, e.1 ≠ q) : lookupEntry es q = none := by
  induction es with
  | nil => rfl
  | cons e rest ih =>
    obtain ⟨k, nd⟩ := e
    have hk : k ≠ q := h (k, nd) (List.mem_cons_self _ _)
    simp only [lookupEntry, hk, if_false]
    exact ih fun e he => h e (List.mem_cons_of_mem _ he)

theorem lookup_nothing (fs : FileSystem) (r q : List String) (hr : r ≠ [])
    (h : nothingAtOrBelow fs r = true) (hq : r <+: q) : fs.lookup q = none := by
  have hq0 : q ≠ [] := by
    intro e
    subst e
    exact hr (List.prefix_nil.mp hq)
  unfold FileSystem.lookup
  rw [if_neg hq0]
  apply lookupEntry_absent
  intro e he heq
  unfold nothingAtOrBelow at h
  have := List.all_eq_true.mp h e he
  rw [heq] at this
  have hp : r.isPrefixOf q = true := List.isPrefixOf_iff_prefix.mpr hq
  simp [hp] at this

theorem isLinkAt_false_of (fs : FileSystem) (q : List String) (nd : Option Node)
    (h : fs.lookup q = nd) (hnd : ∀ t, nd ≠ some (Node.link t)) : isLinkAt fs q = false := by
  unfold isLinkAt
  rw [h]
  cases nd with
  | none => rfl
  | some x =>
    cases x with
    | dir => rfl
    | file => rfl
    | link t => exact absurd rfl (hnd t)

theorem lookup_ne_link (fs : FileSystem) (q : List String) (h : isLinkAt fs q = false)
    (t : String) : fs.lookup q ≠ some (Node.link t) := by
  intro e
  simp [isLinkAt, e] at h

theorem noLinkOnWay_above (fs : FileSystem) (q p : List String) (h : noLinkOnWay fs q = true)
    (hp : p <+: q) : isLinkAt fs p = false := by
  unfold noLinkOnWay at h
  have := List.all_eq_true.mp h p ((List.mem_inits p q).mpr hp)
  simpa using this


theorem all_trivial_ordinary (rest : List String) (hall : ∀ c ∈ rest, OrdinaryName c)
    (hne : rest ≠ []) : rest.all (fun x => decide (x = "" ∨ x = ".")) = false := by
  cases rest with
  | nil => exact absurd rfl hne
  | cons c r =>
    have hc := ordinary_ne c (hall c (List.mem_cons_self _ _))
    simp [hc.1, hc.2]

/-- A walk that succeeds over ordinary names, none of which but the last is a
symbolic link, ends at the location that the names spell, and has passed
through directories. -/
theorem walk_ok_plain (fs : FileSystem) (links : Nat) (follow : Bool) :
    ∀ (names cur : List String) (steps : Nat) (q : List String),
      (∀ c ∈ names, OrdinaryName c) →
      (∀ p, p <+: names → p ≠ [] → p ≠ names → isLinkAt fs (cur ++ p) = false) →
      (follow = true → isLinkAt fs (cur ++ names) = false) →
      walk fs steps links cur names follow = .ok q →
      q = cur ++ names ∧
        (∀ p, p <+: names → p ≠ [] → p ≠ names → fs.lookup (cur ++ p) = some Node.dir) := by
  intro names
  induction names with
  | nil =>
    intro cur steps q _ _ _ h
    cases steps with
    | zero => simp [walk] at h
    | succ s =>
      rw [walk_done] at h
      injection h with h
      refine ⟨by simp [h], ?_⟩
      intro p hp hne
      exact absurd (List.prefix_nil.mp hp) hne
  | cons c rest ih =>
    intro cur steps q hall hnl hlast h
    cases steps with
    | zero => simp [walk] at h
    | succ s =>
      rw [walk_ordinary fs s links cur c rest follow (hall c (List.mem_cons_self _ _))] at h
      have hrest : ∀ x ∈ rest, OrdinaryName x := fun x hx => hall x (List.mem_cons_of_mem _ hx)
      by_cases hr : rest = []
      · subst hr
        have hq : q = cur ++ [c] := by
          cases hl : fs.lookup (cur ++ [c]) with
          | none =>
            rw [hl] at h
            simp at h
            exact h.symm
          | some nd =>
            rw [hl] at h
            cases nd with
            | dir =>
              simp only at h
              cases s with
              | zero => simp [walk] at h
              | succ s2 =>
                rw [walk_done] at h
                injection h with h
                exact h.symm
            | file =>
              simp at h
              exact h.symm
            | link t =>
              cases follow with
              | false =>
                simp at h
                exact h.symm
              | true =>
                have := hlast rfl
                simp [isLinkAt, hl] at this
        refine ⟨hq, ?_⟩
        intro p hp hne hne2
        rcases List.prefix_cons_iff.mp hp with e | ⟨p2, e, hp2⟩
        · exact absurd e hne
        · have : p2 = [] := List.prefix_nil.mp hp2
          subst this
          exact absurd e hne2
      · have hnotlink : isLinkAt fs (cur ++ [c]) = false :=
          hnl [c] (by simp [List.prefix_cons_iff]) (by simp) (by simpa using hr)
        have hall0 := all_trivial_ordinary rest hrest hr
        cases hl : fs.lookup (cur ++ [c]) with
        | none =>
          rw [hl] at h
          simp only [hall0] at h
          simp at h
        | some nd =>
          rw [hl] at h
          cases nd with
          | file => simp [hr] at h
          | link t => simp [isLinkAt, hl] at hnotlink
          | dir =>
            simp only at h
            have hnl2 : ∀ p, p <+: rest → p ≠ [] → p ≠ rest →
                isLinkAt fs (cur ++ [c] ++ p) = false := by
              intro p hp hne hne2
              have := hnl (c :: p) (by simpa [List.prefix_cons_iff] using hp) (by simp)
                (by simpa using hne2)
              simpa using this
            have hlast2 : follow = true → isLinkAt fs (cur ++ [c] ++ rest) = false := by
              intro hf
              simpa using hlast hf
            obtain ⟨hq, hd⟩ := ih (cur ++ [c]) s q hrest hnl2 hlast2 h
            refine ⟨by simpa using hq, ?_⟩
            intro p hp hne hne2
            rcases List.prefix_cons_iff.mp hp with e | ⟨p2, e, hp2⟩
            · exact absurd e hne
            · subst e
              by_cases hp2e : p2 = []
              · subst hp2e
                exact hl
              · have := hd p2 hp2 hp2e (by
                  intro e2
                  exact hne2 (by rw [e2]))
                simpa using this

/-- A walk over ordinary names that passes through directories reaches the
location of the last name, whatever stands there, a symbolic link included
when the last name is not followed. -/
theorem walk_through_dirs (fs : FileSystem) (links : Nat) (follow : Bool) (x : String)
    (hx : OrdinaryName x) :
    ∀ (init cur : List String) (steps : Nat),
      (∀ c ∈ init, OrdinaryName c) →
      (∀ p, p <+: init → p ≠ [] → fs.lookup (cur ++ p) = some Node.dir) →
      init.length + 2 ≤ steps →
      (follow = false ∨ isLinkAt fs (cur ++ init ++ [x]) = false) →
      walk fs steps links cur (init ++ [x]) follow = .ok (cur ++ init ++ [x]) := by
  intro init
  induction init with
  | nil =>
    intro cur steps _ _ hsteps hlast
    obtain ⟨s, rfl⟩ : ∃ s, steps = s + 2 := ⟨steps - 2, by simp at hsteps; omega⟩
    simp only [List.nil_append, List.append_nil]
    rw [walk_ordinary fs (s + 1) links cur x [] follow hx]
    simp only [List.append_nil] at hlast
    cases hl : fs.lookup (cur ++ [x]) with
    | none => simp
    | some nd =>
      cases nd with
      | dir => simp only; rw [walk_done]
      | file => simp
      | link t =>
        rcases hlast with hf | hf
        · simp [hf]
        · simp [isLinkAt, hl] at hf
  | cons c rest ih =>
    intro cur steps hall hd hsteps hlast
    obtain ⟨s, rfl⟩ : ∃ s, steps = s + 1 := ⟨steps - 1, by simp at hsteps; omega⟩
    simp only [List.cons_append]
    rw [walk_ordinary fs s links cur c (rest ++ [x]) follow (hall c (List.mem_cons_self _ _))]
    have h1 : fs.lookup (cur ++ [c]) = some Node.dir :=
      hd [c] (by simp [List.prefix_cons_iff]) (by simp)
    rw [h1]
    simp only
    have := ih (cur ++ [c]) s (fun y hy => hall y (List.mem_cons_of_mem _ hy))
      (by
        intro p hp hne
        have := hd (c :: p) (by simpa [List.prefix_cons_iff] using hp) (by simp)
        simpa using this)
      (by simp at hsteps ⊢; omega)
      (by simpa using hlast)
    simpa using this

theorem rootedPath_ne_empty (names : List String) : rootedPath names ≠ "" := by
  intro e
  have := congrArg String.data e
  simp [rootedPath] at this

theorem rootedPath_no_nul (names : List String) (hall : ∀ c ∈ names, OrdinaryName c) :
    '\x00' ∉ (rootedPath names).data := by
  unfold rootedPath
  intro hm
  rcases List.mem_cons.mp hm with e | e
  · exact absurd e (by decide)
  · refine not_mem_intercalate '\x00' _ (by decide) ?_ e
    intro k hk
    obtain ⟨c, hc, rfl⟩ := List.mem_map.mp hk
    exact (hall c hc).2.1

/-- Resolution of a rooted path of ordinary names: the path is refused if it
has `PATH_MAX` bytes or more, and walked from the root otherwise. -/
theorem resolve_rooted (fs : FileSystem) (names : List String) (follow : Bool)
    (hne : names ≠ []) (hall : ∀ c ∈ names, OrdinaryName c) :
    resolve fs (rootedPath names) follow
      = if PATH_MAX ≤ byteLen (rootedPath names).data then .error Errno.ENAMETOOLONG
        else walk fs 167976 40 [] names follow := by
  unfold resolve
  have h4 : IsAbs (rootedPath names) = true := by simp [IsAbs, rootedPath]
  rw [if_neg (rootedPath_ne_empty names), if_neg (rootedPath_no_nul names hall)]
  by_cases h3 : PATH_MAX ≤ byteLen (rootedPath names).data
  · rw [if_pos h3, if_pos h3]
  · rw [if_neg h3, if_neg h3,
      pathNames_rootedPath names hne (fun c hc => (hall c hc).1.2.1), h4]
    have e : maxPathSteps = 167976 + 1 := rfl
    rw [e]
    simp only [if_true]
    rw [walk_empty_name]
    rfl

theorem byteLen_rootedPath_snoc (names : List String) (x : String) (hne : names ≠ []) :
    byteLen (rootedPath (names ++ [x])).data
      = byteLen (rootedPath names).data + 1 + byteLen x.data := by
  rw [rootedPath_snoc_data names x hne, byteLen_append, byteLen_cons]
  have h1 : Char.utf8Size '/' = 1 := by decide
  rw [h1]
  omega

theorem byteLen_rootedPath_single (x : String) :
    byteLen (rootedPath [x]).data = 1 + byteLen x.data := by
  have : (rootedPath [x]).data = '/' :: x.data := by
    simp [rootedPath, intercalate_slash_singleton]
  rw [this, byteLen_cons]
  have h1 : Char.utf8Size '/' = 1 := by decide
  rw [h1]

theorem length_rootedPath_snoc (names : List String) (x : String) (hne : names ≠ []) :
    (rootedPath (names ++ [x])).length = (rootedPath names).length + 1 + x.length := by
  simp only [String.length, rootedPath_snoc_data names x hne, List.length_append,
    List.length_cons]
  omega

theorem length_le_byteLen_rootedPath (names : List String) :
    names.length ≤ byteLen (rootedPath names).data := by
  induction names using List.reverseRecOn with
  | nil => simp
  | append_singleton init x ih =>
    by_cases hi : init = []
    · subst hi
      rw [List.nil_append, byteLen_rootedPath_single]
      simp
    · rw [byteLen_rootedPath_snoc init x hi]
      simp only [List.length_append, List.length_singleton]
      omega

/-- A rooted path that resolution does not refuse for its length has fewer
names than the walk has steps. -/
theorem steps_enough (names : List String)
    (h : ¬ PATH_MAX ≤ byteLen (rootedPath names).data) : names.length + 2 ≤ 167976 := by
  have h1 := length_le_byteLen_rootedPath names
  have e2 : PATH_MAX = 4096 := rfl
  rw [e2] at h
  omega

theorem mkdirAllParent_single (x : String) (hx : OrdinaryName x) :
    mkdirAllParent (rootedPath [x]).data = none := by
  have hd : (rootedPath [x]).data = '/' :: x.data := by
    simp [rootedPath, intercalate_slash_singleton]
  have hslash : '/' ∉ x.data := hx.1.2.1
  have hxne : x.data ≠ [] := hx.1.1
  rw [hd]
  have hrev : ('/' :: x.data).reverse = x.data.reverse ++ ['/'] := by simp
  have hstrip : ((x.data.reverse ++ ['/']).dropWhile fun c => decide (c = '/'))
      = x.data.reverse ++ ['/'] := by
    cases hxr : x.data.reverse with
    | nil => exact absurd (List.reverse_eq_nil_iff.mp hxr) hxne
    | cons a r =>
      have ha : a ∈ x.data := List.mem_reverse.mp (by rw [hxr]; exact List.mem_cons_self a r)
      have hne : a ≠ '/' := fun e => hslash (e ▸ ha)
      simp [List.dropWhile, hne]
  have hup : (x.data.reverse ++ ['/']).dropWhile (fun c => decide (c ≠ '/')) = ['/'] := by
    apply dropWhile_append_stop
    · intro c hc
      have : c ∈ x.data := List.mem_reverse.mp hc
      have hne : c ≠ '/' := fun e => hslash (e ▸ this)
      simpa using hne
    · simp
  unfold mkdirAllParent
  rw [hrev]
  simp only [hstrip, List.reverse_append, List.reverse_reverse, List.reverse_cons,
    List.reverse_nil, List.nil_append, List.singleton_append]
  rw [← hrev, hrev, hup]
  simp

theorem lastName_rootedPath (init : List String) (x : String)
    (hall : ∀ c ∈ init ++ [x], OrdinaryName c) : lastName (rootedPath (init ++ [x])) = x := by
  unfold lastName
  rw [pathNames_rootedPath _ (by simp) (fun c hc => (hall c hc).1.2.1)]
  have hx : x ≠ "" := (ordinary_ne x (hall x (by simp))).1
  simp [List.find?, hx]

theorem intercalate_plain_ne_nil (k : List Char) (ks : List (List Char)) (hk : Plain k) :
    List.intercalate ['/'] (k :: ks) ≠ [] := by
  cases ks with
  | nil =>
    rw [intercalate_slash_singleton]
    exact hk.1
  | cons q rest =>
    rw [intercalate_slash_cons_cons]
    simp

theorem intercalate_plain_inj (ks ks2 : List (List Char)) (h1 : ∀ k ∈ ks, Plain k)
    (h2 : ∀ k ∈ ks2, Plain k)
    (h : List.intercalate ['/'] ks = List.intercalate ['/'] ks2) : ks = ks2 := by
  cases ks with
  | nil =>
    cases ks2 with
    | nil => rfl
    | cons k rest =>
      have := intercalate_plain_ne_nil k rest (h2 k (List.mem_cons_self _ _))
      rw [← h] at this
      simp [List.intercalate] at this
  | cons k rest =>
    cases ks2 with
    | nil =>
      have := intercalate_plain_ne_nil k rest (h1 k (List.mem_cons_self _ _))
      rw [h] at this
      simp [List.intercalate] at this
    | cons k2 rest2 =>
      have e1 := splitSlash_intercalate (k :: rest) (by simp) (fun x hx => (h1 x hx).2.1)
      have e2 := splitSlash_intercalate (k2 :: rest2) (by simp) (fun x hx => (h2 x hx).2.1)
      rw [h, e2] at e1
      exact e1.symm

/-- The join of an absolute path with one more plain element: the cleaned
path followed by the element. -/
theorem cleanL_abs_append (rest x : List Char) (ks : List (List Char))
    (hks : ∀ k ∈ ks, Plain k) (hx : Plain x)
    (hclean : cleanL ('/' :: rest) = '/' :: List.intercalate ['/'] ks) :
    cleanL (('/' :: rest) ++ '/' :: x) = '/' :: List.intercalate ['/'] (ks ++ [x]) := by
  have hc : ∀ l : List Char, cleanL ('/' :: l)
      = '/' :: List.intercalate ['/']
          ((splitSlash ('/' :: l)).foldl (cleanStep true) []).reverse := by
    intro l
    simp [cleanL]
  have hplain : ∀ k ∈ ((splitSlash ('/' :: rest)).foldl (cleanStep true) []).reverse,
      Plain k := by
    intro k hk
    exact foldl_cleanStep_rooted_plain _ [] (by simp) (splitSlash_no_slash _) k
      (List.mem_reverse.mp hk)
  have hstack : ((splitSlash ('/' :: rest)).foldl (cleanStep true) []).reverse = ks := by
    apply intercalate_plain_inj _ _ hplain hks
    have := hclean
    rw [hc rest] at this
    exact List.cons_injective this
  have happ : ('/' :: rest) ++ '/' :: x = '/' :: (rest ++ '/' :: x) := rfl
  rw [happ, hc, ← happ, splitSlash_append_gen, splitSlash_of_not_mem x hx.2.1,
    List.foldl_append, List.foldl_cons, List.foldl_nil, cleanStep_plain _ _ _ hx,
    List.reverse_cons, hstack]

theorem Join_abs_child (e : String) (h : List String) (x : String) (habs : IsAbs e = true)
    (hclean : Clean e = rootedPath h) (hh : ∀ c ∈ h, OrdinaryName c) (hx : OrdinaryName x) :
    Join [e, x] = rootedPath (h ++ [x]) := by
  have hd : ∃ rest, e.data = '/' :: rest := by
    unfold IsAbs at habs
    cases hh : e.data with
    | nil => simp [hh] at habs
    | cons c cs =>
      simp [hh] at habs
      exact ⟨cs, by rw [habs]⟩
  obtain ⟨rest, hrest⟩ := hd
  have hne : e ≠ "" := by
    intro h0
    rw [h0] at hrest
    simp at hrest
  have hks : ∀ k ∈ h.map String.data, Plain k := by
    intro k hk
    obtain ⟨c, hc, rfl⟩ := List.mem_map.mp hk
    exact (hh c hc).1
  have hcl : cleanL ('/' :: rest) = '/' :: List.intercalate ['/'] (h.map String.data) := by
    have := congrArg String.data hclean
    simp only [Clean, hrest] at this
    exact this
  rw [Join_two e x hne, hrest, cleanL_abs_append rest x.data _ hks hx.1 hcl]
  simp [rootedPath]

theorem Clean_abs_child (e : String) (h : List String) (x : String) (habs : IsAbs e = true)
    (hclean : Clean e = rootedPath h) (hh : ∀ c ∈ h, OrdinaryName c) (hx : OrdinaryName x) :
    Clean ⟨e.data ++ '/' :: x.data⟩ = rootedPath (h ++ [x]) := by
  have hne : e ≠ "" := by
    intro h0
    rw [h0] at habs
    simp [IsAbs] at habs
  have := Join_abs_child e h x habs hclean hh hx
  rw [Join_two e x hne] at this
  exact this

theorem Join_abs_grandchild (e : String) (h : List String) (a n : String)
    (habs : IsAbs e = true) (hclean : Clean e = rootedPath h)
    (hh : ∀ c ∈ h, OrdinaryName c) (ha : OrdinaryName a) (hn : OrdinaryName n) :
    Join [e, a, n] = rootedPath (h ++ [a, n]) := by
  have hne : e ≠ "" := by
    intro h0
    rw [h0] at habs
    simp [IsAbs] at habs
  have habs2 : IsAbs ⟨e.data ++ '/' :: a.data⟩ = true := by
    unfold IsAbs at habs ⊢
    cases hd : e.data with
    | nil => simp [hd] at habs
    | cons c cs =>
      simp [hd] at habs
      simp [habs]
  have h1 := Clean_abs_child e h a habs hclean hh ha
  have hha : ∀ c ∈ h ++ [a], OrdinaryName c := by
    intro c hc
    rcases List.mem_append.mp hc with e1 | e1
    · exact hh c e1
    · simp at e1; subst e1; exact ha
  have h2 := Clean_abs_child ⟨e.data ++ '/' :: a.data⟩ (h ++ [a]) n habs2 h1 hha hn
  have e3 : Join [e, a, n] = Clean ⟨(e.data ++ '/' :: a.data) ++ '/' :: n.data⟩ := by
    unfold Join
    rw [if_neg hne]
    simp only [List.map_cons, List.map_nil, intercalate_slash_cons_cons,
      intercalate_slash_singleton, List.append_assoc, List.cons_append]
  rw [e3, h2]
  simp

theorem proper_prefix_concat (p init : List String) (x : String)
    (hp : p <+: init ++ [x]) (hne : p ≠ init ++ [x]) : p <+: init := by
  rcases List.prefix_concat_iff.mp hp with h | h
  · exact absurd h hne
  · exact h

theorem prefix_ne_concat (p init : List String) (x : String) (hp : p <+: init) :
    p ≠ init ++ [x] := by
  intro e
  have := hp.length_le
  rw [e] at this
  simp at this

/-- A resolution of a rooted path of ordinary names that succeeds, no
symbolic link standing above the last name, names the location that the names
spell; the names above the last are directories and the path is shorter than
`PATH_MAX`. -/
theorem resolve_ok_imp (fs : FileSystem) (init : List String) (x : String) (follow : Bool)
    (q : List String) (hall : ∀ c ∈ init ++ [x], OrdinaryName c)
    (hnl : ∀ p, p <+: init → isLinkAt fs p = false)
    (hlast : follow = true → isLinkAt fs (init ++ [x]) = false)
    (h : resolve fs (rootedPath (init ++ [x])) follow = .ok q) :
    q = init ++ [x] ∧ dirsAlong fs [] init ∧
      ¬ PATH_MAX ≤ byteLen (rootedPath (init ++ [x])).data := by
  rw [resolve_rooted fs _ follow (by simp) hall] at h
  by_cases hlen : PATH_MAX ≤ byteLen (rootedPath (init ++ [x])).data
  · rw [if_pos hlen] at h
    cases h
  · rw [if_neg hlen] at h
    obtain ⟨hq, hd⟩ := walk_ok_plain fs 40 follow (init ++ [x]) [] 167976 q hall
      (by
        intro p hp _ hne2
        simpa using hnl p (proper_prefix_concat p init x hp hne2))
      (by simpa using hlast) h
    refine ⟨by simpa using hq, ?_, hlen⟩
    intro p hp hne
    have := hd p (hp.trans (List.prefix_append init [x])) hne (prefix_ne_concat p init x hp)
    simpa using this

/-- The resolution of a rooted path of ordinary names, shorter than
`PATH_MAX`, whose names above the last are directories. -/
theorem resolve_of_dirs (fs : FileSystem) (init : List String) (x : String) (follow : Bool)
    (hall : ∀ c ∈ init ++ [x], OrdinaryName c)
    (hlen : ¬ PATH_MAX ≤ byteLen (rootedPath (init ++ [x])).data)
    (hd : dirsAlong fs [] init)
    (hlast : follow = false ∨ isLinkAt fs (init ++ [x]) = false) :
    resolve fs (rootedPath (init ++ [x])) follow = .ok (init ++ [x]) := by
  rw [resolve_rooted fs _ follow (by simp) hall, if_neg hlen]
  have hs := steps_enough (init ++ [x]) hlen
  have := walk_through_dirs fs 40 follow x (hall x (by simp)) init [] 167976
    (fun c hc => hall c (by simp [hc]))
    (by
      intro p hp hne
      simpa using hd p hp hne)
    (by simp at hs ⊢; omega)
    (by simpa using hlast)
  simpa using this

theorem dirsAlong_noLink (fs : FileSystem) (init : List String) (hd : dirsAlong fs [] init)
    (p : List String) (hp : p <+: init) : isLinkAt fs p = false := by
  by_cases hne : p = []
  · subst hne
    simp [isLinkAt, FileSystem.lookup]
  · have := hd p hp hne
    simp only [List.nil_append] at this
    simp [isLinkAt, this]

theorem dirsAlong_snoc (fs : FileSystem) (init : List String) (x : String)
    (hd : dirsAlong fs [] init) (hx : fs.lookup (init ++ [x]) = some Node.dir) :
    dirsAlong fs [] (init ++ [x]) := by
  intro p hp hne
  rcases List.prefix_concat_iff.mp hp with h | h
  · rw [h]
    simpa using hx
  · exact hd p h hne

theorem dirsAlong_init (fs : FileSystem) (init : List String) (x : String)
    (hd : dirsAlong fs [] (init ++ [x])) : dirsAlong fs [] init := by
  intro p hp hne
  exact hd p (hp.trans (List.prefix_append init [x])) hne

theorem dirsAlong_last (fs : FileSystem) (init : List String) (x : String)
    (hd : dirsAlong fs [] (init ++ [x])) : fs.lookup (init ++ [x]) = some Node.dir := by
  simpa using hd (init ++ [x]) (List.prefix_refl _) (by simp)

theorem dirsAlong_congr (fs fs2 : FileSystem) (names : List String)
    (h : ∀ p, p <+: names → fs2.lookup p = fs.lookup p) (hd : dirsAlong fs [] names) :
    dirsAlong fs2 [] names := by
  intro p hp hne
  have := hd p hp hne
  simp only [List.nil_append] at this ⊢
  rw [h p hp, this]

/-- What a successful `os.Stat` of a rooted path tells, no symbolic link
standing on the way. -/
theorem osStat_some_imp (fs : FileSystem) (init : List String) (x : String) (b : Bool)
    (hall : ∀ c ∈ init ++ [x], OrdinaryName c)
    (hnl : ∀ p, p <+: init ++ [x] → isLinkAt fs p = false)
    (h : osStat fs (rootedPath (init ++ [x])) = some b) :
    dirsAlong fs [] init ∧ ¬ PATH_MAX ≤ byteLen (rootedPath (init ++ [x])).data ∧
      ∃ nd, fs.lookup (init ++ [x]) = some nd ∧ b = decide (nd = Node.dir) := by
  unfold osStat sysStat at h
  cases hr : resolve fs (rootedPath (init ++ [x])) true with
  | error e => simp [hr] at h
  | ok q =>
    obtain ⟨hq, hd, hlen⟩ := resolve_ok_imp fs init x true q hall
      (fun p hp => hnl p (hp.trans (List.prefix_append init [x])))
      (fun _ => hnl _ (List.prefix_refl _)) hr
    subst hq
    refine ⟨hd, hlen, ?_⟩
    cases hl : fs.lookup (init ++ [x]) with
    | none => simp [hr, hl] at h
    | some nd =>
      simp [hr, hl] at h
      exact ⟨nd, rfl, h.symm⟩

theorem osStat_dir (fs : FileSystem) (init : List String) (x : String)
    (hall : ∀ c ∈ init ++ [x], OrdinaryName c)
    (hlen : ¬ PATH_MAX ≤ byteLen (rootedPath (init ++ [x])).data)
    (hd : dirsAlong fs [] init) (hx : fs.lookup (init ++ [x]) = some Node.dir) :
    osStat fs (rootedPath (init ++ [x])) = some true := by
  unfold osStat sysStat
  rw [resolve_of_dirs fs init x true hall hlen hd (Or.inr (by simp [isLinkAt, hx]))]
  simp [hx]

/-- An `os.Stat` of a rooted path at whose location nothing stands fails, no
symbolic link standing on the way. -/
theorem osStat_absent (fs : FileSystem) (init : List String) (x : String)
    (hall : ∀ c ∈ init ++ [x], OrdinaryName c)
    (hnl : ∀ p, p <+: init → isLinkAt fs p = false)
    (hx : fs.lookup (init ++ [x]) = none) :
    osStat fs (rootedPath (init ++ [x])) = none := by
  unfold osStat sysStat
  cases hr : resolve fs (rootedPath (init ++ [x])) true with
  | error e => rfl
  | ok q =>
    obtain ⟨hq, _, _⟩ := resolve_ok_imp fs init x true q hall hnl
      (fun _ => by simp [isLinkAt, hx]) hr
    subst hq
    simp [hx]

theorem osLstat_some_imp (fs : FileSystem) (init : List String) (x : String) (b : Bool)
    (hall : ∀ c ∈ init ++ [x], OrdinaryName c)
    (hnl : ∀ p, p <+: init → isLinkAt fs p = false)
    (h : osLstat fs (rootedPath (init ++ [x])) = some b) :
    dirsAlong fs [] init ∧ ¬ PATH_MAX ≤ byteLen (rootedPath (init ++ [x])).data ∧
      ∃ nd, fs.lookup (init ++ [x]) = some nd ∧ b = decide (nd = Node.dir) := by
  unfold osLstat sysLstat at h
  cases hr : resolve fs (rootedPath (init ++ [x])) false with
  | error e => simp [hr] at h
  | ok q =>
    obtain ⟨hq, hd, hlen⟩ := resolve_ok_imp fs init x false q hall hnl
      (fun hf => by cases hf) hr
    subst hq
    refine ⟨hd, hlen, ?_⟩
    cases hl : fs.lookup (init ++ [x]) with
    | none => simp [hr, hl] at h
    | some nd =>
      simp [hr, hl] at h
      exact ⟨nd, rfl, h.symm⟩

theorem osMkdir_ok_imp (fs fs2 : FileSystem) (init : List String) (x : String)
    (hall : ∀ c ∈ init ++ [x], OrdinaryName c)
    (hnl : ∀ p, p <+: init → isLinkAt fs p = false)
    (h : osMkdir fs (rootedPath (init ++ [x])) = (fs2, none)) :
    fs2 = fs.insert (init ++ [x]) Node.dir ∧ fs.lookup (init ++ [x]) = none ∧
      dirsAlong fs [] init ∧ ¬ PATH_MAX ≤ byteLen (rootedPath (init ++ [x])).data := by
  unfold osMkdir at h
  cases hr : resolve fs (rootedPath (init ++ [x])) false with
  | error e => simp [hr] at h
  | ok q =>
    obtain ⟨hq, hd, hlen⟩ := resolve_ok_imp fs init x false q hall hnl
      (fun hf => by cases hf) hr
    subst hq
    cases hl : fs.lookup (init ++ [x]) with
    | some nd => simp [hr, hl] at h
    | none =>
      simp [hr, hl] at h
      exact ⟨h.symm, rfl, hd, hlen⟩

theorem osMkdir_err_fs (fs fs2 : FileSystem) (path err : String)
    (h : osMkdir fs path = (fs2, some err)) : fs2 = fs := by
  unfold osMkdir at h
  cases hr : resolve fs path false with
  | error e =>
    simp [hr] at h
    exact h.1.symm
  | ok q =>
    cases hl : fs.lookup q with
    | some nd =>
      simp [hr, hl] at h
      exact h.1.symm
    | none => simp [hr, hl] at h

theorem osRemove_ok_imp (fs fs2 : FileSystem) (init : List String) (x : String)
    (hall : ∀ c ∈ init ++ [x], OrdinaryName c)
    (hnl : ∀ p, p <+: init → isLinkAt fs p = false)
    (h : osRemove fs (rootedPath (init ++ [x])) = (fs2, none)) :
    fs2 = fs.erase (init ++ [x]) := by
  unfold osRemove at h
  cases hr : resolve fs (rootedPath (init ++ [x])) false with
  | error e => simp [hr] at h
  | ok q =>
    obtain ⟨hq, _, _⟩ := resolve_ok_imp fs init x false q hall hnl
      (fun hf => by cases hf) hr
    subst hq
    rw [hr] at h
    simp only at h
    split at h
    · simp at h
    · split at h
      · simp at h
      · split at h
        · simp at h
        · split at h
          · simp at h
          · split at h
            · simp at h
            · simp at h
              exact h.symm
          · simp at h
            exact h.symm

theorem osSymlink_ok_imp (fs fs2 : FileSystem) (target : String) (init : List String)
    (x : String) (hall : ∀ c ∈ init ++ [x], OrdinaryName c)
    (hnl : ∀ p, p <+: init → isLinkAt fs p = false)
    (h : osSymlink fs target (rootedPath (init ++ [x])) = (fs2, none)) :
    fs2 = fs.insert (init ++ [x]) (Node.link target) := by
  unfold osSymlink at h
  simp only at h
  split at h
  · simp at h
  · split at h
    · simp at h
    · split at h
      · simp at h
      · cases hr : resolve fs (rootedPath (init ++ [x])) false with
        | error e => simp [hr] at h
        | ok q =>
          obtain ⟨hq, _, _⟩ := resolve_ok_imp fs init x false q hall hnl
            (fun hf => by cases hf) hr
          subst hq
          cases hl : fs.lookup (init ++ [x]) with
          | some nd => simp [hr, hl] at h
          | none =>
            simp [hr, hl] at h
            exact h.symm

/-- The last step of `os.MkdirAll`, on a path whose names above the last are
directories: when it reports no error, the path is a directory afterwards and
nothing else has changed. -/
theorem mkdirAll_last_step (fs1 fs2 : FileSystem) (init : List String) (x : String)
    (hall : ∀ c ∈ init ++ [x], OrdinaryName c) (hd : dirsAlong fs1 [] init)
    (h : (match osMkdir fs1 (rootedPath (init ++ [x])) with
          | (fs2, none) => (fs2, none)
          | (fs2, some err) =>
            match osLstat fs2 (rootedPath (init ++ [x])) with
            | some true => (fs2, none)
            | _ => (fs2, some err)) = (fs2, (none : Option String))) :
    dirsAlong fs2 [] (init ++ [x]) ∧ (∀ q, q ≠ init ++ [x] → fs2.lookup q = fs1.lookup q) ∧
      ¬ PATH_MAX ≤ byteLen (rootedPath (init ++ [x])).data := by
  have hnl : ∀ p, p <+: init → isLinkAt fs1 p = false := dirsAlong_noLink fs1 init hd
  have hne : init ++ [x] ≠ [] := by simp
  cases hm : osMkdir fs1 (rootedPath (init ++ [x])) with
  | mk fa e =>
    cases e with
    | none =>
      rw [hm] at h
      simp only at h
      obtain ⟨hfa, _, _, hlen⟩ := osMkdir_ok_imp fs1 fa init x hall hnl hm
      have e2 : fs2 = fs1.insert (init ++ [x]) Node.dir := by
        rw [← hfa]
        exact (Prod.mk.inj h).1.symm
      subst e2
      refine ⟨?_, ?_, hlen⟩
      · apply dirsAlong_snoc
        · apply dirsAlong_congr fs1 _ init _ hd
          intro p hp
          rw [lookup_insert fs1 _ _ p hne, if_neg (prefix_ne_concat p init x hp)]
        · rw [lookup_insert fs1 _ _ _ hne, if_pos rfl]
      · intro q hq
        rw [lookup_insert fs1 _ _ q hne, if_neg hq]
    | some err =>
      have hfa := osMkdir_err_fs fs1 fa _ err hm
      subst hfa
      rw [hm] at h
      simp only at h
      cases hls : osLstat fa (rootedPath (init ++ [x])) with
      | none => simp [hls] at h
      | some b =>
        cases b with
        | false => simp [hls] at h
        | true =>
          rw [hls] at h
          simp only at h
          have e2 : fs2 = fa := (Prod.mk.inj h).1.symm
          subst e2
          obtain ⟨_, hlen, nd, hnd, hb⟩ := osLstat_some_imp fs2 init x true hall hnl hls
          have hdir : nd = Node.dir := by simpa using hb.symm
          subst hdir
          exact ⟨dirsAlong_snoc fs2 init x hd hnd, fun q _ => rfl, hlen⟩

/-- An `os.MkdirAll` of a rooted path of ordinary names that reports no error,
no symbolic link standing on the way: afterwards every name on the way is a
directory, and nothing has changed at the locations off the way. -/
theorem mkdirAllFuel_ok_imp (names : List String) :
    names ≠ [] → (∀ c ∈ names, OrdinaryName c) →
    ∀ (k : Nat) (fs fs2 : FileSystem), (rootedPath names).length < k →
      (∀ p, p <+: names → isLinkAt fs p = false) →
      mkdirAllFuel k fs (rootedPath names) = (fs2, none) →
      dirsAlong fs2 [] names ∧ (∀ q, ¬ q <+: names → fs2.lookup q = fs.lookup q) ∧
        ¬ PATH_MAX ≤ byteLen (rootedPath names).data := by
  induction names using List.reverseRecOn with
  | nil => intro h; exact absurd rfl h
  | append_singleton init x ih =>
    intro _ hall k fs fs2 hk hnl h
    obtain ⟨j, rfl⟩ : ∃ j, k = j + 1 := ⟨k - 1, by omega⟩
    rw [mkdirAllFuel_succ] at h
    have hx : OrdinaryName x := hall x (by simp)
    have hinit : ∀ c ∈ init, OrdinaryName c := fun c hc => hall c (by simp [hc])
    cases hst : osStat fs (rootedPath (init ++ [x])) with
    | some b =>
      cases b with
      | false => simp [hst] at h
      | true =>
        rw [hst] at h
        simp only at h
        have e2 : fs2 = fs := (Prod.mk.inj h).1.symm
        subst e2
        obtain ⟨hd, hlen, nd, hnd, hb⟩ := osStat_some_imp fs2 init x true hall hnl hst
        have hdir : nd = Node.dir := by simpa using hb.symm
        subst hdir
        exact ⟨dirsAlong_snoc fs2 init x hd hnd, fun q _ => rfl, hlen⟩
    | none =>
      rw [hst] at h
      simp only at h
      by_cases hi : init = []
      · subst hi
        rw [List.nil_append] at h
        rw [mkdirAllParent_single x hx] at h
        simp only at h
        have hd0 : dirsAlong fs [] [] := by
          intro p hp hne
          exact absurd (List.prefix_nil.mp hp) hne
        obtain ⟨h1, h2, h3⟩ := mkdirAll_last_step fs fs2 [] x hall hd0 h
        refine ⟨h1, ?_, h3⟩
        intro q hq
        apply h2
        intro e
        exact hq (by rw [e])
      · rw [mkdirAllParent_rootedPath init x hi hx] at h
        have heta : (⟨(rootedPath init).data⟩ : String) = rootedPath init := rfl
        simp only [heta] at h
        cases hpar : mkdirAllFuel j fs (rootedPath init) with
        | mk f1 e1 =>
          rw [hpar] at h
          cases e1 with
          | some err => simp at h
          | none =>
            simp only at h
            have hlt : (rootedPath init).length < j := by
              have := length_rootedPath_snoc init x hi
              omega
            obtain ⟨hd1, hframe1, _⟩ := ih hi hinit j fs f1 hlt
              (fun p hp => hnl p (hp.trans (List.prefix_append init [x]))) hpar
            obtain ⟨h1, h2, h3⟩ := mkdirAll_last_step f1 fs2 init x hall hd1 h
            refine ⟨h1, ?_, h3⟩
            intro q hq
            have hq1 : q ≠ init ++ [x] := by
              intro e
              exact hq (by rw [e])
            have hq2 : ¬ q <+: init := fun hp => hq (hp.trans (List.prefix_append init [x]))
            rw [h2 q hq1, hframe1 q hq2]

theorem osMkdirAll_ok_imp (names : List String) (hne : names ≠ [])
    (hall : ∀ c ∈ names, OrdinaryName c) (fs fs2 : FileSystem)
    (hnl : ∀ p, p <+: names → isLinkAt fs p = false)
    (h : osMkdirAll fs (rootedPath names) = (fs2, none)) :
    dirsAlong fs2 [] names ∧ (∀ q, ¬ q <+: names → fs2.lookup q = fs.lookup q) ∧
      ¬ PATH_MAX ≤ byteLen (rootedPath names).data :=
  mkdirAllFuel_ok_imp names hne hall _ fs fs2 (Nat.lt_succ_self _) hnl h

theorem createDirs_ok_head (m : Manager) (dir : String) (rest : List String)
    (fs : FileSystem) (out : String) (hdry : m.dryRun = false)
    (h : (createDirs m (dir :: rest) fs out).err = none) :
    ∃ fs1, osMkdirAll fs dir = (fs1, none) := by
  unfold createDirs at h
  simp only [hdry] at h
  cases hm : osMkdirAll fs dir with
  | mk f e =>
    cases e with
    | none => exact ⟨f, rfl⟩
    | some err => simp [hm] at h

theorem not_prefix_of_longer (q r : List String) (h : r.length < q.length) : ¬ q <+: r := by
  intro hp
  have := hp.length_le
  omega

theorem sibling_not_above (r : List String) (x y : String) (h : y ≠ x) :
    ¬ (r ++ [y]) <+: (r ++ [x]) := by
  intro hp
  rw [List.prefix_append_right_inj] at hp
  simp [List.cons_prefix_cons] at hp
  exact h hp

/-- The directories below the application root that the loop of `Create`
makes: when the loop reports no error, each is a directory afterwards and
nothing has changed elsewhere. -/
theorem createDirs_children (m : Manager) (hdry : m.dryRun = false) (r : List String)
    (hr : ∀ c ∈ r, OrdinaryName c) :
    ∀ (xs : List String) (fs : FileSystem) (out : String),
      (∀ x ∈ xs, OrdinaryName x) →
      dirsAlong fs [] r → (∀ y, isLinkAt fs (r ++ [y]) = false) →
      (createDirs m (xs.map fun x => rootedPath (r ++ [x])) fs out).err = none →
      dirsAlong (createDirs m (xs.map fun x => rootedPath (r ++ [x])) fs out).fs [] r ∧
        (∀ x ∈ xs,
          (createDirs m (xs.map fun x => rootedPath (r ++ [x])) fs out).fs.lookup (r ++ [x])
              = some Node.dir ∧
            ¬ PATH_MAX ≤ byteLen (rootedPath (r ++ [x])).data) ∧
        (∀ q, ¬ q <+: r → (∀ x ∈ xs, q ≠ r ++ [x]) →
          (createDirs m (xs.map fun x => rootedPath (r ++ [x])) fs out).fs.lookup q
            = fs.lookup q) := by
  intro xs
  induction xs with
  | nil =>
    intro fs out _ hd _ _
    simp only [List.map_nil, createDirs]
    refine ⟨hd, ?_, ?_⟩ <;> simp
  | cons x rest ih =>
    intro fs out hxs hd hnl herr
    simp only [List.map_cons] at herr ⊢
    obtain ⟨f1, hmk⟩ := createDirs_ok_head m _ _ fs out hdry herr
    have hx : OrdinaryName x := hxs x (List.mem_cons_self _ _)
    have hall : ∀ c ∈ r ++ [x], OrdinaryName c := by
      intro c hc
      rcases List.mem_append.mp hc with h | h
      · exact hr c h
      · simp at h; subst h; exact hx
    have hnl1 : ∀ p, p <+: r ++ [x] → isLinkAt fs p = false := by
      intro p hp
      rcases List.prefix_concat_iff.mp hp with h | h
      · rw [h]; exact hnl x
      · exact dirsAlong_noLink fs r hd p h
    obtain ⟨hd1, hframe1, hlen1⟩ := osMkdirAll_ok_imp (r ++ [x]) (by simp) hall fs f1 hnl1 hmk
    rw [createDirs_made m _ _ fs f1 out hdry hmk] at herr ⊢
    have hdr1 : dirsAlong f1 [] r := dirsAlong_init f1 r x hd1
    have hnl2 : ∀ y, isLinkAt f1 (r ++ [y]) = false := by
      intro y
      by_cases hy : y = x
      · subst hy
        simp [isLinkAt, dirsAlong_last f1 r y hd1]
      · have := hframe1 (r ++ [y]) (sibling_not_above r x y hy)
        unfold isLinkAt
        rw [this]
        exact hnl y
    obtain ⟨h1, h2, h3⟩ := ih f1 _ (fun y hy => hxs y (List.mem_cons_of_mem _ hy)) hdr1 hnl2 herr
    refine ⟨h1, ?_, ?_⟩
    · intro y hy
      rcases List.mem_cons.mp hy with e | hy2
      · subst e
        refine ⟨?_, hlen1⟩
        by_cases hin : y ∈ rest
        · exact (h2 y hin).1
        · rw [h3 (r ++ [y]) (not_prefix_of_longer _ _ (by simp)) (by
            intro z hz e
            have : y = z := by simpa using e
            exact hin (this ▸ hz))]
          exact dirsAlong_last f1 r y hd1
      · exact h2 y hy2
    · intro q hq hqx
      rw [h3 q hq (fun z hz => hqx z (List.mem_cons_of_mem _ hz))]
      apply hframe1
      intro hp
      rcases List.prefix_concat_iff.mp hp with h | h
      · exact hqx x (List.mem_cons_self _ _) h
      · exact hq h

/-- The loop of `Create` over the six directories of the layout whose root is
the rooted path `r`: when it reports no error, the root and the five
directories below it are directories afterwards, and nothing has changed
elsewhere. -/
theorem createDirs_layout (m : Manager) (hdry : m.dryRun = false) (r : List String)
    (hroot : m.appRoot = rootedPath r) (hr : ∀ c ∈ r, OrdinaryName c) (hrne : r ≠ [])
    (fs : FileSystem) (out : String)
    (hnl : ∀ p, p <+: r → isLinkAt fs p = false)
    (hfresh : ∀ y, isLinkAt fs (r ++ [y]) = false)
    (herr : (createDirs m [m.appRoot, m.AppDir, m.DataDir, m.LogsDir, m.BackupsDir, m.TmpDir]
      fs out).err = none) :
    dirsAlong (createDirs m [m.appRoot, m.AppDir, m.DataDir, m.LogsDir, m.BackupsDir, m.TmpDir]
        fs out).fs [] r ∧
      ¬ PATH_MAX ≤ byteLen (rootedPath r).data ∧
      (∀ x ∈ ["app", "data", "logs", "backups", "tmp"],
        (createDirs m [m.appRoot, m.AppDir, m.DataDir, m.LogsDir, m.BackupsDir, m.TmpDir]
            fs out).fs.lookup (r ++ [x]) = some Node.dir ∧
          ¬ PATH_MAX ≤ byteLen (rootedPath (r ++ [x])).data) ∧
      (∀ q, ¬ q <+: r → (∀ x ∈ ["app", "data", "logs", "backups", "tmp"], q ≠ r ++ [x]) →
        (createDirs m [m.appRoot, m.AppDir, m.DataDir, m.LogsDir, m.BackupsDir, m.TmpDir]
            fs out).fs.lookup q = fs.lookup q) := by
  have hlist : [m.appRoot, m.AppDir, m.DataDir, m.LogsDir, m.BackupsDir, m.TmpDir]
      = rootedPath r ::
          (["app", "data", "logs", "backups", "tmp"].map fun x => rootedPath (r ++ [x])) := by
    simp only [Manager.AppDir, Manager.DataDir, Manager.LogsDir, Manager.BackupsDir,
      Manager.TmpDir, hroot, List.map_cons, List.map_nil,
      Join_rootedPath r _ hr ordinary_app, Join_rootedPath r _ hr ordinary_data,
      Join_rootedPath r _ hr ordinary_logs, Join_rootedPath r _ hr ordinary_backups,
      Join_rootedPath r _ hr ordinary_tmp]
  rw [hlist] at herr ⊢
  obtain ⟨f1, hmk⟩ := createDirs_ok_head m _ _ fs out hdry herr
  obtain ⟨hd1, hframe1, hlen1⟩ := osMkdirAll_ok_imp r hrne hr fs f1 hnl hmk
  rw [createDirs_made m _ _ fs f1 out hdry hmk] at herr ⊢
  have hnl2 : ∀ y, isLinkAt f1 (r ++ [y]) = false := by
    intro y
    have := hframe1 (r ++ [y]) (not_prefix_of_longer _ _ (by simp))
    unfold isLinkAt
    rw [this]
    exact hfresh y
  have hxs : ∀ x ∈ ["app", "data", "logs", "backups", "tmp"], OrdinaryName x := by
    intro x hx
    simp only [List.mem_cons, List.mem_singleton, List.mem_nil_iff, or_false] at hx
    rcases hx with h | h | h | h | h <;> subst h
    · exact ordinary_app
    · exact ordinary_data
    · exact ordinary_logs
    · exact ordinary_backups
    · exact ordinary_tmp
  obtain ⟨h1, h2, h3⟩ := createDirs_children m hdry r hr _ f1 _ hxs hd1 hnl2 herr
  refine ⟨h1, hlen1, h2, ?_⟩
  intro q hq hqx
  rw [h3 q hq hqx, hframe1 q hq]

/-- The log symbolic link of `Create` under a home directory whose
`logs` is the rooted path of the names `h` and `logs`: when the function reports no error, the central log
directory and the names above it are directories afterwards, the entry at
`<home>/logs/<name>` is the link, and nothing has changed elsewhere. -/
theorem createLogSymlink_ok_imp (m : Manager) (hdry : m.dryRun = false) (envHome : String)
    (h : List String) (n : String) (henv : envHome ≠ "")
    (hjoin : Join [envHome, "logs"] = rootedPath (h ++ ["logs"])) (hname : m.appName = n)
    (hh : ∀ c ∈ h, OrdinaryName c) (hn : OrdinaryName n)
    (fs : FileSystem) (out : String)
    (hnl : ∀ p, p <+: h ++ ["logs"] → isLinkAt fs p = false)
    (herr : (m.createLogSymlink envHome fs out).err = none) :
    dirsAlong (m.createLogSymlink envHome fs out).fs [] (h ++ ["logs"]) ∧
      (∀ q, q ≠ h ++ ["logs"] ++ [n] → ¬ q <+: h ++ ["logs"] →
        (m.createLogSymlink envHome fs out).fs.lookup q = fs.lookup q) := by
  have hlg : ∀ c ∈ h ++ ["logs"], OrdinaryName c := by
    intro c hc
    rcases List.mem_append.mp hc with e | e
    · exact hh c e
    · simp at e; subst e; exact ordinary_logs
  have hl : ∀ c ∈ h ++ ["logs"] ++ [n], OrdinaryName c := by
    intro c hc
    rcases List.mem_append.mp hc with e | e
    · exact hlg c e
    · simp at e; subst e; exact hn
  have hne : h ++ ["logs"] ++ [n] ≠ [] := by simp
  have key : ∀ o : Outcome, m.createLogSymlink envHome fs out = o → o.err = none →
      dirsAlong o.fs [] (h ++ ["logs"]) ∧
        (∀ q, q ≠ h ++ ["logs"] ++ [n] → ¬ q <+: h ++ ["logs"] → o.fs.lookup q = fs.lookup q) := by
    intro o ho hoerr
    unfold Manager.createLogSymlink UserHomeDir at ho
    rw [if_pos henv] at ho
    simp only [hjoin, hname,
      Join_rootedPath (h ++ ["logs"]) n hlg hn, hdry] at ho
    cases hmk : osMkdirAll fs (rootedPath (h ++ ["logs"])) with
    | mk f7 e7 =>
      rw [hmk] at ho
      cases e7 with
      | some err =>
        simp only at ho
        rw [← ho] at hoerr
        simp at hoerr
      | none =>
        simp only [Bool.false_eq_true, if_false] at ho
        obtain ⟨hd7, hframe7, _⟩ := osMkdirAll_ok_imp (h ++ ["logs"]) (by simp) hlg fs f7 hnl hmk
        have hnl7 : ∀ p, p <+: h ++ ["logs"] → isLinkAt f7 p = false :=
          dirsAlong_noLink f7 _ hd7
        have cont : ∀ f8 : FileSystem, (∀ q, q ≠ h ++ ["logs"] ++ [n] → f8.lookup q = f7.lookup q) →
            ∀ f9 : FileSystem,
              osSymlink f8 m.LogsDir (rootedPath (h ++ ["logs"] ++ [n])) = (f9, none) →
              dirsAlong f9 [] (h ++ ["logs"]) ∧
                (∀ q, q ≠ h ++ ["logs"] ++ [n] → ¬ q <+: h ++ ["logs"] →
                  f9.lookup q = fs.lookup q) := by
          intro f8 h8 f9 hs
          have hnl8 : ∀ p, p <+: h ++ ["logs"] → isLinkAt f8 p = false := by
            intro p hp
            unfold isLinkAt
            rw [h8 p (prefix_ne_concat p _ n hp)]
            exact hnl7 p hp
          have h9 := osSymlink_ok_imp f8 f9 _ _ n hl hnl8 hs
          rw [h9]
          have hlook : ∀ q, q ≠ h ++ ["logs"] ++ [n] →
              (f8.insert (h ++ ["logs"] ++ [n]) (Node.link m.LogsDir)).lookup q
                = f7.lookup q := by
            intro q hq
            rw [lookup_insert f8 _ _ q hne, if_neg hq, h8 q hq]
          refine ⟨?_, ?_⟩
          · apply dirsAlong_congr f7 _ _ _ hd7
            intro p hp
            exact hlook p (prefix_ne_concat p _ n hp)
          · intro q hq hqp
            rw [hlook q hq, hframe7 q hqp]
        cases hls : osLstat f7 (rootedPath (h ++ ["logs"] ++ [n])) with
        | none =>
          rw [hls] at ho
          simp only at ho
          cases hs : osSymlink f7 m.LogsDir (rootedPath (h ++ ["logs"] ++ [n])) with
          | mk f9 e9 =>
            rw [hs] at ho
            cases e9 with
            | some err =>
              simp only at ho
              rw [← ho] at hoerr
              simp at hoerr
            | none =>
              simp only at ho
              rw [← ho]
              exact cont f7 (fun _ _ => rfl) f9 hs
        | some b =>
          rw [hls] at ho
          simp only at ho
          cases hrm : osRemove f7 (rootedPath (h ++ ["logs"] ++ [n])) with
          | mk f8 e8 =>
            rw [hrm] at ho
            cases e8 with
            | some err =>
              simp only at ho
              rw [← ho] at hoerr
              simp at hoerr
            | none =>
              simp only at ho
              have h8 : ∀ q, q ≠ h ++ ["logs"] ++ [n] → f8.lookup q = f7.lookup q := by
                intro q hq
                rw [osRemove_ok_imp f7 f8 _ n hl hnl7 hrm, lookup_erase f7 _ q hne, if_neg hq]
              cases hs : osSymlink f8 m.LogsDir (rootedPath (h ++ ["logs"] ++ [n])) with
              | mk f9 e9 =>
                rw [hs] at ho
                cases e9 with
                | some err =>
                  simp only at ho
                  rw [← ho] at hoerr
                  simp at hoerr
                | none =>
                  simp only at ho
                  rw [← ho]
                  exact cont f8 h8 f9 hs
  exact key _ rfl herr

theorem ordinary_layout_root (h : List String) (n : String) (hh : ∀ c ∈ h, OrdinaryName c)
    (hn : OrdinaryName n) : ∀ c ∈ h ++ ["apps"] ++ [n], OrdinaryName c := by
  intro c hc
  simp only [List.mem_append, List.mem_singleton] at hc
  rcases hc with (e | e) | e
  · exact hh c e
  · subst e; exact ordinary_apps
  · subst e; exact hn

/-- What `Create` leaves when it reports no error, for an application that did
not exist and a home directory that is not reached through symbolic links:
the application root and the directories `app`, `data` and `logs` below it
are directories, and nothing stands at the place of the config file. -/
theorem Create_ok_imp (m : Manager) (hdry : m.dryRun = false) (envHome : String)
    (h : List String) (n : String) (henv : envHome ≠ "")
    (hjoin : Join [envHome, "logs"] = rootedPath (h ++ ["logs"]))
    (hroot : m.appRoot = rootedPath (h ++ ["apps"] ++ [n])) (hname : m.appName = n)
    (hh : ∀ c ∈ h, OrdinaryName c) (hn : OrdinaryName n) (fs : FileSystem)
    (hlinksA : noLinkOnWay fs (h ++ ["apps"]) = true)
    (hlinksL : noLinkOnWay fs (h ++ ["logs"]) = true)
    (hnew : nothingAtOrBelow fs (h ++ ["apps"] ++ [n]) = true)
    (herr : (m.Create envHome fs).err = none) :
    dirsAlong (m.Create envHome fs).fs [] (h ++ ["apps"] ++ [n]) ∧
      ¬ PATH_MAX ≤ byteLen (rootedPath (h ++ ["apps"] ++ [n])).data ∧
      (∀ x ∈ ["app", "data", "logs"],
        (m.Create envHome fs).fs.lookup (h ++ ["apps"] ++ [n] ++ [x]) = some Node.dir ∧
          ¬ PATH_MAX ≤ byteLen (rootedPath (h ++ ["apps"] ++ [n] ++ [x])).data) ∧
      (m.Create envHome fs).fs.lookup (h ++ ["apps"] ++ [n] ++ [".uberman.toml"])
        = none := by
  have hr := ordinary_layout_root h n hh hn
  have hrne : h ++ ["apps"] ++ [n] ≠ [] := by simp
  have hnl : ∀ p, p <+: h ++ ["apps"] ++ [n] → isLinkAt fs p = false := by
    intro p hp
    rcases List.prefix_concat_iff.mp hp with e | e
    · rw [e]
      exact isLinkAt_false_of fs _ none
        (lookup_nothing fs _ _ hrne hnew (List.prefix_refl _)) (by simp)
    · exact noLinkOnWay_above fs _ p hlinksA e
  have hfresh : ∀ y, isLinkAt fs (h ++ ["apps"] ++ [n] ++ [y]) = false := by
    intro y
    exact isLinkAt_false_of fs _ none
      (lookup_nothing fs _ _ hrne hnew (List.prefix_append _ _)) (by simp)
  have key : ∀ o : Outcome, m.Create envHome fs = o → o.err = none →
      dirsAlong o.fs [] (h ++ ["apps"] ++ [n]) ∧
        ¬ PATH_MAX ≤ byteLen (rootedPath (h ++ ["apps"] ++ [n])).data ∧
        (∀ x ∈ ["app", "data", "logs"],
          o.fs.lookup (h ++ ["apps"] ++ [n] ++ [x]) = some Node.dir ∧
            ¬ PATH_MAX ≤ byteLen (rootedPath (h ++ ["apps"] ++ [n] ++ [x])).data) ∧
        o.fs.lookup (h ++ ["apps"] ++ [n] ++ [".uberman.toml"]) = none := by
    intro o ho hoerr
    unfold Manager.Create at ho
    simp only at ho
    split at ho
    · rw [← ho] at hoerr
      simp at hoerr
    · next f6 out6 hc =>
      have herr6 : (createDirs m
          [m.appRoot, m.AppDir, m.DataDir, m.LogsDir, m.BackupsDir, m.TmpDir] fs
          (if m.verbose = true then
            "Creating app directory structure for: " ++ m.appName ++ "\n" else "")).err
            = none := by
        rw [hc]
      have h6 := createDirs_layout m hdry _ hroot hr hrne fs _ hnl hfresh herr6
      rw [hc] at h6
      simp only at h6
      obtain ⟨hd6, hlenR, hch6, hframe6⟩ := h6
      have hnlL : ∀ p, p <+: h ++ ["logs"] → isLinkAt f6 p = false := by
        intro p hp
        rcases List.prefix_concat_iff.mp hp with e | e
        · have hfr := hframe6 p
            (by
              rw [e, List.append_assoc, List.prefix_append_right_inj]
              simp [List.cons_prefix_cons])
            (by
              intro x _ e2
              have := congrArg List.length e2
              rw [e] at this
              simp at this)
          unfold isLinkAt
          rw [hfr, e]
          exact noLinkOnWay_above fs _ _ hlinksL (List.prefix_refl _)
        · exact dirsAlong_noLink f6 _ hd6 p
            (e.trans ((List.prefix_append h ["apps"]).trans (List.prefix_append _ [n])))
      split at ho
      · rw [← ho] at hoerr
        simp at hoerr
      · next f9 out9 hs =>
        have herr9 : (m.createLogSymlink envHome f6 out6).err = none := by rw [hs]
        have h9 := createLogSymlink_ok_imp m hdry envHome h n henv hjoin hname hh hn f6 out6 hnlL herr9
        rw [hs] at h9
        simp only at h9
        obtain ⟨hd9, hframe9⟩ := h9
        have hofs : o.fs = f9 := by rw [← ho]
        rw [hofs]
        -- a location at or below the application root keeps what the loop left
        have hkeep : ∀ t : List String,
            f9.lookup (h ++ ["apps"] ++ [n] ++ t) = f6.lookup (h ++ ["apps"] ++ [n] ++ t) := by
          intro t
          apply hframe9
          · intro e
            simp at e
          · intro hp
            have := hp.length_le
            simp at this
        have hkeepA : f9.lookup (h ++ ["apps"]) = f6.lookup (h ++ ["apps"]) := by
          apply hframe9
          · intro e
            have := congrArg List.length e
            simp at this
          · rw [List.prefix_append_right_inj]
            simp [List.cons_prefix_cons]
        refine ⟨?_, hlenR, ?_, ?_⟩
        · intro p hp hne
          simp only [List.nil_append]
          rcases List.prefix_concat_iff.mp hp with e | e
          · rw [e]
            have := hkeep []
            simp only [List.append_nil] at this
            rw [this]
            exact dirsAlong_last f6 _ n hd6
          · rcases List.prefix_concat_iff.mp e with e2 | e2
            · rw [e2, hkeepA]
              have := hd6 (h ++ ["apps"]) (List.prefix_append _ _) (by simp)
              simpa using this
            · have := hd9 p (e2.trans (List.prefix_append _ _)) hne
              simpa using this
        · intro x hx
          have hx5 : x ∈ ["app", "data", "logs", "backups", "tmp"] := by
            simp only [List.mem_cons, List.mem_singleton, List.mem_nil_iff, or_false] at hx ⊢
            rcases hx with e | e | e
            · exact Or.inl e
            · exact Or.inr (Or.inl e)
            · exact Or.inr (Or.inr (Or.inl e))
          rw [hkeep [x]]
          exact hch6 x hx5
        · rw [hkeep [".uberman.toml"], hframe6 _ (not_prefix_of_longer _ _ (by simp))
            (by
              intro x hx e
              have e2 : x = ".uberman.toml" := by
                have := List.append_cancel_left e
                simpa using this.symm
              subst e2
              revert hx
              decide)]
          exact lookup_nothing fs _ _ hrne hnew (List.prefix_append _ _)
  exact key _ rfl herr

theorem osLstat_of_dirs (fs : FileSystem) (init : List String) (x : String)
    (hall : ∀ c ∈ init ++ [x], OrdinaryName c)
    (hlen : ¬ PATH_MAX ≤ byteLen (rootedPath (init ++ [x])).data)
    (hd : dirsAlong fs [] init) :
    osLstat fs (rootedPath (init ++ [x]))
      = match fs.lookup (init ++ [x]) with
        | none => none
        | some nd => some (decide (nd = Node.dir)) := by
  unfold osLstat sysLstat
  rw [resolve_of_dirs fs init x false hall hlen hd (Or.inl rfl)]
  cases hl : fs.lookup (init ++ [x]) <;> simp [hl]

theorem osMkdir_of_dirs (fs : FileSystem) (init : List String) (x : String)
    (hall : ∀ c ∈ init ++ [x], OrdinaryName c)
    (hlen : ¬ PATH_MAX ≤ byteLen (rootedPath (init ++ [x])).data)
    (hd : dirsAlong fs [] init) :
    osMkdir fs (rootedPath (init ++ [x]))
      = match fs.lookup (init ++ [x]) with
        | some _ =>
          (fs, some ("mkdir " ++ rootedPath (init ++ [x]) ++ ": " ++ Errno.EEXIST.text))
        | none => (fs.insert (init ++ [x]) Node.dir, none) := by
  unfold osMkdir
  rw [resolve_of_dirs fs init x false hall hlen hd (Or.inl rfl)]

theorem osRemove_of_dirs (fs : FileSystem) (init : List String) (x : String) (nd : Node)
    (hall : ∀ c ∈ init ++ [x], OrdinaryName c)
    (hlen : ¬ PATH_MAX ≤ byteLen (rootedPath (init ++ [x])).data)
    (hd : dirsAlong fs [] init) (hx : fs.lookup (init ++ [x]) = some nd)
    (hnd : nd ≠ Node.dir) :
    osRemove fs (rootedPath (init ++ [x])) = (fs.erase (init ++ [x]), none) := by
  unfold osRemove
  rw [resolve_of_dirs fs init x false hall hlen hd (Or.inl rfl)]
  have hx0 := hall x (by simp)
  have h1 : x ≠ "." := (ordinary_ne x hx0).2
  have h2 : x ≠ ".." := by
    intro e
    have := hx0.1.2.2.2
    rw [e] at this
    exact this rfl
  have h3 : init ++ [x] ≠ [] := by simp
  cases nd with
  | dir => exact absurd rfl hnd
  | file => simp only [lastName_rootedPath init x hall, h1, h2, h3, if_false, hx]
  | link t => simp only [lastName_rootedPath init x hall, h1, h2, h3, if_false, hx]

theorem osSymlink_of_dirs (fs : FileSystem) (target : String) (init : List String)
    (x : String) (hall : ∀ c ∈ init ++ [x], OrdinaryName c)
    (hlen : ¬ PATH_MAX ≤ byteLen (rootedPath (init ++ [x])).data)
    (ht : target ≠ "" ∧ '\x00' ∉ target.data ∧ ¬ PATH_MAX ≤ byteLen target.data)
    (hd : dirsAlong fs [] init) (hx : fs.lookup (init ++ [x]) = none) :
    osSymlink fs target (rootedPath (init ++ [x]))
      = (fs.insert (init ++ [x]) (Node.link target), none) := by
  unfold osSymlink
  simp only [ht.1, ht.2.1, ht.2.2, if_false,
    resolve_of_dirs fs init x false hall hlen hd (Or.inl rfl), hx]

theorem byteLen_rootedPath_init (init : List String) (x : String)
    (hlen : ¬ PATH_MAX ≤ byteLen (rootedPath (init ++ [x])).data) :
    ¬ PATH_MAX ≤ byteLen (rootedPath init).data := by
  by_cases hi : init = []
  · subst hi
    have : byteLen (rootedPath []).data = 1 := by decide
    rw [this]
    decide
  · rw [byteLen_rootedPath_snoc init x hi] at hlen
    omega

/-- An `os.MkdirAll` of a rooted path of ordinary names, shorter than
`PATH_MAX`, each name of which is a directory or absent, reports no error. -/
theorem mkdirAllFuel_succeeds (names : List String) :
    names ≠ [] → (∀ c ∈ names, OrdinaryName c) →
    ¬ PATH_MAX ≤ byteLen (rootedPath names).data →
    ∀ (k : Nat) (fs : FileSystem), (rootedPath names).length < k →
      (∀ p, p <+: names → fs.lookup p = none ∨ fs.lookup p = some Node.dir) →
      ∃ fs2, mkdirAllFuel k fs (rootedPath names) = (fs2, none) := by
  induction names using List.reverseRecOn with
  | nil => intro h; exact absurd rfl h
  | append_singleton init x ih =>
    intro _ hall hlen k fs hk hfree
    obtain ⟨j, rfl⟩ : ∃ j, k = j + 1 := ⟨k - 1, by omega⟩
    have hx : OrdinaryName x := hall x (by simp)
    have hinit : ∀ c ∈ init, OrdinaryName c := fun c hc => hall c (by simp [hc])
    have hnl : ∀ p, p <+: init ++ [x] → isLinkAt fs p = false := by
      intro p hp
      rcases hfree p hp with e | e
      · exact isLinkAt_false_of fs p none e (by simp)
      · exact isLinkAt_false_of fs p _ e (by simp)
    rw [mkdirAllFuel_succ]
    cases hst : osStat fs (rootedPath (init ++ [x])) with
    | some b =>
      cases b with
      | true => exact ⟨fs, rfl⟩
      | false =>
        obtain ⟨_, _, nd, hnd, hb⟩ := osStat_some_imp fs init x false hall hnl hst
        rcases hfree (init ++ [x]) (List.prefix_refl _) with e | e
        · rw [e] at hnd; cases hnd
        · rw [e] at hnd
          injection hnd with hnd
          subst hnd
          simp at hb
    | none =>
      simp only
      -- the tail of the function, once the names above the last are directories
      have tail : ∀ f1 : FileSystem, dirsAlong f1 [] init →
          f1.lookup (init ++ [x]) = fs.lookup (init ++ [x]) →
          ∃ fs2, (match osMkdir f1 (rootedPath (init ++ [x])) with
            | (fs2, none) => (fs2, none)
            | (fs2, some err) =>
              match osLstat fs2 (rootedPath (init ++ [x])) with
              | some true => (fs2, none)
              | _ => (fs2, some err)) = (fs2, (none : Option String)) := by
        intro f1 hd1 hsame
        rw [osMkdir_of_dirs f1 init x hall hlen hd1]
        rcases hfree (init ++ [x]) (List.prefix_refl _) with e | e
        · refine ⟨f1.insert (init ++ [x]) Node.dir, ?_⟩
          rw [hsame, e]
        · refine ⟨f1, ?_⟩
          rw [hsame, e]
          simp only
          rw [osLstat_of_dirs f1 init x hall hlen hd1, hsame, e]
          simp
      by_cases hi : init = []
      · subst hi
        rw [List.nil_append, mkdirAllParent_single x hx]
        simp only
        have hd0 : dirsAlong fs [] [] := by
          intro p hp hne
          exact absurd (List.prefix_nil.mp hp) hne
        exact tail fs hd0 rfl
      · rw [mkdirAllParent_rootedPath init x hi hx]
        have heta : (⟨(rootedPath init).data⟩ : String) = rootedPath init := rfl
        simp only [heta]
        have hlt : (rootedPath init).length < j := by
          have := length_rootedPath_snoc init x hi
          omega
        obtain ⟨f1, hpar⟩ := ih hi hinit (byteLen_rootedPath_init init x hlen) j fs hlt
          (fun p hp => hfree p (hp.trans (List.prefix_append init [x])))
        obtain ⟨hd1, hframe1, _⟩ := mkdirAllFuel_ok_imp init hi hinit j fs f1 hlt
          (fun p hp => hnl p (hp.trans (List.prefix_append init [x]))) hpar
        rw [hpar]
        simp only
        exact tail f1 hd1 (hframe1 _ (not_prefix_of_longer _ _ (by simp)))

theorem osMkdirAll_succeeds (names : List String) (hne : names ≠ [])
    (hall : ∀ c ∈ names, OrdinaryName c)
    (hlen : ¬ PATH_MAX ≤ byteLen (rootedPath names).data) (fs : FileSystem)
    (hfree : ∀ p, p <+: names → fs.lookup p = none ∨ fs.lookup p = some Node.dir) :
    ∃ fs2, osMkdirAll fs (rootedPath names) = (fs2, none) :=
  mkdirAllFuel_succeeds names hne hall hlen _ fs (Nat.lt_succ_self _) hfree

theorem lookup_root (fs : FileSystem) : fs.lookup [] = some Node.dir := by
  simp [FileSystem.lookup]

theorem free_of_dirs (fs : FileSystem) (init : List String) (x : String)
    (hd : dirsAlong fs [] init)
    (hx : fs.lookup (init ++ [x]) = none ∨ fs.lookup (init ++ [x]) = some Node.dir) :
    ∀ p, p <+: init ++ [x] → fs.lookup p = none ∨ fs.lookup p = some Node.dir := by
  intro p hp
  rcases List.prefix_concat_iff.mp hp with e | e
  · rw [e]; exact hx
  · by_cases hne : p = []
    · subst hne
      exact Or.inr (lookup_root fs)
    · exact Or.inr (by simpa using hd p e hne)

theorem noLink_of_free (fs : FileSystem) (names : List String)
    (hfree : ∀ p, p <+: names → fs.lookup p = none ∨ fs.lookup p = some Node.dir) :
    ∀ p, p <+: names → isLinkAt fs p = false := by
  intro p hp
  rcases hfree p hp with e | e
  · exact isLinkAt_false_of fs p none e (by simp)
  · exact isLinkAt_false_of fs p _ e (by simp)

/-- The loop of `Create` over directories below a root that is a directory,
each of them a directory or absent and none with too long a path, reports no
error. -/
theorem createDirs_children_succeeds (m : Manager) (hdry : m.dryRun = false)
    (r : List String) (hr : ∀ c ∈ r, OrdinaryName c) :
    ∀ (xs : List String) (fs : FileSystem) (out : String),
      (∀ x ∈ xs, OrdinaryName x ∧ ¬ PATH_MAX ≤ byteLen (rootedPath (r ++ [x])).data) →
      dirsAlong fs [] r →
      (∀ x ∈ xs, fs.lookup (r ++ [x]) = none ∨ fs.lookup (r ++ [x]) = some Node.dir) →
      (createDirs m (xs.map fun x => rootedPath (r ++ [x])) fs out).err = none := by
  intro xs
  induction xs with
  | nil =>
    intro fs out _ _ _
    simp [createDirs]
  | cons x rest ih =>
    intro fs out hxs hd hfree
    simp only [List.map_cons]
    have hx := hxs x (List.mem_cons_self _ _)
    have hall : ∀ c ∈ r ++ [x], OrdinaryName c := by
      intro c hc
      rcases List.mem_append.mp hc with h | h
      · exact hr c h
      · simp at h; subst h; exact hx.1
    have hfree1 := free_of_dirs fs r x hd (hfree x (List.mem_cons_self _ _))
    obtain ⟨f1, hmk⟩ := osMkdirAll_succeeds (r ++ [x]) (by simp) hall hx.2 fs hfree1
    obtain ⟨hd1, hframe1, _⟩ := osMkdirAll_ok_imp (r ++ [x]) (by simp) hall fs f1
      (noLink_of_free fs _ hfree1) hmk
    rw [createDirs_made m _ _ fs f1 out hdry hmk]
    apply ih f1 _ (fun y hy => hxs y (List.mem_cons_of_mem _ hy)) (dirsAlong_init f1 r x hd1)
    intro y hy
    by_cases hyx : y = x
    · subst hyx
      exact Or.inr (dirsAlong_last f1 r y hd1)
    · rw [hframe1 (r ++ [y]) (sibling_not_above r x y hyx)]
      exact hfree y (List.mem_cons_of_mem _ hy)

theorem five_ordinary : ∀ x ∈ ["app", "data", "logs", "backups", "tmp"], OrdinaryName x := by
  intro x hx
  simp only [List.mem_cons, List.mem_singleton, List.mem_nil_iff, or_false] at hx
  rcases hx with h | h | h | h | h <;> subst h
  · exact ordinary_app
  · exact ordinary_data
  · exact ordinary_logs
  · exact ordinary_backups
  · exact ordinary_tmp

theorem five_short (r : List String) (hrne : r ≠ [])
    (hlen : ¬ PATH_MAX ≤ byteLen (rootedPath (r ++ ["backups"])).data) :
    ∀ x ∈ ["app", "data", "logs", "backups", "tmp"],
      ¬ PATH_MAX ≤ byteLen (rootedPath (r ++ [x])).data := by
  intro x hx
  rw [byteLen_rootedPath_snoc r _ hrne] at hlen ⊢
  have hb : byteLen "backups".data = 7 := by decide
  have hx7 : byteLen x.data ≤ 7 := by
    revert x
    decide
  rw [hb] at hlen
  omega

/-- The loop of `Create` over the six directories of a layout whose root is
absent with all below it, and whose names above the root are directories or
absent, reports no error. -/
theorem createDirs_layout_succeeds (m : Manager) (hdry : m.dryRun = false) (r : List String)
    (hroot : m.appRoot = rootedPath r) (hr : ∀ c ∈ r, OrdinaryName c) (hrne : r ≠ [])
    (fs : FileSystem) (out : String)
    (hlen : ¬ PATH_MAX ≤ byteLen (rootedPath (r ++ ["backups"])).data)
    (hfree : ∀ p, p <+: r → fs.lookup p = none ∨ fs.lookup p = some Node.dir)
    (hfresh : ∀ y, fs.lookup (r ++ [y]) = none) :
    (createDirs m [m.appRoot, m.AppDir, m.DataDir, m.LogsDir, m.BackupsDir, m.TmpDir]
      fs out).err = none := by
  have hlist : [m.appRoot, m.AppDir, m.DataDir, m.LogsDir, m.BackupsDir, m.TmpDir]
      = rootedPath r ::
          (["app", "data", "logs", "backups", "tmp"].map fun x => rootedPath (r ++ [x])) := by
    simp only [Manager.AppDir, Manager.DataDir, Manager.LogsDir, Manager.BackupsDir,
      Manager.TmpDir, hroot, List.map_cons, List.map_nil,
      Join_rootedPath r _ hr ordinary_app, Join_rootedPath r _ hr ordinary_data,
      Join_rootedPath r _ hr ordinary_logs, Join_rootedPath r _ hr ordinary_backups,
      Join_rootedPath r _ hr ordinary_tmp]
  rw [hlist]
  obtain ⟨f1, hmk⟩ := osMkdirAll_succeeds r hrne hr (byteLen_rootedPath_init r _ hlen) fs hfree
  obtain ⟨hd1, hframe1, _⟩ := osMkdirAll_ok_imp r hrne hr fs f1 (noLink_of_free fs _ hfree) hmk
  rw [createDirs_made m _ _ fs f1 out hdry hmk]
  apply createDirs_children_succeeds m hdry r hr _ f1 _ _ hd1
  · intro x _
    rw [hframe1 (r ++ [x]) (not_prefix_of_longer _ _ (by simp))]
    exact Or.inl (hfresh x)
  · intro x hx
    exact ⟨five_ordinary x hx, five_short r hrne hlen x hx⟩

/-- The log symbolic link of `Create`, under a home directory whose names and
`logs` below it are directories or absent, with no directory at the place of
the link and paths that are not too long: the function reports no error. -/
theorem createLogSymlink_succeeds (m : Manager) (hdry : m.dryRun = false) (envHome : String)
    (h : List String) (n : String) (henv : envHome ≠ "")
    (hjoin : Join [envHome, "logs"] = rootedPath (h ++ ["logs"])) (hname : m.appName = n)
    (hh : ∀ c ∈ h, OrdinaryName c) (hn : OrdinaryName n)
    (fs : FileSystem) (out : String)
    (hlen : ¬ PATH_MAX ≤ byteLen (rootedPath (h ++ ["logs"] ++ [n])).data)
    (ht : m.LogsDir ≠ "" ∧ '\x00' ∉ m.LogsDir.data ∧ ¬ PATH_MAX ≤ byteLen m.LogsDir.data)
    (hfree : ∀ p, p <+: h ++ ["logs"] → fs.lookup p = none ∨ fs.lookup p = some Node.dir)
    (hplace : fs.lookup (h ++ ["logs"] ++ [n]) ≠ some Node.dir) :
    (m.createLogSymlink envHome fs out).err = none := by
  have hlg : ∀ c ∈ h ++ ["logs"], OrdinaryName c := by
    intro c hc
    rcases List.mem_append.mp hc with e | e
    · exact hh c e
    · simp at e; subst e; exact ordinary_logs
  have hl : ∀ c ∈ h ++ ["logs"] ++ [n], OrdinaryName c := by
    intro c hc
    rcases List.mem_append.mp hc with e | e
    · exact hlg c e
    · simp at e; subst e; exact hn
  have hne : h ++ ["logs"] ++ [n] ≠ [] := by simp
  obtain ⟨f7, hmk⟩ := osMkdirAll_succeeds (h ++ ["logs"]) (by simp) hlg
    (byteLen_rootedPath_init _ n hlen) fs hfree
  obtain ⟨hd7, hframe7, _⟩ := osMkdirAll_ok_imp (h ++ ["logs"]) (by simp) hlg fs f7
    (noLink_of_free fs _ hfree) hmk
  have hsame : f7.lookup (h ++ ["logs"] ++ [n]) = fs.lookup (h ++ ["logs"] ++ [n]) :=
    hframe7 _ (not_prefix_of_longer _ _ (by simp))
  unfold Manager.createLogSymlink UserHomeDir
  rw [if_pos henv]
  simp only [hjoin, hname,
    Join_rootedPath (h ++ ["logs"]) n hlg hn, hdry, hmk, Bool.false_eq_true, if_false]
  rw [osLstat_of_dirs f7 _ n hl hlen hd7, hsame]
  cases hlk : fs.lookup (h ++ ["logs"] ++ [n]) with
  | none =>
    simp only
    rw [osSymlink_of_dirs f7 _ _ n hl hlen ht hd7 (by rw [hsame, hlk])]
  | some nd =>
    have hnd : nd ≠ Node.dir := by
      intro e
      rw [e] at hlk
      exact hplace hlk
    simp only
    rw [osRemove_of_dirs f7 _ n nd hl hlen hd7 (by rw [hsame, hlk]) hnd]
    simp only
    have hd8 : dirsAlong (f7.erase (h ++ ["logs"] ++ [n])) [] (h ++ ["logs"]) := by
      apply dirsAlong_congr f7 _ _ _ hd7
      intro p hp
      rw [lookup_erase f7 _ p hne, if_neg (prefix_ne_concat p _ n hp)]
    rw [osSymlink_of_dirs _ _ _ n hl hlen ht hd8 (by rw [lookup_erase f7 _ _ hne, if_pos rfl])]

theorem byteLen_rootedPath_sibling (h : List String) (a b : String)
    (hab : byteLen a.data = byteLen b.data) :
    byteLen (rootedPath (h ++ [a])).data = byteLen (rootedPath (h ++ [b])).data := by
  by_cases hne : h = []
  · subst hne
    rw [List.nil_append, List.nil_append, byteLen_rootedPath_single, byteLen_rootedPath_single,
      hab]
  · rw [byteLen_rootedPath_snoc h a hne, byteLen_rootedPath_snoc h b hne, hab]

/-- On a home directory that is ready for the layout of an application that
does not exist, `Create` reports no error. -/
theorem Create_succeeds (m : Manager) (hdry : m.dryRun = false) (envHome : String)
    (h : List String) (n : String) (henv : envHome ≠ "")
    (hjoin : Join [envHome, "logs"] = rootedPath (h ++ ["logs"]))
    (hroot : m.appRoot = rootedPath (h ++ ["apps"] ++ [n])) (hname : m.appName = n)
    (hh : ∀ c ∈ h, OrdinaryName c) (hn : OrdinaryName n) (fs : FileSystem)
    (hready : homeTakesLayout fs h n = true)
    (hnew : nothingAtOrBelow fs (h ++ ["apps"] ++ [n]) = true) :
    (m.Create envHome fs).err = none := by
  have hr := ordinary_layout_root h n hh hn
  have hrne : h ++ ["apps"] ++ [n] ≠ [] := by simp
  unfold homeTakesLayout at hready
  simp only [Bool.and_eq_true, List.all_eq_true, decide_eq_true_eq, List.mem_inits] at hready
  obtain ⟨⟨⟨⟨hhome, happs⟩, hlogs⟩, hplace⟩, hlenB⟩ := hready
  have e1 : h ++ ["logs", n] = h ++ ["logs"] ++ [n] := by simp
  have e2 : h ++ ["apps", n, "backups"] = h ++ ["apps"] ++ [n] ++ ["backups"] := by simp
  rw [e1] at hplace
  rw [e2] at hlenB
  have hlenB2 : ¬ PATH_MAX ≤ byteLen (rootedPath (h ++ ["apps"] ++ [n] ++ ["backups"])).data := by
    omega
  have hlenR := byteLen_rootedPath_init _ _ hlenB2
  have hfreeR : ∀ p, p <+: h ++ ["apps"] ++ [n] →
      fs.lookup p = none ∨ fs.lookup p = some Node.dir := by
    intro p hp
    rcases List.prefix_concat_iff.mp hp with e | e
    · rw [e]
      exact Or.inl (lookup_nothing fs _ _ hrne hnew (List.prefix_refl _))
    · rcases List.prefix_concat_iff.mp e with e3 | e3
      · rw [e3]; exact happs
      · exact Or.inr (hhome p e3)
  have hfresh : ∀ y, fs.lookup (h ++ ["apps"] ++ [n] ++ [y]) = none := fun y =>
    lookup_nothing fs _ _ hrne hnew (List.prefix_append _ _)
  have hfreshL : ∀ y, isLinkAt fs (h ++ ["apps"] ++ [n] ++ [y]) = false := fun y =>
    isLinkAt_false_of fs _ none (hfresh y) (by simp)
  have hlenL : ¬ PATH_MAX ≤ byteLen (rootedPath (h ++ ["logs"] ++ [n])).data := by
    rw [byteLen_rootedPath_snoc _ n (by simp),
      byteLen_rootedPath_sibling h "logs" "apps" (by decide),
      ← byteLen_rootedPath_snoc _ n (by simp)]
    exact hlenR
  have ht : m.LogsDir ≠ "" ∧ '\x00' ∉ m.LogsDir.data ∧ ¬ PATH_MAX ≤ byteLen m.LogsDir.data := by
    have e : m.LogsDir = rootedPath (h ++ ["apps"] ++ [n] ++ ["logs"]) := by
      simp only [Manager.LogsDir, hroot, Join_rootedPath _ _ hr ordinary_logs]
    rw [e]
    refine ⟨rootedPath_ne_empty _, rootedPath_no_nul _ ?_,
      five_short _ hrne hlenB2 "logs" (by decide)⟩
    intro c hc
    rcases List.mem_append.mp hc with e | e
    · exact hr c e
    · simp at e; subst e; exact ordinary_logs
  unfold Manager.Create
  simp only
  split
  · next f1 o1 err hc =>
    have h6 := createDirs_layout_succeeds m hdry _ hroot hr hrne fs
      (if m.verbose = true then
        "Creating app directory structure for: " ++ m.appName ++ "\n" else "")
      hlenB2 hfreeR hfresh
    rw [hc] at h6
    simp at h6
  · next f6 out6 hc =>
    have herr6 : (createDirs m
        [m.appRoot, m.AppDir, m.DataDir, m.LogsDir, m.BackupsDir, m.TmpDir] fs
        (if m.verbose = true then
          "Creating app directory structure for: " ++ m.appName ++ "\n" else "")).err
          = none := by
      rw [hc]
    have h6 := createDirs_layout m hdry _ hroot hr hrne fs _ (noLink_of_free fs _ hfreeR)
      hfreshL herr6
    rw [hc] at h6
    simp only at h6
    obtain ⟨hd6, _, _, hframe6⟩ := h6
    have hfreeL : ∀ p, p <+: h ++ ["logs"] →
        f6.lookup p = none ∨ f6.lookup p = some Node.dir := by
      intro p hp
      rcases List.prefix_concat_iff.mp hp with e | e
      · rw [hframe6 p
            (by
              rw [e, List.append_assoc, List.prefix_append_right_inj]
              simp [List.cons_prefix_cons])
            (by
              intro x _ e3
              have := congrArg List.length e3
              rw [e] at this
              simp at this), e]
        exact hlogs
      · by_cases hp0 : p = []
        · subst hp0
          exact Or.inr (lookup_root f6)
        · have := hd6 p (e.trans ((List.prefix_append h ["apps"]).trans
            (List.prefix_append _ [n]))) hp0
          exact Or.inr (by simpa using this)
    have hplace6 : f6.lookup (h ++ ["logs"] ++ [n]) ≠ some Node.dir := by
      rw [hframe6 _
        (by
          rw [List.append_assoc, List.append_assoc, List.prefix_append_right_inj]
          simp [List.cons_prefix_cons])
        (by
          intro x _ e3
          have := congrArg List.length e3
          simp at this)]
      exact hplace
    have h9 := createLogSymlink_succeeds m hdry envHome h n henv hjoin hname hh hn f6 out6 hlenL
      ht hfreeL hplace6
    split
    · next f2 o2 err hs =>
      rw [hs] at h9
      simp at h9
    · rfl

/-! ## Theorems: creating the layout -/

/-- C16 at a failing input: under `HOME=/home/u`, on a filesystem that holds
only the home directory, `Create` of the dry-run manager for `ghost` returns
nil and prints its `[DRY RUN]` lines, but the filesystem afterwards is not the
one before: the directory `/home/u/logs` has been made.  For the name
`../logs` the same call turns `Exists()` from false to true, and where
`/home/u/logs` is a regular file the dry-run call returns an error. -/
theorem create_dry_run_makes_central_logs_dir :
    NewManager "/home/u" "ghost" true false = (some managerGhostDryRun, none) ∧
    osStat fsHomeOnly "/home/u/logs" = none ∧
    managerGhostDryRun.Create "/home/u" fsHomeOnly
      = { fs := fsHomeOnly.insert ["home", "u", "logs"] Node.dir,
          stdout := "[DRY RUN] Would create directory: /home/u/apps/ghost\n[DRY RUN] Would create directory: /home/u/apps/ghost/app\n[DRY RUN] Would create directory: /home/u/apps/ghost/data\n[DRY RUN] Would create directory: /home/u/apps/ghost/logs\n[DRY RUN] Would create directory: /home/u/apps/ghost/backups\n[DRY RUN] Would create directory: /home/u/apps/ghost/tmp\n[DRY RUN] Would create symlink: /home/u/logs/ghost -> /home/u/apps/ghost/logs\n",
          err := none } ∧
    (managerGhostDryRun.Create "/home/u" fsHomeOnly).fs ≠ fsHomeOnly ∧
    osStat (managerGhostDryRun.Create "/home/u" fsHomeOnly).fs "/home/u/logs" = some true ∧
    NewManager "/home/u" "../logs" true false = (some managerUpLogsDryRun, none) ∧
    managerUpLogsDryRun.Exists (osStat fsHomeOnly) = false ∧
    managerUpLogsDryRun.Exists (osStat (managerUpLogsDryRun.Create "/home/u" fsHomeOnly).fs)
      = true ∧
    (managerGhostDryRun.Create "/home/u" fsLogsIsFile).err
      = some "failed to create central logs directory: mkdir /home/u/logs: not a directory" := by
  decide

/-- C17 at a failing input: under `HOME=/h`, where `/h/logs` is a symbolic
link to `/h/apps/logs`, the first `Create` for the application `logs` returns
nil, having removed the directory `/h/apps/logs/logs` that it had just made and
put a link to itself in its place; the second `Create` on the resulting
filesystem fails.  On the home directory `/home/u` that holds nothing else, the
second `Create` for `ghost` returns nil and leaves the filesystem as it was. -/
theorem create_twice_fails_with_linked_logs :
    NewManager "/h" "logs" false false = (some managerLogs, none) ∧
    managerLogs.Create "/h" fsLogsLinked
      = { fs := fsLogsLinkedCreated, stdout := "", err := none } ∧
    osStat fsLogsLinkedCreated managerLogs.LogsDir = none ∧
    (managerLogs.Create "/h" fsLogsLinkedCreated).err
      = some "failed to create directory /h/apps/logs/logs: mkdir /h/apps/logs/logs: file exists" ∧
    NewManager "/home/u" "ghost" false false = (some managerGhost, none) ∧
    managerGhost.Create "/home/u" fsHomeOnly
      = { fs := fsGhostCreated, stdout := "", err := none } ∧
    managerGhost.Create "/home/u" fsGhostCreated
      = { fs := fsGhostCreated, stdout := "", err := none } := by
  decide

/-! ## Theorems: validating a created layout -/

/-- C18 as stated fails: on the home directory `/home/u` that holds nothing
else the application `ghost` does not exist, `Create` returns nil, and the
`Validate` that follows returns an error, because no config file was written. -/
theorem validate_after_create_counterexample :
    NewManager "/home/u" "ghost" false false = (some managerGhost, none) ∧
    managerGhost.Exists (osStat fsHomeOnly) = false ∧
    (managerGhost.Create "/home/u" fsHomeOnly).err = none ∧
    managerGhost.Validate (osStat (managerGhost.Create "/home/u" fsHomeOnly).fs)
      = some "config file does not exist: /home/u/apps/ghost/.uberman.toml" ∧
    managerGhost.Validate (osStat (managerGhost.Create "/home/u" fsHomeOnly).fs) ≠ none := by
  decide

/-- With a symbolic link on the way the outcome can differ: under
`HOME=/home/u` whose `logs` is a link to `/home/u/apps/.uberman.toml`, the
application `.uberman.toml` does not exist, `Create` returns nil, and the log
link that it makes lands at the place of the config file, so that `Validate`
returns nil. -/
theorem validate_after_create_through_link :
    NewManager "/home/u" ".uberman.toml" false false = (some managerDotfile, none) ∧
    nothingAtOrBelow fsLogsToApp ["home", "u", "apps", ".uberman.toml"] = true ∧
    noLinkOnWay fsLogsToApp ["home", "u", "apps"] = true ∧
    noLinkOnWay fsLogsToApp ["home", "u", "logs"] = false ∧
    managerDotfile.Exists (osStat fsLogsToApp) = false ∧
    (managerDotfile.Create "/home/u" fsLogsToApp).err = none ∧
    managerDotfile.Validate (osStat (managerDotfile.Create "/home/u" fsLogsToApp).fs) = none := by
  decide

/-- C18, amended: for every application name that is one ordinary path element
(not empty, no slash, not `.` or `..`, no NUL byte, at most 255 bytes), every
absolute home directory whose cleaned path consists of ordinary names, and
every filesystem in which no symbolic link stands at the home directory, above
it, at `<home>/apps` or at `<home>/logs`, and in which nothing stands at
`<home>/apps/<name>` or below it: the application does not exist, and whenever
`Create` (not dry-run) returns nil, the `Validate` that follows at once returns
the error `config file does not exist: <AppRoot>/.uberman.toml`.  `Create`
does return nil when the home directory is ready for the layout: it and the
names above it are directories, `<home>/apps` and `<home>/logs` are directories
or absent, no directory stands at `<home>/logs/<name>` and
`<home>/apps/<name>/backups` is shorter than `PATH_MAX`. -/
theorem validate_after_create (envHome : String) (h : List String) (n : String)
    (verbose : Bool) (fs : FileSystem) (habs : IsAbs envHome = true)
    (hclean : Clean envHome = rootedPath h) (hh : ∀ c ∈ h, OrdinaryName c)
    (hn : OrdinaryName n)
    (hlinks : noLinkOnWay fs (h ++ ["apps"]) = true ∧ noLinkOnWay fs (h ++ ["logs"]) = true)
    (hnew : nothingAtOrBelow fs (h ++ ["apps", n]) = true) :
    ∃ m : Manager, NewManager envHome n false verbose = (some m, none) ∧
      m.ConfigFile = rootedPath (h ++ ["apps", n, ".uberman.toml"]) ∧
      m.Exists (osStat fs) = false ∧
      ((m.Create envHome fs).err = none →
        m.Validate (osStat (m.Create envHome fs).fs)
          = some ("config file does not exist: " ++ m.ConfigFile)) ∧
      (homeTakesLayout fs h n = true → (m.Create envHome fs).err = none) := by
  have hr := ordinary_layout_root h n hh hn
  have hrne : h ++ ["apps"] ++ [n] ≠ [] := by simp
  have e1 : h ++ ["apps", n] = h ++ ["apps"] ++ [n] := by simp
  have e2 : h ++ ["apps", n, ".uberman.toml"] = h ++ ["apps"] ++ [n] ++ [".uberman.toml"] := by
    simp
  rw [e1] at hnew
  rw [e2]
  have henv : envHome ≠ "" := by
    intro h0
    rw [h0] at habs
    simp [IsAbs] at habs
  have hjoin := Join_abs_child envHome h "logs" habs hclean hh ordinary_logs
  have hnm : NewManager envHome n false verbose
      = (some { appRoot := rootedPath (h ++ ["apps"] ++ [n]), appName := n, dryRun := false,
                verbose := verbose }, none) := by
    unfold NewManager UserHomeDir
    rw [if_pos henv]
    simp only [Join_abs_grandchild envHome h "apps" n habs hclean hh ordinary_apps hn, e1]
  refine ⟨_, hnm, ?_, ?_, ?_, ?_⟩
  · simp only [Manager.ConfigFile, Join_rootedPath _ _ hr ordinary_config]
  · have hlookup : fs.lookup (h ++ ["apps"] ++ [n]) = none :=
      lookup_nothing fs _ _ hrne hnew (List.prefix_refl _)
    have := osStat_absent fs (h ++ ["apps"]) n hr
      (fun p hp => noLinkOnWay_above fs _ p hlinks.1 hp) hlookup
    simp only [Manager.Exists, this]
  · intro herr
    obtain ⟨hd, hlenR, hch, hcfg⟩ := Create_ok_imp _ rfl envHome h n henv hjoin rfl rfl hh hn fs
      hlinks.1 hlinks.2 hnew herr
    have hall : ∀ (x : String), OrdinaryName x →
        ∀ c ∈ h ++ ["apps"] ++ [n] ++ [x], OrdinaryName c := by
      intro x hx c hc
      rcases List.mem_append.mp hc with e | e
      · exact hr c e
      · simp at e; subst e; exact hx
    have hroot := osStat_dir _ (h ++ ["apps"]) n hr hlenR (dirsAlong_init _ _ n hd)
      (dirsAlong_last _ _ n hd)
    have happ := osStat_dir _ _ "app" (hall _ ordinary_app) (hch "app" (by decide)).2 hd
      (hch "app" (by decide)).1
    have hdata := osStat_dir _ _ "data" (hall _ ordinary_data) (hch "data" (by decide)).2 hd
      (hch "data" (by decide)).1
    have hlogs := osStat_dir _ _ "logs" (hall _ ordinary_logs) (hch "logs" (by decide)).2 hd
      (hch "logs" (by decide)).1
    have hconfig := osStat_absent _ _ ".uberman.toml" (hall _ ordinary_config)
      (dirsAlong_noLink _ _ hd) hcfg
    simp only [Manager.Validate, validateDirs, Manager.AppDir, Manager.DataDir,
      Manager.LogsDir, Manager.ConfigFile, Join_rootedPath _ _ hr ordinary_app,
      Join_rootedPath _ _ hr ordinary_data, Join_rootedPath _ _ hr ordinary_logs,
      Join_rootedPath _ _ hr ordinary_config, hroot, happ, hdata, hlogs, hconfig,
      Bool.not_true, Bool.false_eq_true, if_false]
  · intro hready
    exact Create_succeeds _ rfl envHome h n henv hjoin rfl rfl hh hn fs hready hnew

/-- C18 on a home directory that already holds `apps` and `logs`, with the
created layout and the log link of another application: the home directory
`/home/u` is ready for the layout of `wiki`, `Create` returns nil, and
`Validate` returns the error about the config file. -/
theorem validate_after_create_witness :
    IsAbs "/home/u" = true ∧ Clean "/home/u" = rootedPath ["home", "u"] ∧
    osStat fsGhostCreated "/home/u/apps" = some true ∧
    osStat fsGhostCreated "/home/u/logs" = some true ∧
    homeTakesLayout fsGhostCreated ["home", "u"] "wiki" = true ∧
    NewManager "/home/u" "wiki" false false = (some managerWiki, none) ∧
    managerWiki.Exists (osStat fsGhostCreated) = false ∧
    (managerWiki.Create "/home/u" fsGhostCreated).err = none ∧
    managerWiki.Validate (osStat (managerWiki.Create "/home/u" fsGhostCreated).fs)
      = some "config file does not exist: /home/u/apps/wiki/.uberman.toml" := by
  obtain ⟨m, hm, hc, he, hv, hs⟩ :=
    validate_after_create "/home/u" ["home", "u"] "wiki" false fsGhostCreated (by decide)
      (by decide)
      (by
        intro c hc
        simp only [List.mem_cons, List.mem_singleton, List.mem_nil_iff, or_false] at hc
        rcases hc with e | e <;> subst e
        · exact ordinary_home
        · exact ordinary_u)
      (by unfold OrdinaryName Plain; decide)
      ⟨by decide, by decide⟩ (by decide)
  have hnm : NewManager "/home/u" "wiki" false false = (some managerWiki, none) := by decide
  have e : m = managerWiki := by
    rw [hnm] at hm
    injection hm with h1 _
    injection h1 with h1
    exact h1.symm
  subst e
  have hready : homeTakesLayout fsGhostCreated ["home", "u"] "wiki" = true := by decide
  refine ⟨by decide, by decide, by decide, by decide, hready, hnm, he, hs hready, ?_⟩
  rw [hv (hs hready), hc]
  decide

/-! ## Theorems: the kind of entry that the manifest lookup returns -/

theorem findLoop_found (statOk : String → Bool) (appName : String) (ps : List String)
    (p : String) (h : findLoop statOk appName ps = (p, none)) : p ∈ ps ∧ statOk p = true := by
  induction ps with
  | nil => simp [findLoop] at h
  | cons q qs ih =>
    cases hq : statOk q with
    | true =>
      simp only [findLoop, hq, if_true, Prod.mk.injEq, and_true] at h
      rw [← h]
      exact ⟨List.mem_cons_self q qs, hq⟩
    | false =>
      simp only [findLoop, hq, Bool.false_eq_true, if_false] at h
      exact ⟨List.mem_cons_of_mem q (ih h).1, (ih h).2⟩

theorem findLoop_first (statOk : String → Bool) (appName : String) (pre : List String)
    (c : String) (post : List String) (hpre : ∀ q ∈ pre, statOk q = false)
    (hc : statOk c = true) : findLoop statOk appName (pre ++ c :: post) = (c, none) := by
  induction pre with
  | nil => simp [findLoop, hc]
  | cons q qs ih =>
    have hq : statOk q = false := hpre q (List.mem_cons_self q qs)
    simp only [List.cons_append, findLoop, hq, Bool.false_eq_true, if_false]
    exact ih (fun r hr => hpre r (List.mem_cons_of_mem q hr))

/-- C21 as stated fails: where the installed-app candidate of `ghost` is a
directory and the flat project candidate is a regular file, `FindManifest`
returns the directory and does not go on to the regular file. -/
theorem findManifest_returns_directory_counterexample :
    osStat fsManifestIsDir "/home/u/apps/ghost/.uberman.toml" = some true ∧
    osStat fsManifestIsDir "apps/ghost.toml" = some false ∧
    FindManifest "/home/u" (statSucceeds fsManifestIsDir) "ghost"
      = ("/home/u/apps/ghost/.uberman.toml", none) := by
  decide

/-- C21, amended: every path that `FindManifest` returns is one of the four
candidates and exists in the sense that `os.Stat` succeeds on it, whatever the
kind of entry; the first candidate on which `os.Stat` succeeds is returned,
also when it is a directory (`isDir` true), and is not skipped in favour of a
later one. -/
theorem findManifest_returns_first_entry (envHome : String) (hhome : envHome ≠ "")
    (stat : String → Option Bool) (appName : String) :
    (∀ p, FindManifest envHome (fun q => (stat q).isSome) appName = (p, none) →
      p ∈ searchPaths envHome appName ∧ stat p ≠ none) ∧
    (∀ (pre : List String) (c : String) (post : List String) (isDir : Bool),
      searchPaths envHome appName = pre ++ c :: post →
      (∀ q ∈ pre, stat q = none) → stat c = some isDir →
      FindManifest envHome (fun q => (stat q).isSome) appName = (c, none)) := by
  rw [FindManifest_eq envHome hhome]
  constructor
  · intro p h
    obtain ⟨h1, h2⟩ := findLoop_found _ _ _ _ h
    refine ⟨h1, ?_⟩
    intro e
    rw [e] at h2
    cases h2
  · intro pre c post isDir hsplit hpre hc
    rw [hsplit]
    apply findLoop_first
    · intro q hq
      rw [hpre q hq]
      rfl
    · rw [hc]
      rfl

/-- C21, amended, on `ghost` with a directory at the installed-app candidate:
the directory is returned, and `os.Stat` succeeds on it. -/
theorem findManifest_returns_first_entry_witness :
    FindManifest "/home/u" (fun q => (osStat fsManifestIsDir q).isSome) "ghost"
      = ("/home/u/apps/ghost/.uberman.toml", none) ∧
    osStat fsManifestIsDir "/home/u/apps/ghost/.uberman.toml" ≠ none :=
  ⟨(findManifest_returns_first_entry "/home/u" (by decide) (osStat fsManifestIsDir)
      "ghost").2 [] "/home/u/apps/ghost/.uberman.toml"
      ["apps/ghost.toml", "apps/custom/ghost.toml", "/home/u/.uberman/apps/ghost.toml"] true
      (by decide) (by simp) (by decide),
   ((findManifest_returns_first_entry "/home/u" (by decide) (osStat fsManifestIsDir)
      "ghost").1 "/home/u/apps/ghost/.uberman.toml" (by decide)).2⟩

/-- C27 at its two witnesses: with the single manifest file
`apps/examples/ghost/app.toml` under the working directory, `FindManifest` for
`ghost` fails with the not-found error, and so it does for `myapp` with the
single file `apps/custom/myapp/app.toml`: neither location is among the four
candidates. -/
theorem findManifest_misses_nested_manifests :
    osStat fsExamplesGhost "apps/examples/ghost/app.toml" = some false ∧
    searchPaths "/home/u" "ghost"
      = ["/home/u/apps/ghost/.uberman.toml", "apps/ghost.toml", "apps/custom/ghost.toml",
         "/home/u/.uberman/apps/ghost.toml"] ∧
    FindManifest "/home/u" (statSucceeds fsExamplesGhost) "ghost"
      = ("", some "manifest not found for app: ghost") ∧
    osStat fsCustomMyapp "apps/custom/myapp/app.toml" = some false ∧
    searchPaths "/home/u" "myapp"
      = ["/home/u/apps/myapp/.uberman.toml", "apps/myapp.toml", "apps/custom/myapp.toml",
         "/home/u/.uberman/apps/myapp.toml"] ∧
    FindManifest "/home/u" (statSucceeds fsCustomMyapp) "myapp"
      = ("", some "manifest not found for app: myapp") := by
  decide

/-! ## Theorems: length of database names, the fields that validation reads,
names with invalid characters -/

/-- C25 at a failing input: a user name and an application name of 32
characters each, both of the shapes that the test draws, give a database name
of 65 bytes, one more than the limit; in general the name has one byte more
than the two names together. -/
theorem generateDatabaseName_exceeds_limit :
    isTestUserName userName32 = true ∧ isTestAppName appName32 = true ∧
    GenerateDatabaseName userName32 appName32
      = "abcdefghijklmnopqrstuvwxyz012345_my-application-with-a-long-name1" ∧
    (GenerateDatabaseName userName32 appName32).length = 65 ∧
    byteLen (GenerateDatabaseName userName32 appName32).data = 65 ∧
    ¬ byteLen (GenerateDatabaseName userName32 appName32).data ≤ 64 ∧
    (∀ user app : String,
      byteLen (GenerateDatabaseName user app).data = byteLen user.data + 1 + byteLen app.data) := by
  refine ⟨by decide, by decide, by decide, by decide, by decide, by decide, ?_⟩
  intro user app
  have h : (GenerateDatabaseName user app).data = user.data ++ '_' :: app.data := by
    simp [GenerateDatabaseName, Sprintf, sprintfL]
  have h1 : Char.utf8Size '_' = 1 := by decide
  rw [h]
  simp only [byteLen, List.map_append, List.map_cons, List.sum_append, List.sum_cons, h1]
  omega

/-- The outcome of `Validate` is determined by the five fields that its body
reads: name, type, runtime language, web backend and web port. -/
theorem validate_reads_five_fields (m m2 : AppManifest)
    (h1 : m2.App.Name = m.App.Name) (h2 : m2.App.Typ = m.App.Typ)
    (h3 : m2.Runtime.Language = m.Runtime.Language) (h4 : m2.Web.Backend = m.Web.Backend)
    (h5 : m2.Web.Port = m.Web.Port) : m2.Validate = m.Validate := by
  unfold AppManifest.Validate
  rw [h1, h2, h3, h4, h5]

/-- C28 at failing inputs: for each of the twelve characters that the test
calls invalid, the manifest of the test whose name is `my`, the character,
`app` is accepted by `Validate`; for instance the name `my/app`. -/
theorem validate_accepts_invalid_name_characters :
    (∀ c ∈ invalidNameChars,
      c ∈ (manifestNamed ("my" ++ ⟨[c]⟩ ++ "app")).App.Name.data ∧
      (manifestNamed ("my" ++ ⟨[c]⟩ ++ "app")).Validate = none) ∧
    (manifestNamed "my/app").Validate = none := by
  decide

/-! ## Theorems: setting a backend -/

theorem invalid_backend_message (t : String) :
    Sprintf "invalid backend type: %s (must be 'apache' or 'http')" [t]
      = "invalid backend type: " ++ t ++ " (must be 'apache' or 'http')" := by
  apply String.ext
  simp [Sprintf, sprintfL]

theorem failed_ne_invalid (e out msg : String) (h : msg.data.head? = some 'i') :
    "failed to set backend: " ++ e ++ "\nOutput: " ++ out ≠ msg := by
  intro heq
  rw [← heq] at h
  simp at h

/-- C23: `SetBackend` returns the invalid-type error exactly for a type that is
neither `apache` nor `http`, and then nothing has been printed and no command
has been run; in dry-run mode it returns nil for both valid types, whatever
path, domain and port, and runs no command; and in dry-run mode, as for an
invalid type, the whole outcome is the same whatever the external command
would answer, so repeated calls give the same result. -/
theorem setBackend_invalid_type_iff (m : BackendManager)
    (run : String → List String → String × Option String) (b : Backend) :
    ((m.SetBackend run b).err
        = some ("invalid backend type: " ++ b.Typ ++ " (must be 'apache' or 'http')")
      ↔ (b.Typ ≠ "apache" ∧ b.Typ ≠ "http")) ∧
    ((b.Typ ≠ "apache" ∧ b.Typ ≠ "http") →
      (m.SetBackend run b).stdout = "" ∧ (m.SetBackend run b).commands = []) ∧
    (m.dryRun = true → (b.Typ = "apache" ∨ b.Typ = "http") →
      (m.SetBackend run b).err = none ∧ (m.SetBackend run b).commands = []) ∧
    ((m.dryRun = true ∨ (b.Typ ≠ "apache" ∧ b.Typ ≠ "http")) →
      ∀ run2 : String → List String → String × Option String,
        m.SetBackend run2 b = m.SetBackend run b) := by
  by_cases ha : b.Typ = "apache"
  · have hne : ("apache" : String) ≠ "http" := by decide
    cases hd : m.dryRun with
    | true => simp [BackendManager.SetBackend, ha, hd]
    | false =>
      simp only [BackendManager.SetBackend, ha, hd, if_true, Bool.false_eq_true, if_false]
      split
      · rename_i output err _
        simp
        exact failed_ne_invalid err output _ (by decide)
      · simp
  · by_cases hh : b.Typ = "http"
    · have hne : ("http" : String) ≠ "apache" := by decide
      cases hd : m.dryRun with
      | true => simp [BackendManager.SetBackend, hh, hd, hne]
      | false =>
        simp only [BackendManager.SetBackend, hh, hd, hne, if_true, Bool.false_eq_true,
          if_false]
        split
        · rename_i output err _
          simp
          exact failed_ne_invalid err output _ (by decide)
        · simp
    · simp [BackendManager.SetBackend, ha, hh, invalid_backend_message]

/-- C23 on an http backend with port 0 in dry-run mode and on a backend of type
`nginx`: the first is accepted and only reported, the second is rejected with
the invalid-type error whether the command would succeed or fail. -/
theorem setBackend_invalid_type_iff_witness :
    ((⟨true, false⟩ : BackendManager).SetBackend runFails backendHttpZero).err = none ∧
    ((⟨true, false⟩ : BackendManager).SetBackend runFails backendHttpZero).commands = [] ∧
    ((⟨true, false⟩ : BackendManager).SetBackend runFails backendHttpZero).stdout
      = "[DRY RUN] Would execute: uberspace web backend set / --http --port 0\n" ∧
    ((⟨false, true⟩ : BackendManager).SetBackend runSucceeds backendNginx).err
      = some "invalid backend type: nginx (must be 'apache' or 'http')" ∧
    (⟨false, true⟩ : BackendManager).SetBackend runSucceeds backendNginx
      = (⟨false, true⟩ : BackendManager).SetBackend runFails backendNginx :=
  ⟨((setBackend_invalid_type_iff ⟨true, false⟩ runFails backendHttpZero).2.2.1 rfl
      (Or.inr rfl)).1,
   ((setBackend_invalid_type_iff ⟨true, false⟩ runFails backendHttpZero).2.2.1 rfl
      (Or.inr rfl)).2,
   by decide,
   (setBackend_invalid_type_iff ⟨false, true⟩ runSucceeds backendNginx).1.mpr (by decide),
   (setBackend_invalid_type_iff ⟨false, true⟩ runFails backendNginx).2.2.2
      (Or.inr (by decide)) runSucceeds⟩

/-! ## Theorems: finding a port -/

/-- The scan of a backend line never stores a port. -/
theorem sscanfBackendPort_fails (str : String) : ∃ e, sscanfBackendPort str = .error e := by
  unfold sscanfBackendPort
  cases h1 : scanSkipSpace str.data with
  | error e => exact ⟨e, rfl⟩
  | ok rest =>
    dsimp only
    cases h2 : scanSkipSpace rest with
    | error e => exact ⟨e, rfl⟩
    | ok rest2 =>
      cases rest2 with
      | nil => exact ⟨_, rfl⟩
      | cons c cs => exact ⟨_, rfl⟩

theorem usedPorts_eq_nil (backends : List String) : usedPorts backends = [] := by
  unfold usedPorts
  apply List.filterMap_eq_nil_iff.mpr
  intro b _
  obtain ⟨e, he⟩ := sscanfBackendPort_fails b
  rw [he]

theorem findPortLoop_nil (last : Int) (fuel : Nat) (port : Int) :
    findPortLoop [] last (fuel + 1) port = if port ≤ last then some port else none := by
  simp [findPortLoop]

/-- What `FindAvailablePort` returns when the listing succeeds: the lower end
of the clamped range, and the error when that range is empty; the lines of
the listing do not matter. -/
theorem FindAvailablePort_eq (m : BackendManager)
    (run : String → List String → String × Option String) (start last : Int)
    (output : String) (hrun : run "uberspace" ["web", "backend", "list"] = (output, none)) :
    m.FindAvailablePort run start last
      = if max start 1024 ≤ min last 65535 then (max start 1024, none)
        else (0, some ("no available ports in range " ++ formatInt (max start 1024) ++ "-"
          ++ formatInt (min last 65535))) := by
  have hs : (if start < 1024 then (1024 : Int) else start) = max start 1024 := by
    split <;> omega
  have hl : (if last > 65535 then (65535 : Int) else last) = min last 65535 := by
    split <;> omega
  unfold BackendManager.FindAvailablePort BackendManager.ListBackends
  simp only [hrun, usedPorts_eq_nil, hs, hl]
  by_cases h : max start 1024 ≤ min last 65535
  · obtain ⟨k, hk⟩ : ∃ k, (min last 65535 - max start 1024 + 1).toNat = k + 1 :=
      ⟨(min last 65535 - max start 1024).toNat, by omega⟩
    rw [hk, findPortLoop_nil, if_pos h, if_pos h]
  · have hk : (min last 65535 - max start 1024 + 1).toNat = 0 := by omega
    rw [hk, if_neg h]
    rfl

theorem listsHttpPort_1024 : listsHttpPort ["/ => http:1024"] 1024 :=
  ⟨"/", by decide, by decide⟩

theorem portFree_1025 : portFree ["/ => http:1024"] 1025 := by
  rintro ⟨path, _, hmem⟩
  have h : path ++ " => http:" ++ formatInt 1025 = "/ => http:1024" := by
    simpa using hmem
  have hf : formatInt 1025 = "1025" := by decide
  rw [hf] at h
  have hd := congrArg (fun s : String => s.data.getLast?) h
  have e1 : ((path ++ " => http:" ++ "1025").data).getLast? = some '5' := by
    simp
  have e2 : ("/ => http:1024".data).getLast? = some '4' := by decide
  simp only [e1, e2] at hd
  exact absurd hd (by decide)

/-- C24 at a failing input: with the listing `/ => http:1024` and the range
1024 to 1024, the one port of the clamped range is used by a listed backend,
so no port of the range is free, yet `FindAvailablePort` returns 1024 and no
error.  What does hold for every listing: a returned port lies in the clamped
range, and the error `no available ports in range` comes exactly when the
clamped range is empty. -/
theorem findAvailablePort_full_range_returns_port :
    (⟨false, false⟩ : BackendManager).ListBackends runListsPort1024
      = (["/ => http:1024"], none) ∧
    (∀ p : Int, 1024 ≤ p → p ≤ 1024 → ¬ portFree ["/ => http:1024"] p) ∧
    (⟨false, false⟩ : BackendManager).FindAvailablePort runListsPort1024 1024 1024
      = (1024, none) ∧
    (∀ (m : BackendManager) (run : String → List String → String × Option String)
        (start last p : Int), m.FindAvailablePort run start last = (p, none) →
      max start 1024 ≤ p ∧ p ≤ min last 65535 ∧ start ≤ p ∧ p ≤ last ∧
        1024 ≤ p ∧ p ≤ 65535) ∧
    (∀ (m : BackendManager) (run : String → List String → String × Option String)
        (start last : Int) (output : String),
      run "uberspace" ["web", "backend", "list"] = (output, none) →
      ((m.FindAvailablePort run start last).2
          = some ("no available ports in range " ++ formatInt (max start 1024) ++ "-"
              ++ formatInt (min last 65535))
        ↔ ¬ max start 1024 ≤ min last 65535)) := by
  refine ⟨by decide, ?_, ?_, ?_, ?_⟩
  · intro p h1 h2 hfree
    have hp : p = 1024 := by omega
    rw [hp] at hfree
    exact hfree listsHttpPort_1024
  · rw [FindAvailablePort_eq _ runListsPort1024 1024 1024 "/ => http:1024\n" rfl]
    decide
  · intro m run start last p h
    rcases hrun : run "uberspace" ["web", "backend", "list"] with ⟨output, _ | err⟩
    · rw [FindAvailablePort_eq m run start last output hrun] at h
      by_cases hr : max start 1024 ≤ min last 65535
      · rw [if_pos hr] at h
        have hp : max start 1024 = p := (Prod.mk.injEq _ _ _ _ ▸ h).1
        omega
      · rw [if_neg hr] at h
        cases h
    · simp [BackendManager.FindAvailablePort, BackendManager.ListBackends, hrun] at h
  · intro m run start last output hrun
    rw [FindAvailablePort_eq m run start last output hrun]
    by_cases hr : max start 1024 ≤ min last 65535
    · simp [hr]
    · simp [hr]

/-- C29 at a failing input: with the listing `/ => http:1024` and the range
1024 to 1030, `FindAvailablePort` returns 1024, the port of the listed http
backend, although 1025 is free.  The scan of a backend line never stores a
port, so for every listing the lower end of the clamped range is returned
whenever that range is not empty. -/
theorem findAvailablePort_returns_used_port :
    (⟨false, false⟩ : BackendManager).ListBackends runListsPort1024
      = (["/ => http:1024"], none) ∧
    listsHttpPort ["/ => http:1024"] 1024 ∧
    portFree ["/ => http:1024"] 1025 ∧
    sscanfBackendPort "/ => http:1024" = .error (ScanFailure.badVerb '*') ∧
    (⟨false, false⟩ : BackendManager).FindAvailablePort runListsPort1024 1024 1030
      = (1024, none) ∧
    (∀ backends : List String, usedPorts backends = []) ∧
    (∀ (m : BackendManager) (run : String → List String → String × Option String)
        (start last : Int) (output : String),
      run "uberspace" ["web", "backend", "list"] = (output, none) →
      max start 1024 ≤ min last 65535 →
      m.FindAvailablePort run start last = (max start 1024, none)) := by
  refine ⟨by decide, listsHttpPort_1024, portFree_1025, rfl, ?_, usedPorts_eq_nil, ?_⟩
  · rw [FindAvailablePort_eq _ runListsPort1024 1024 1030 "/ => http:1024\n" rfl]
    decide
  · intro m run start last output hrun hr
    rw [FindAvailablePort_eq m run start last output hrun, if_pos hr]

/-! ## Theorems: the database step of install -/

/-- What `runInstall` records about databases once the steps before the
database step have succeeded. -/
theorem runInstall_databases_of_reached (dryRun verbose : Bool) (envHome envUser : String)
    (fs : FileSystem) (readFile : String → Except String String)
    (unmarshal : String → Except String AppManifest)
    (run : String → List String → String × Option String) (appName : String)
    (manifest : AppManifest)
    (h : reachesDatabaseStep dryRun verbose envHome fs readFile unmarshal run appName manifest) :
    (runInstall dryRun verbose envHome envUser fs readFile unmarshal run appName).databases
      = if manifest.Database.Required then [chosenDatabaseName manifest envUser appName]
        else [] := by
  obtain ⟨path, dm, h1, h2, h3, h4, h5, h6, h7⟩ := h
  rcases hc : dm.Create envHome fs with ⟨fs1, out1, e1⟩
  rw [hc] at h6
  simp only at h6
  subst h6
  rcases hs : (RuntimeManager.mk dryRun verbose).SetVersion run manifest.Runtime.Language
    manifest.Runtime.Version with ⟨out2, ran2, e2⟩
  rw [hs] at h7
  simp only at h7
  subst h7
  unfold runInstall
  simp only [h1, h2, h3, h4, h5, hc, hs, Bool.false_eq_true, if_false]
  by_cases hr : manifest.Database.Required = true
  · simp only [hr, if_true]
    have hname : (if manifest.Database.Name = "" then GenerateDatabaseName envUser appName
        else manifest.Database.Name) = chosenDatabaseName manifest envUser appName := by
      unfold chosenDatabaseName
      by_cases hn : manifest.Database.Name = "" <;> simp [hn]
    rw [hname]
    rcases hd : (MySQLManager.mk dryRun verbose).CreateDatabase run
      (chosenDatabaseName manifest envUser appName) with ⟨out3, ran3, _ | e3⟩ <;> rfl
  · simp only [hr, if_false]
    simp

/-- When a step before the database step fails, `CreateDatabase` is not called. -/
theorem runInstall_databases_of_not_reached (dryRun verbose : Bool) (envHome envUser : String)
    (fs : FileSystem) (readFile : String → Except String String)
    (unmarshal : String → Except String AppManifest)
    (run : String → List String → String × Option String) (appName : String)
    (h : ¬ ∃ manifest,
      reachesDatabaseStep dryRun verbose envHome fs readFile unmarshal run appName manifest) :
    (runInstall dryRun verbose envHome envUser fs readFile unmarshal run appName).databases
      = [] := by
  rcases hf : FindManifest envHome (statSucceeds fs) appName with ⟨path, _ | err⟩
  swap
  · simp [runInstall, hf]
  rcases hl : LoadManifest readFile unmarshal path with ⟨_ | manifest, _ | err⟩
  · simp [runInstall, hf, hl]
  · simp [runInstall, hf, hl]
  swap
  · simp [runInstall, hf, hl]
  cases hv : manifest.Validate with
  | some err => simp [runInstall, hf, hl, hv]
  | none =>
    rcases hn : NewManager envHome appName dryRun verbose with ⟨_ | dm, _ | err⟩
    · simp [runInstall, hf, hl, hv, hn]
    · simp [runInstall, hf, hl, hv, hn]
    swap
    · simp [runInstall, hf, hl, hv, hn]
    cases he : dm.Exists (osStat fs) with
    | true => simp [runInstall, hf, hl, hv, hn, he]
    | false =>
      rcases hc : dm.Create envHome fs with ⟨fs1, out1, _ | e1⟩
      swap
      · simp [runInstall, hf, hl, hv, hn, he, hc]
      rcases hs : (RuntimeManager.mk dryRun verbose).SetVersion run manifest.Runtime.Language
        manifest.Runtime.Version with ⟨out2, ran2, _ | e2⟩
      swap
      · simp [runInstall, hf, hl, hv, hn, he, hc, hs]
      exact absurd ⟨manifest, path, dm, hf, hl, hv, hn, he, by rw [hc], by rw [hs]⟩ h

theorem createDatabase_commands (verbose : Bool)
    (run : String → List String → String × Option String) (name : String) :
    ((MySQLManager.mk false verbose).CreateDatabase run name).commands
      = [("mysql", ["-e", createDatabaseStatement name])] := by
  unfold MySQLManager.CreateDatabase
  simp only [Bool.false_eq_true, if_false]
  split <;> rfl

theorem runInstall_commands_of_reached (verbose : Bool) (envHome envUser : String)
    (fs : FileSystem) (readFile : String → Except String String)
    (unmarshal : String → Except String AppManifest)
    (run : String → List String → String × Option String) (appName : String)
    (manifest : AppManifest)
    (h : reachesDatabaseStep false verbose envHome fs readFile unmarshal run appName manifest)
    (hr : manifest.Database.Required = true) :
    ("mysql", ["-e", createDatabaseStatement (chosenDatabaseName manifest envUser appName)])
      ∈ (runInstall false verbose envHome envUser fs readFile unmarshal run appName).commands := by
  obtain ⟨path, dm, h1, h2, h3, h4, h5, h6, h7⟩ := h
  rcases hc : dm.Create envHome fs with ⟨fs1, out1, e1⟩
  rw [hc] at h6
  simp only at h6
  subst h6
  rcases hs : (RuntimeManager.mk false verbose).SetVersion run manifest.Runtime.Language
    manifest.Runtime.Version with ⟨out2, ran2, e2⟩
  rw [hs] at h7
  simp only at h7
  subst h7
  have hname : (if manifest.Database.Name = "" then GenerateDatabaseName envUser appName
      else manifest.Database.Name) = chosenDatabaseName manifest envUser appName := by
    unfold chosenDatabaseName
    by_cases hn : manifest.Database.Name = "" <;> simp [hn]
  have hcmd := createDatabase_commands verbose run (chosenDatabaseName manifest envUser appName)
  unfold runInstall
  simp only [h1, h2, h3, h4, h5, hc, hs, hr, hname, Bool.false_eq_true, if_false, if_true]
  rcases hd : (MySQLManager.mk false verbose).CreateDatabase run
    (chosenDatabaseName manifest envUser appName) with ⟨out3, ran3, _ | e3⟩
  · rw [hd] at hcmd
    simp only at hcmd
    simp [hcmd]
  · rw [hd] at hcmd
    simp only at hcmd
    simp [hcmd]

/-- C22 as stated fails: the manifest of `blog` is valid and requires a
database, but the application is already installed, so `install` returns
`app already exists at: /home/u/apps/blog`, runs no command and does not call
`CreateDatabase`. -/
theorem install_skips_required_database_counterexample :
    manifestBlog.Validate = none ∧ manifestBlog.Database.Required = true ∧
    LoadManifest readBlog unmarshalBlog "apps/blog.toml" = (some manifestBlog, none) ∧
    runInstall false false "/home/u" "alice" fsBlogInstalled readBlog unmarshalBlog
        runSucceeds "blog"
      = { fs := fsBlogInstalled, stdout := "", commands := [], databases := [],
          err := some "app already exists at: /home/u/apps/blog" } := by
  decide

/-- C22, amended: when the install of an application reaches its database
step, that is, the manifest is found, loaded and valid, the directory manager
is made, the application does not exist yet, and the layout and the runtime
version are set without error, then `CreateDatabase` is called if and only if
the manifest's `Required` flag is true, once, with the manifest's explicit
database name when that is non-empty and with
`GenerateDatabaseName($USER, appName)` otherwise, and outside dry-run mode the
`mysql` command for that name is run; when one of the steps before fails,
`CreateDatabase` is not called, whatever the flag. -/
theorem install_creates_database_iff_required (dryRun verbose : Bool)
    (envHome envUser : String) (fs : FileSystem) (readFile : String → Except String String)
    (unmarshal : String → Except String AppManifest)
    (run : String → List String → String × Option String) (appName : String) :
    (∀ manifest : AppManifest,
      reachesDatabaseStep dryRun verbose envHome fs readFile unmarshal run appName manifest →
      ((runInstall dryRun verbose envHome envUser fs readFile unmarshal run appName).databases
          ≠ [] ↔ manifest.Database.Required = true) ∧
      (manifest.Database.Required = true →
        (runInstall dryRun verbose envHome envUser fs readFile unmarshal run appName).databases
          = [chosenDatabaseName manifest envUser appName] ∧
        (manifest.Database.Name ≠ "" →
          chosenDatabaseName manifest envUser appName = manifest.Database.Name) ∧
        (manifest.Database.Name = "" →
          chosenDatabaseName manifest envUser appName
            = GenerateDatabaseName envUser appName) ∧
        (dryRun = false →
          ("mysql",
            ["-e", createDatabaseStatement (chosenDatabaseName manifest envUser appName)])
            ∈ (runInstall dryRun verbose envHome envUser fs readFile unmarshal run
                appName).commands))) ∧
    ((¬ ∃ manifest,
        reachesDatabaseStep dryRun verbose envHome fs readFile unmarshal run appName manifest) →
      (runInstall dryRun verbose envHome envUser fs readFile unmarshal run appName).databases
        = []) := by
  constructor
  · intro manifest h
    have hdb := runInstall_databases_of_reached dryRun verbose envHome envUser fs readFile
      unmarshal run appName manifest h
    constructor
    · rw [hdb]
      by_cases hr : manifest.Database.Required = true <;> simp [hr]
    · intro hr
      refine ⟨by rw [hdb, if_pos hr], ?_, ?_, ?_⟩
      · intro hn
        simp [chosenDatabaseName, hn]
      · intro hn
        simp [chosenDatabaseName, hn]
      · intro hdry
        subst hdry
        exact runInstall_commands_of_reached verbose envHome envUser fs readFile unmarshal run
          appName manifest h hr
  · exact runInstall_databases_of_not_reached dryRun verbose envHome envUser fs readFile
      unmarshal run appName

theorem reaches_blog :
    reachesDatabaseStep false false "/home/u" fsManifestsOnly readBlog unmarshalBlog
      runSucceeds "blog" manifestBlog :=
  ⟨"apps/blog.toml", ⟨"/home/u/apps/blog", "blog", false, false⟩, by decide, by decide,
    by decide, by decide, by decide, by decide, by decide⟩

theorem reaches_shop :
    reachesDatabaseStep false false "/home/u" fsManifestsOnly readBlog unmarshalShop
      runSucceeds "shop" manifestShop :=
  ⟨"apps/shop.toml", ⟨"/home/u/apps/shop", "shop", false, false⟩, by decide, by decide,
    by decide, by decide, by decide, by decide, by decide⟩

/-- C22, amended, on two installs by the user `alice` into an empty home
directory: for `blog`, whose manifest names no database, `CreateDatabase` is
called with `alice_blog`; for `shop`, whose manifest names `shop_db`, it is
called with `shop_db`. -/
theorem install_creates_database_iff_required_witness :
    (runInstall false false "/home/u" "alice" fsManifestsOnly readBlog unmarshalBlog
        runSucceeds "blog").databases = ["alice_blog"] ∧
    (runInstall false false "/home/u" "alice" fsManifestsOnly readBlog unmarshalShop
        runSucceeds "shop").databases = ["shop_db"] :=
  ⟨by
    rw [((install_creates_database_iff_required false false "/home/u" "alice" fsManifestsOnly
      readBlog unmarshalBlog runSucceeds "blog").1 manifestBlog reaches_blog).2 rfl |>.1]
    decide,
   by
    rw [((install_creates_database_iff_required false false "/home/u" "alice" fsManifestsOnly
      readBlog unmarshalShop runSucceeds "shop").1 manifestShop reaches_shop).2 rfl |>.1]
    decide⟩

/-! ## Theorems: the exact rendered service text -/

theorem lexLe_total (a b : List Char) : lexLe a b = true ∨ lexLe b a = true := by
  induction a generalizing b with
  | nil => left; rfl
  | cons x xs ih =>
    cases b with
    | nil => right; rfl
    | cons y ys =>
      simp only [lexLe, Bool.or_eq_true, decide_eq_true_eq, Bool.and_eq_true]
      rcases Nat.lt_trichotomy x.toNat y.toNat with h | h | h
      · left; left; exact h
      · have hxy : x = y := Char.ext (by
          apply UInt32.ext
          exact h)
        rcases ih ys with h1 | h1
        · left; right; exact ⟨hxy, h1⟩
        · right; right; exact ⟨hxy.symm, h1⟩
      · right; left; exact h

theorem lexLe_trans (a b c : List Char) (h1 : lexLe a b = true) (h2 : lexLe b c = true) :
    lexLe a c = true := by
  induction a generalizing b c with
  | nil => rfl
  | cons x xs ih =>
    cases b with
    | nil => simp [lexLe] at h1
    | cons y ys =>
      cases c with
      | nil => simp [lexLe] at h2
      | cons z zs =>
        simp only [lexLe, Bool.or_eq_true, decide_eq_true_eq, Bool.and_eq_true] at h1 h2 ⊢
        rcases h1 with h1 | ⟨e1, h1⟩
        · rcases h2 with h2 | ⟨e2, _⟩
          · left; omega
          · left; rw [← e2]; exact h1
        · rcases h2 with h2 | ⟨e2, h2⟩
          · left; rw [e1]; exact h2
          · right; exact ⟨e1.trans e2, ih ys zs h1 h2⟩

theorem sortedEntries_sorted (env : List (String × String)) :
    (sortedEntries env).Pairwise keyLe := by
  haveI : IsTotal (String × String) keyLe := ⟨fun a b => lexLe_total a.1.data b.1.data⟩
  haveI : IsTrans (String × String) keyLe :=
    ⟨fun a b c h1 h2 => lexLe_trans a.1.data b.1.data c.1.data h1 h2⟩
  exact List.sorted_insertionSort keyLe env

theorem foldl_append_acc (acc : String) (l : List String) :
    l.foldl (fun r s => r ++ s) acc = acc ++ l.foldl (fun r s => r ++ s) "" := by
  induction l generalizing acc with
  | nil => simp
  | cons x xs ih =>
    rw [List.foldl_cons, List.foldl_cons, ih (acc ++ x), ih ("" ++ x), String.append_assoc]
    simp

theorem join_cons (x : String) (l : List String) :
    String.join (x :: l) = x ++ String.join l := by
  unfold String.join
  rw [List.foldl_cons, foldl_append_acc]
  simp

theorem specEnvEntries_eq (entries : List (String × String)) :
    specEnvEntries entries = renderEnvEntries entries := by
  induction entries with
  | nil => rfl
  | cons e rest ih =>
    obtain ⟨k, v⟩ := e
    have h : specEnvEntries ((k, v) :: rest)
        = (k ++ "=\"" ++ v ++ "\",") ++ specEnvEntries rest := by
      unfold specEnvEntries
      rw [List.map_cons, join_cons]
    rw [h, ih, renderEnvEntries]

/-- The rendered text of a service with both log paths is the text of the
specification. -/
theorem renderService_eq_spec (s : Service) (ho : s.StdoutLogfile ≠ "")
    (he : s.StderrLogfile ≠ "") : renderService s = specServiceText s := by
  apply String.ext
  unfold renderService specServiceText
  rw [specEnvEntries_eq]
  by_cases h1 : s.Environment = []
  · simp [h1, ho, he]
  · simp [h1, ho, he]

theorem serviceDefaults_logs (homeDir : String) (s : Service) :
    (serviceDefaults homeDir s).StdoutLogfile ≠ "" ∧
    (serviceDefaults homeDir s).StderrLogfile ≠ "" := by
  obtain ⟨_, _, _, _, _, _, h7, h8⟩ := serviceDefaults_fields homeDir s
  constructor
  · rw [h7]
    split
    · exact Join_logs_ne_empty _ _
    · assumption
  · rw [h8]
    split
    · exact Join_logs_ne_empty _ _
    · assumption

theorem keyValue_of_parts (key value : String) (hk : key ≠ "") (he : '=' ∉ key.data) :
    isKeyValueLine (key ++ "=" ++ value) :=
  ⟨key, value, hk, he, rfl⟩

/-- The lines between the header and the end of the rendered text have the
form key=value. -/
theorem expectedLines_keyValue (s : Service) (ho : s.StdoutLogfile ≠ "")
    (he : s.StderrLogfile ≠ "") :
    ∀ l ∈ (expectedLines s).tail.dropLast, isKeyValueLine l := by
  have k1 : ∀ v : String, isKeyValueLine ("command=" ++ v) := fun v =>
    keyValue_of_parts "command" v (by decide) (by decide)
  have k2 : ∀ v : String, isKeyValueLine ("directory=" ++ v) := fun v =>
    keyValue_of_parts "directory" v (by decide) (by decide)
  have k3 : ∀ v : String, isKeyValueLine ("environment=" ++ v) := fun v =>
    keyValue_of_parts "environment" v (by decide) (by decide)
  have k4 : ∀ v : String, isKeyValueLine ("startsecs=" ++ v) := fun v =>
    keyValue_of_parts "startsecs" v (by decide) (by decide)
  have k5 : ∀ v : String, isKeyValueLine ("autorestart=" ++ v) := fun v =>
    keyValue_of_parts "autorestart" v (by decide) (by decide)
  have k6 : ∀ v : String, isKeyValueLine ("stdout_logfile=" ++ v) := fun v =>
    keyValue_of_parts "stdout_logfile" v (by decide) (by decide)
  have k7 : ∀ v : String, isKeyValueLine ("stderr_logfile=" ++ v) := fun v =>
    keyValue_of_parts "stderr_logfile" v (by decide) (by decide)
  unfold expectedLines
  by_cases h1 : s.Environment = []
  · simp only [h1, ho, he, ne_eq, not_true_eq_false, not_false_eq_true, if_true, if_false,
      List.cons_append, List.nil_append, List.append_nil, List.tail_cons, List.dropLast,
      List.mem_cons, List.mem_singleton, List.not_mem_nil, or_false]
    rintro l (rfl | rfl | rfl | rfl | rfl | rfl)
    · exact k1 _
    · exact k2 _
    · exact k4 _
    · exact k5 _
    · exact k6 _
    · exact k7 _
  · simp only [h1, ho, he, ne_eq, not_true_eq_false, not_false_eq_true, if_true, if_false,
      List.cons_append, List.nil_append, List.append_nil, List.tail_cons, List.dropLast,
      List.mem_cons, List.mem_singleton, List.not_mem_nil, or_false]
    rintro l (rfl | rfl | rfl | rfl | rfl | rfl | rfl)
    · exact k1 _
    · exact k2 _
    · exact k3 _
    · exact k4 _
    · exact k5 _
    · exact k6 _
    · exact k7 _

/-- The rendered text, cut at the two log lines. -/
theorem renderService_data_logs (s : Service) (ho : s.StdoutLogfile ≠ "")
    (he : s.StderrLogfile ≠ "") :
    ∃ a : List Char,
      (renderService s).data
        = ("[program:" ++ s.Name ++ "]\n").data ++ a
          ++ ("stdout_logfile=" ++ s.StdoutLogfile ++ "\n").data
          ++ ("stderr_logfile=" ++ s.StderrLogfile ++ "\n").data := by
  rw [renderService_eq_spec s ho he]
  unfold specServiceText
  refine ⟨("command=" ++ s.Command ++ "\n" ++ "directory=" ++ s.Directory ++ "\n"
    ++ (if s.Environment ≠ [] then
          "environment=" ++ specEnvEntries (sortedEntries s.Environment) ++ "\n"
        else "")
    ++ "startsecs=" ++ toString s.StartSecs ++ "\n"
    ++ "autorestart=" ++ (if s.AutoRestart then "true" else "false") ++ "\n").data, ?_⟩
  simp only [String.data_append, List.append_assoc]

theorem createService_file_text (m : ServiceManager) (envHome : String)
    (mkdirAll create : String → Option String) (service : Service) (p text : String)
    (h : (m.CreateService envHome mkdirAll create service).file = some (p, text)) :
    text = renderService (serviceDefaults envHome service) := by
  unfold ServiceManager.CreateService at h
  by_cases hhome : envHome = ""
  · simp [UserHomeDir, hhome] at h
  · simp only [UserHomeDir, ne_eq, hhome, not_false_eq_true, if_true] at h
    cases hm : mkdirAll (Join [envHome, "etc", "services.d"]) with
    | some err => simp [hm] at h
    | none =>
      simp only [hm] at h
      cases hd : m.dryRun with
      | true => simp [hd] at h
      | false =>
        simp only [hd, Bool.false_eq_true, if_false] at h
        split at h
        · simp at h
        · simp only [Option.some.injEq, Prod.mk.injEq] at h
          exact h.2.symm

/-- C30 as stated fails: for a service whose error log path ends in a newline,
the defaults change nothing and the rendered text ends in two newlines, not
in a single one. -/
theorem rendered_text_two_newlines_counterexample :
    serviceDefaults "/home/u" svcLogEndsInNewline = svcLogEndsInNewline ∧
    renderService svcLogEndsInNewline
      = "[program:a]\ncommand=c\ndirectory=d\nstartsecs=15\nautorestart=false\nstdout_logfile=o\nstderr_logfile=e\n\n" ∧
    "\n\n".data.isSuffixOf (renderService svcLogEndsInNewline).data = true := by
  decide

/-- C30, amended: for every service, after the defaults of `CreateService`,
the rendered text (which is the content of the file that `CreateService`
writes) is exactly the text of the specification: header, command, directory,
the environment line only for a non-empty mapping with every entry followed by
a comma, the entries being those of the mapping in ascending key order,
startsecs, autorestart and the two log lines, each line followed by a newline.
The text starts with the header, contains both log lines and ends with a
newline; it ends with a single newline when the error log path does not end in
a newline; and when no field contains a newline, every line after the header
has the form key=value. -/
theorem rendered_text_exact (envHome : String) (service s : Service)
    (hs : s = serviceDefaults envHome service) :
    renderService s = specServiceText s ∧
    (∀ (m : ServiceManager) (mkdirAll create : String → Option String) (p text : String),
      (m.CreateService envHome mkdirAll create service).file = some (p, text) →
      text = specServiceText s) ∧
    ((sortedEntries s.Environment).Perm s.Environment ∧
      (sortedEntries s.Environment).Pairwise keyLe) ∧
    ("[program:" ++ s.Name ++ "]\n").data <+: (renderService s).data ∧
    Contains (renderService s) ("stdout_logfile=" ++ s.StdoutLogfile ++ "\n") = true ∧
    Contains (renderService s) ("stderr_logfile=" ++ s.StderrLogfile ++ "\n") = true ∧
    (renderService s).data.getLast? = some '\n' ∧
    (s.StderrLogfile.data.getLast? ≠ some '\n' →
      ¬ "\n\n".data <:+ (renderService s).data) ∧
    (noNewlineInFields s →
      ∀ l ∈ (textLines (renderService s)).tail.dropLast, isKeyValueLine l) := by
  have hlogs := serviceDefaults_logs envHome service
  rw [← hs] at hlogs
  obtain ⟨ho, he⟩ := hlogs
  obtain ⟨a, ha⟩ := renderService_data_logs s ho he
  have hspec := renderService_eq_spec s ho he
  have hb : ∃ y : List Char, (renderService s).data = y ++ s.StderrLogfile.data ++ ['\n'] := by
    refine ⟨("[program:" ++ s.Name ++ "]\n").data ++ a
      ++ ("stdout_logfile=" ++ s.StdoutLogfile ++ "\n").data ++ "stderr_logfile=".data, ?_⟩
    rw [ha]
    simp [String.data_append]
  refine ⟨hspec, ?_, ⟨List.perm_insertionSort keyLe _, sortedEntries_sorted _⟩, ?_, ?_, ?_, ?_,
    ?_, ?_⟩
  · intro m mkdirAll create p text h
    rw [createService_file_text m envHome mkdirAll create service p text h, ← hs, hspec]
  · rw [ha, List.append_assoc, List.append_assoc]
    exact List.prefix_append _ _
  · unfold Contains
    rw [ha]
    exact containsL_of_infix _ _ _
  · unfold Contains
    rw [ha]
    have := containsL_of_infix ("stderr_logfile=" ++ s.StderrLogfile ++ "\n").data
      (("[program:" ++ s.Name ++ "]\n").data ++ a
        ++ ("stdout_logfile=" ++ s.StdoutLogfile ++ "\n").data) []
    rw [List.append_nil] at this
    exact this
  · obtain ⟨y, hy⟩ := hb
    rw [hy]
    simp
  · intro hlast hsuf
    obtain ⟨z, hz⟩ := hsuf
    obtain ⟨y, hy⟩ := hb
    have hne : s.StderrLogfile.data ≠ [] := by
      intro e
      apply he
      apply String.ext
      rw [e]
    have e2 : "\n\n".data = ['\n'] ++ ['\n'] := by decide
    rw [hy, e2, ← List.append_assoc] at hz
    have hinj := List.append_inj_left' hz rfl
    have hl := congrArg List.getLast? hinj
    rw [List.getLast?_append_of_ne_nil _ hne] at hl
    simp at hl
    exact hlast hl.symm
  · intro hno
    obtain ⟨hN, hC, hD, hO, hE, hEnv⟩ := hno
    rw [textLines_renderService s hN hC hD hO hE
      (fun _ => renderEnvEntries_no_newline _
        (fun e hm => hEnv e ((mem_sortedEntries _ e).mp hm)))]
    exact expectedLines_keyValue s ho he

/-- C30, amended, on the service of the test with environment variables under
`HOME=/home/u`: the text is the expected one, with the three entries in the
order DEBUG, NODE_ENV, PORT. -/
theorem rendered_text_exact_witness :
    renderService (serviceDefaults "/home/u" svcEnvApp)
      = specServiceText (serviceDefaults "/home/u" svcEnvApp) ∧
    specServiceText (serviceDefaults "/home/u" svcEnvApp)
      = "[program:envapp]\ncommand=node server.js\ndirectory=/home/user/apps/envapp\nenvironment=DEBUG=\"false\",NODE_ENV=\"production\",PORT=\"8080\",\nstartsecs=15\nautorestart=false\nstdout_logfile=/home/u/logs/envapp.log\nstderr_logfile=/home/u/logs/envapp-error.log\n" :=
  ⟨(rendered_text_exact "/home/u" svcEnvApp (serviceDefaults "/home/u" svcEnvApp) rfl).1,
   by decide⟩

end Uberman
